import Mathlib

/-!
# SPEEDEX batch exchange: liquidity-pool frame, IOC orderbook, offer admission

A shallow embedding of `src/speedex/LiquidityPoolFrame.cpp`,
`src/transactions/CreateSpeedexIOCOfferOpFrame.cpp`, of functions of
`src/transactions/TransactionUtils.cpp` and of the orderbook exercised by
`src/speedex/test/IOCOrderbookTests.cpp`, followed by theorems about them.

Conventions of the embedding:

* `uint64_t`, `unsigned __int128` values are natural numbers, `int64_t`, `__int128` values are
  integers; every operation that the C++ performs in a fixed width is followed by the reduction
  to that width (`% 2 ^ 64`, `toInt64`, ...).
* A call either returns a value (`Except.ok`) or ends in a `Fault`: one of the
  exceptions thrown by the source, or the integer division by zero of
  `total % sellPrice`, after which the C++ program has no defined behaviour. A call that
  ends in a fault returns no state; where the state after a throw matters it is given by a
  function of its own (`frameAfterDoTransfer`).
* Floating point. The lambda `sqrt` is a parameter of the functions that call it, so that
  results which do not depend on its rounding hold for every implementation of it; `sqrtCeil`
  is the exact ceiling of the real square root, and `sqrtDouble` the computation in double
  precision (operands and product rounded to 53 bits, `pow(x, 0.5)` correctly rounded). In
  `assertValidTrade` the fee deduction `std::floor(((double) buyAmount) * (1.0 -
  getFeeRate()))` is taken as exact (`feeAdjustedBuyAmount`), and its addition to the reserve
  is made in double precision, as in the source (`roundToDouble`).
-/

namespace stellar

/-! ## Machine integers -/

/-- Value of a conversion to `uint64_t`. -/
def toUInt64 (x : Int) : Nat := (x % 2 ^ 64).toNat

/-- Value of a conversion to `int64_t` (two's complement). -/
def toInt64 (x : Int) : Int := (x + 2 ^ 63) % 2 ^ 64 - 2 ^ 63

/-- Value of a conversion to `__int128` (two's complement). -/
def toInt128 (x : Int) : Int := (x + 2 ^ 127) % 2 ^ 128 - 2 ^ 127

/-- The constant `INT128_MAX` of `amountOfferedForSaleTimesSellPrice`. -/
def INT128_MAX : Nat := (1 <<< 127) % 2 ^ 128 - 1

/-! ## Faults -/

/-- Ways in which a call does not return a value. -/
inductive Fault where
  /-- `std::runtime_error("can't modify nonexistent lp")` -/
  | nonexistentLp
  /-- `std::runtime_error("invalid sell amount!")` -/
  | invalidSellAmount
  /-- `std::runtime_error("negative sell amount?")` -/
  | negativeSellAmount
  /-- `std::runtime_error("constant product invariant not preserved")` -/
  | constantProductNotPreserved
  /-- The operation `total % sellPrice` with `sellPrice = 0`. -/
  | divisionByZero
  /-- `std::runtime_error("Invalid authorization")` -/
  | invalidAuthorization
  /-- `std::runtime_error("Unknown LedgerEntry type")` -/
  | unknownLedgerEntryType
  /-- `std::runtime_error("Liabilities accessed before version 10")` -/
  | liabilitiesBeforeVersion10
  /-- `std::runtime_error("unexpected sponsorship state")` -/
  | unexpectedSponsorshipState
  /-- `std::runtime_error("unexpected account state")` -/
  | unexpectedAccountState
  /-- `std::runtime_error("expected AccountEntry extension V3")` -/
  | expectedAccountEntryExtensionV3
  /-- `std::runtime_error("issued asset code not found")` -/
  | issuedAssetCodeNotFound
  /-- `std::runtime_error("asset issuance log already exists")` -/
  | issuanceLogAlreadyExists
  /-- `std::runtime_error("can't delete nonexistent issuance log!")` -/
  | cantDeleteNonexistentLog
  /-- `std::logic_error("started with a negative amount?!?")` -/
  | startedWithNegativeAmount
  /-- `std::logic_error("somehow issued a negative amount of an asset!")` -/
  | issuedNegativeAmount
  /-- `std::logic_error("can't issue on non Account entry")` -/
  | cantIssueOnNonAccount
  deriving DecidableEq, Repr

/-- The message of the exception, for the faults that are exceptions. -/
def Fault.what : Fault → Option String
  | .nonexistentLp => some "can't modify nonexistent lp"
  | .invalidSellAmount => some "invalid sell amount!"
  | .negativeSellAmount => some "negative sell amount?"
  | .constantProductNotPreserved => some "constant product invariant not preserved"
  | .divisionByZero => none
  | .invalidAuthorization => some "Invalid authorization"
  | .unknownLedgerEntryType => some "Unknown LedgerEntry type"
  | .liabilitiesBeforeVersion10 => some "Liabilities accessed before version 10"
  | .unexpectedSponsorshipState => some "unexpected sponsorship state"
  | .unexpectedAccountState => some "unexpected account state"
  | .expectedAccountEntryExtensionV3 => some "expected AccountEntry extension V3"
  | .issuedAssetCodeNotFound => some "issued asset code not found"
  | .issuanceLogAlreadyExists => some "asset issuance log already exists"
  | .cantDeleteNonexistentLog => some "can't delete nonexistent issuance log!"
  | .startedWithNegativeAmount => some "started with a negative amount?!?"
  | .issuedNegativeAmount => some "somehow issued a negative amount of an asset!"
  | .cantIssueOnNonAccount => some "can't issue on non Account entry"

/-- The call threw an exception (`std::runtime_error` or `std::logic_error`). -/
def Fault.isThrow (e : Fault) : Bool := e.what.isSome

/-! ## Data model -/

/-- An asset: an identifier with a total order (`operator<` of the source). -/
abbrev Asset := Nat

/-- The struct `AssetPair`. -/
structure AssetPair where
  selling : Asset
  buying : Asset
  deriving DecidableEq, Repr

/-- Modelled from the spec: the constant-product pool entry wrapped by a base frame
(`LiquidityPoolFrameBase.h` is not among the sources): pool identifier, the two `int64_t`
reserves of the assets in canonical order, and the fee in basis points. -/
structure LiquidityPoolEntry where
  poolID : Nat
  reserveA : Int
  reserveB : Int
  fee : Nat
  deriving DecidableEq, Repr

/-- Modelled from the spec: the class `LiquidityPoolFrameBase`, whose definition is not among
the sources. It wraps a pool entry that may be absent. -/
structure LiquidityPoolFrameBase where
  mEntry : Option LiquidityPoolEntry
  deriving DecidableEq, Repr

namespace LiquidityPoolFrameBase

/-- Modelled from the spec: `operator bool`, true when the pool entry exists. -/
def toBool (base : LiquidityPoolFrameBase) : Bool := base.mEntry.isSome

/-- Modelled from the spec: `getReserves()`, the pair `(reserveA, reserveB)`. -/
def getReserves (base : LiquidityPoolFrameBase) : Int × Int :=
  match base.mEntry with
  | some e => (e.reserveA, e.reserveB)
  | none => (0, 0)

/-- Modelled from the spec: `getFee()`, the fee in basis points. -/
def getFee (base : LiquidityPoolFrameBase) : Nat :=
  match base.mEntry with
  | some e => e.fee
  | none => 0

/-- Modelled from the spec: `poolID()`. -/
def poolID (base : LiquidityPoolFrameBase) : Nat :=
  match base.mEntry with
  | some e => e.poolID
  | none => 0

/-- Modelled from the spec: `transfer(amountA, amountB)` adds the two deltas it is given to
`reserveA` and `reserveB`. -/
def transfer (base : LiquidityPoolFrameBase) (amountA amountB : Int) : LiquidityPoolFrameBase :=
  match base.mEntry with
  | some e => ⟨some ⟨e.poolID, e.reserveA + amountA, e.reserveB + amountB, e.fee⟩⟩
  | none => base

end LiquidityPoolFrameBase

/-- The struct `SpeedexLiquidityPoolClearingStatus` filled in by `doTransfer`. -/
structure SpeedexLiquidityPoolClearingStatus where
  pool : Nat
  soldAsset : Asset
  boughtAsset : Asset
  soldAmount : Int
  boughtAmount : Int
  deriving DecidableEq, Repr

/-- The class `LiquidityPoolFrame`: a base frame seen from one trading pair. -/
structure LiquidityPoolFrame where
  mBaseFrame : LiquidityPoolFrameBase
  mTradingPair : AssetPair
  deriving DecidableEq, Repr

/-! ## Square roots -/

/-- Bisection for the integer square root: with `r * r ≤ n < (r + 2 ^ k) * (r + 2 ^ k)` on
entry, the result is the floor of the square root of `n`. -/
def isqrtAux (n : Nat) : Nat → Nat → Nat
  | 0, r => r
  | k + 1, r => if (r + 2 ^ k) * (r + 2 ^ k) ≤ n then isqrtAux n k (r + 2 ^ k) else isqrtAux n k r

/-- Floor of the square root of a 128-bit value (`isqrt_sq_le`, `lt_isqrt_succ_sq`). -/
def isqrt (n : Nat) : Nat := isqrtAux n 64 0

/-- The exact counterpart of the lambda `sqrt` of `amountOfferedForSaleTimesSellPrice`: on
64-bit operands, the ceiling of the real square root of `a * b` (`sqrtCeil_eq_ceil`). The
source computes `ceil(pow((double) a * (double) b, 0.5))` in double precision (`sqrtDouble`),
which has this value for products below `2^52` (`sqrtDouble_eq_sqrtCeil`) and not for all
greater ones. -/
def sqrtCeil (a b : Nat) : Nat :=
  if isqrt (a * b) * isqrt (a * b) = a * b then isqrt (a * b) else isqrt (a * b) + 1

/-! ## Double precision -/

/-- Number of binary digits of a natural number, by halving (for numbers below `2^130`). -/
def bitLengthAux : Nat → Nat → Nat
  | 0, _ => 0
  | fuel + 1, n => if n = 0 then 0 else bitLengthAux fuel (n / 2) + 1

/-- Number of binary digits of a natural number below `2^130`. -/
def bitLength (n : Nat) : Nat := bitLengthAux 130 n

/-- The conversion `(double) n` of an unsigned integer, and the rounding of a result that is
a natural number, in the default rounding mode: to the nearest number with a significand of
53 bits, a tie going to the even significand. -/
def roundToDoubleNat (n : Nat) : Nat :=
  if bitLength n ≤ 53 then n
  else
    let k := bitLength n - 53
    let q := n / 2 ^ k
    let r := n % 2 ^ k
    let half := 2 ^ (k - 1)
    if r > half ∨ (r = half ∧ q % 2 = 1) then (q + 1) * 2 ^ k else q * 2 ^ k

/-- The conversion `(double) x` of a signed integer, and the rounding of a result that is an
integer: `roundToDoubleNat` on the absolute value. -/
def roundToDouble (x : Int) : Int :=
  if x < 0 then -((roundToDoubleNat x.natAbs : Nat) : Int)
  else ((roundToDoubleNat x.natAbs : Nat) : Int)

/-- The value `ceil(pow(x, 0.5))` for a double `x` that is a natural number, with `pow`
taken as correctly rounded: the real square root of `x` rounded to 53 bits (the root is
compared with the midpoint of the two neighbouring doubles by squares), then the ceiling. -/
def ceilSqrtToDouble (x : Nat) : Nat :=
  if x = 0 then 0
  else
    let r := isqrtAux x 65 0
    if 53 ≤ bitLength r then
      let k := bitLength r - 53
      let q := r / 2 ^ k
      let m := (2 * q + 1) * 2 ^ k
      if 4 * x > m * m ∨ (4 * x = m * m ∧ q % 2 = 1) then (q + 1) * 2 ^ k else q * 2 ^ k
    else
      let j := 53 - bitLength r
      let y := x * 4 ^ j
      let q := isqrtAux y 65 0
      let rounded := if 4 * y > (2 * q + 1) * (2 * q + 1) then q + 1 else q
      (rounded + 2 ^ j - 1) / 2 ^ j

/-- The lambda `sqrt` of `amountOfferedForSaleTimesSellPrice` as the source computes it,
`ceil(pow((double) a * (double) b, 0.5))`: the two operands converted to double, their
product rounded to a double, and `pow(x, 0.5)` taken as correctly rounded (a library `pow`
may differ from it by one unit in the last place where the root is not a double). The
conversion of the result to `uint64_t` is made by the lambdas that call it. -/
def sqrtDouble (a b : Nat) : Nat :=
  ceilSqrtToDouble (roundToDoubleNat (roundToDoubleNat a * roundToDoubleNat b))

/-! ## `LiquidityPoolFrame` -/

namespace LiquidityPoolFrame

/-- The method `getSellBuyAmounts`: the reserves oriented by the trading pair. -/
def getSellBuyAmounts (frame : LiquidityPoolFrame) : Int × Int :=
  if !frame.mBaseFrame.toBool then (0, 0)
  else if frame.mTradingPair.selling < frame.mTradingPair.buying then
    (frame.mBaseFrame.getReserves.1, frame.mBaseFrame.getReserves.2)
  else
    (frame.mBaseFrame.getReserves.2, frame.mBaseFrame.getReserves.1)

/-- The method `getFixedPointFeeRate`. -/
def getFixedPointFeeRate (frame : LiquidityPoolFrame) : Nat :=
  if !frame.mBaseFrame.toBool then 0 else frame.mBaseFrame.getFee

/-- The method `subtractFeeRateFixedPoint`: the product is taken in 128 bits and the quotient
is stored in the `uint64_t tax`. -/
def subtractFeeRateFixedPoint (frame : LiquidityPoolFrame) (startingPrice : Nat) : Nat :=
  let fee := frame.getFixedPointFeeRate
  let tax := ((startingPrice * fee) % 2 ^ 128 / 10000) % 2 ^ 64
  if tax ≥ startingPrice then 0 else startingPrice - tax

/-- The method `getMinPriceRatioFixedPoint`: the fraction `n / d` as a pair of `uint64_t`. -/
def getMinPriceRatioFixedPoint (frame : LiquidityPoolFrame) : Nat × Nat :=
  (toUInt64 frame.getSellBuyAmounts.2,
    frame.subtractFeeRateFixedPoint (toUInt64 frame.getSellBuyAmounts.1))

/-- The lambda `priceLT`: `p1n / p1d < p2n / p2d`, by products in 128 bits. -/
def priceLT (p1n p1d p2n p2d : Nat) : Bool :=
  decide ((p1n * p2d) % 2 ^ 128 < (p2n * p1d) % 2 ^ 128)

/-- The lambda `hackyBigSquareRootRoundDown`, over the lambda `sqrt`. -/
def hackyBigSquareRootRoundDown (sqrt : Nat → Nat → Nat) (a b : Nat) : Nat :=
  let sqrtRoundUp := sqrt a b % 2 ^ 64
  let prod := (a * b) % 2 ^ 128
  let prodRoundUp := (sqrtRoundUp * sqrtRoundUp) % 2 ^ 128
  if prod = prodRoundUp then sqrtRoundUp else (sqrtRoundUp + 2 ^ 64 - 1) % 2 ^ 64

/-- The lambda `hackyBigSquareRootRoundUp`, over the lambda `sqrt`. -/
def hackyBigSquareRootRoundUp (sqrt : Nat → Nat → Nat) (a b : Nat) : Nat :=
  sqrt a b % 2 ^ 64

/-- The method `amountOfferedForSaleTimesSellPrice`, over the lambda `sqrt`. The value is
returned as an `__int128`. -/
def amountOfferedForSaleTimesSellPrice (sqrt : Nat → Nat → Nat) (frame : LiquidityPoolFrame)
    (sellPrice buyPrice : Nat) : Except Fault Int :=
  let sellAmount := frame.getSellBuyAmounts.1
  let buyAmount := frame.getSellBuyAmounts.2
  if sellAmount = 0 then .ok 0
  else
    let priceN := frame.getMinPriceRatioFixedPoint.1
    let priceD := frame.getMinPriceRatioFixedPoint.2
    if priceD = 0 then .ok 0
    else if priceLT sellPrice buyPrice priceN priceD then .ok 0
    else
      let firstTerm := hackyBigSquareRootRoundDown sqrt (toUInt64 sellAmount) priceD
      let secondTermA := hackyBigSquareRootRoundUp sqrt (toUInt64 buyAmount) buyPrice
      let secondTermB := hackyBigSquareRootRoundUp sqrt (toUInt64 sellAmount) sellPrice
      let top := (sellPrice * firstTerm) % 2 ^ 128
      let bot := (secondTermA * secondTermB) % 2 ^ 128
      if top < bot then .ok 0
      else
        let total := top - bot
        let total := if total > INT128_MAX then INT128_MAX else total
        if sellPrice = 0 then .error .divisionByZero
        else
          let roundingError := total % sellPrice
          .ok (toInt128 ((total - roundingError : Nat) : Int))

/-- The expression `std::floor(((double) buyAmount) * (1.0 - getFeeRate()))` of
`assertValidTrade`, with `getFeeRate() = fee / 10000`, computed exactly: the floor of
`buyAmount * (10000 - fee) / 10000`. The source computes it in double precision, where
`1.0 - fee / 10000.0` is not exact. -/
def feeAdjustedBuyAmount (frame : LiquidityPoolFrame) (buyAmount : Int) : Int :=
  (buyAmount * (10000 - (frame.getFixedPointFeeRate : Int))) / 10000

/-- The method `assertValidSellAmount`. -/
def assertValidSellAmount (sqrt : Nat → Nat → Nat) (frame : LiquidityPoolFrame)
    (sellAmount : Int) (sellPrice buyPrice : Nat) : Except Fault Unit :=
  match frame.amountOfferedForSaleTimesSellPrice sqrt sellPrice buyPrice with
  | .error e => .error e
  | .ok offeredAmt =>
    let queriedAmt := toInt128 (sellAmount * (sellPrice : Int))
    if queriedAmt > offeredAmt then .error .invalidSellAmount
    else if sellAmount < 0 then .error .negativeSellAmount
    else .ok ()

/-- The method `assertValidTrade`: the difference `oldSellAmount - sellAmount` is an `int64_t`;
the sum `oldBuyAmount + std::floor(...)` is a sum of doubles, the reserve being converted to
double and the sum rounded to a double before its conversion to `__int128`; the products are
`__int128`. -/
def assertValidTrade (sqrt : Nat → Nat → Nat) (frame : LiquidityPoolFrame)
    (sellAmount buyAmount : Int) (sellPrice buyPrice : Nat) : Except Fault Unit :=
  match frame.assertValidSellAmount sqrt sellAmount sellPrice buyPrice with
  | .error e => .error e
  | .ok _ =>
    let oldSellAmount := frame.getSellBuyAmounts.1
    let oldBuyAmount := frame.getSellBuyAmounts.2
    let prevK := toInt128 (oldSellAmount * oldBuyAmount)
    let newK := toInt128 (toInt64 (oldSellAmount - sellAmount)
      * toInt128 (roundToDouble
        (roundToDouble oldBuyAmount + frame.feeAdjustedBuyAmount buyAmount)))
    if newK < prevK then .error .constantProductNotPreserved else .ok ()

/-- The method `doTransfer`: the clearing status it returns and the frame after the call. -/
def doTransfer (sqrt : Nat → Nat → Nat) (frame : LiquidityPoolFrame)
    (sellAmount buyAmount : Int) (sellPrice buyPrice : Nat) :
    Except Fault (SpeedexLiquidityPoolClearingStatus × LiquidityPoolFrame) :=
  if !frame.mBaseFrame.toBool then .error .nonexistentLp
  else
    match frame.assertValidTrade sqrt sellAmount buyAmount sellPrice buyPrice with
    | .error e => .error e
    | .ok _ =>
      let base :=
        if frame.mTradingPair.selling < frame.mTradingPair.buying then
          frame.mBaseFrame.transfer (toInt64 (-sellAmount)) buyAmount
        else
          frame.mBaseFrame.transfer buyAmount (toInt64 (-sellAmount))
      .ok (⟨base.poolID, frame.mTradingPair.selling, frame.mTradingPair.buying,
            sellAmount, buyAmount⟩, ⟨base, frame.mTradingPair⟩)

/-- The frame after a call of `doTransfer`, also when the call throws: the statements of the
method in their order, of which `mBaseFrame.transfer` is the only one that writes (the
checks before it are `const` methods). -/
def frameAfterDoTransfer (sqrt : Nat → Nat → Nat) (frame : LiquidityPoolFrame)
    (sellAmount buyAmount : Int) (sellPrice buyPrice : Nat) : LiquidityPoolFrame :=
  if !frame.mBaseFrame.toBool then frame
  else
    match frame.assertValidTrade sqrt sellAmount buyAmount sellPrice buyPrice with
    | .error _ => frame
    | .ok _ =>
      if frame.mTradingPair.selling < frame.mTradingPair.buying then
        ⟨frame.mBaseFrame.transfer (toInt64 (-sellAmount)) buyAmount, frame.mTradingPair⟩
      else
        ⟨frame.mBaseFrame.transfer buyAmount (toInt64 (-sellAmount)), frame.mTradingPair⟩

end LiquidityPoolFrame

/-! ## Prices and IOC offers -/

/-- The XDR struct `Price`: numerator `n` and denominator `d`, both `int32`. -/
structure Price where
  n : Int
  d : Int
  deriving DecidableEq, Repr

/-- Modelled from the spec: the class `IOCOffer` (`IOCOffer.h` is not among the sources), built
as `IOCOffer(sellAmount, minPrice, owner, seqNum, opIndex)`. -/
structure IOCOffer where
  mSellAmount : Int
  mMinPrice : Price
  mSourceAccount : Nat
  mSeqNum : Int
  mOpIndex : Nat
  deriving DecidableEq, Repr

/-! ## IOC orderbook

`IOCOrderbook.h` and its implementation are not among the sources, only the tests
`src/speedex/test/IOCOrderbookTests.cpp` that call it: the orderbook is modelled from the
spec (sections 3 and 4.1). The spec gives no width for the cumulative sell amount, which is
kept exact; the weighted sum is a 128-bit value that saturates. -/

/-- Modelled from the spec: the total order of offers, by price (compared by the cross
products `n1 * d2` and `n2 * d1`), then owner, sequence number and operation index. -/
def IOCOffer.le (a b : IOCOffer) : Bool :=
  if a.mMinPrice.n * b.mMinPrice.d < b.mMinPrice.n * a.mMinPrice.d then true
  else if b.mMinPrice.n * a.mMinPrice.d < a.mMinPrice.n * b.mMinPrice.d then false
  else if a.mSourceAccount < b.mSourceAccount then true
  else if b.mSourceAccount < a.mSourceAccount then false
  else if a.mSeqNum < b.mSeqNum then true
  else if b.mSeqNum < a.mSeqNum then false
  else decide (a.mOpIndex ≤ b.mOpIndex)

/-- Modelled from the spec: insertion of an offer in a list sorted by `IOCOffer.le`. -/
def insertOffer (o : IOCOffer) : List IOCOffer → List IOCOffer
  | [] => [o]
  | x :: xs => if o.le x then o :: x :: xs else x :: insertOffer o xs

/-- Modelled from the spec: "sort offers by minPrice ascending (with the deterministic
tiebreak)". -/
def sortOffers : List IOCOffer → List IOCOffer
  | [] => []
  | x :: xs => insertOffer x (sortOffers xs)

/-- Modelled from the spec: the value returned by `getPriceCompStats`, with the two fields read
by the tests, and the price of the last offer counted. -/
structure PriceCompStats where
  sellPrice : Price
  cumulativeOfferedForSale : Int
  cumulativeOfferedForSaleTimesPrice : Nat
  deriving DecidableEq, Repr

/-- Modelled from the spec: the contribution of an offer to the weighted sum,
`((sellAmount * minPrice.n) << 32) / minPrice.d` in 128 bits. -/
def IOCOffer.weightedContribution (o : IOCOffer) : Nat :=
  (((o.mSellAmount * o.mMinPrice.n) * 2 ^ 32 / o.mMinPrice.d) % 2 ^ 128).toNat

/-- Modelled from the spec: addition of 128-bit values that saturates to the largest one. -/
def saturatingAdd128 (a b : Nat) : Nat := min (a + b) (2 ^ 128 - 1)

/-- Modelled from the spec: the two prefix sums, over the offers in sorted order, from the sums
`amount` and `weighted` of the offers before them. -/
def accumulateStats : Int → Nat → List IOCOffer → List PriceCompStats
  | _, _, [] => []
  | amount, weighted, o :: os =>
    ⟨o.mMinPrice, amount + o.mSellAmount, saturatingAdd128 weighted o.weightedContribution⟩
      :: accumulateStats (amount + o.mSellAmount)
          (saturatingAdd128 weighted o.weightedContribution) os

/-- Modelled from the spec: an offer price `p` is at most the candidate price `pn / pd`, by
cross-multiplication. -/
def priceAtMost (p : Price) (pn pd : Nat) : Bool :=
  decide (p.n * (pd : Int) ≤ (pn : Int) * p.d)

/-- Modelled from the spec: the binary search for "the largest prefix whose minPrice ≤
(pn/pd)" between the positions `lo` and `hi` of the preprocessed data; the first argument
bounds the number of halvings. -/
def searchPrefixLength (data : List PriceCompStats) (pn pd : Nat) : Nat → Nat → Nat → Nat
  | 0, lo, _ => lo
  | fuel + 1, lo, hi =>
    if lo < hi then
      match data[lo + (hi - lo) / 2]? with
      | some s =>
        if priceAtMost s.sellPrice pn pd then
          searchPrefixLength data pn pd fuel (lo + (hi - lo) / 2 + 1) hi
        else searchPrefixLength data pn pd fuel lo (lo + (hi - lo) / 2)
      | none => lo
    else lo

/-- Modelled from the spec: the class `IOCOrderbook` of one trading pair: the offers added, and
the data filled in by the preprocessing. -/
structure IOCOrderbook where
  mTradingPair : AssetPair
  mOffers : List IOCOffer
  mPrecomputedTatonnementData : List PriceCompStats
  deriving DecidableEq, Repr

namespace IOCOrderbook

/-- Modelled from the spec: the constructor, an orderbook "constructed empty". -/
def empty (tradingPair : AssetPair) : IOCOrderbook := ⟨tradingPair, [], []⟩

/-- Modelled from the spec: `addOffer`. -/
def addOffer (book : IOCOrderbook) (offer : IOCOffer) : IOCOrderbook :=
  ⟨book.mTradingPair, offer :: book.mOffers, book.mPrecomputedTatonnementData⟩

/-- Calls of `addOffer`, one after the other, for the offers of a list. -/
def addOffers (book : IOCOrderbook) (offers : List IOCOffer) : IOCOrderbook :=
  offers.foldl addOffer book

/-- Modelled from the spec: `doPriceComputationPreprocessing`. -/
def doPriceComputationPreprocessing (book : IOCOrderbook) : IOCOrderbook :=
  ⟨book.mTradingPair, book.mOffers, accumulateStats 0 0 (sortOffers book.mOffers)⟩

/-- Modelled from the spec: `getPriceCompStats(pn, pd)`: "the prefix's stored cumulative values
are the answer", zero for the empty prefix. -/
def getPriceCompStats (book : IOCOrderbook) (pn pd : Nat) : PriceCompStats :=
  match searchPrefixLength book.mPrecomputedTatonnementData pn pd
      book.mPrecomputedTatonnementData.length 0 book.mPrecomputedTatonnementData.length with
  | 0 => ⟨⟨0, 1⟩, 0, 0⟩
  | k + 1 => book.mPrecomputedTatonnementData.getD k ⟨⟨0, 1⟩, 0, 0⟩

/-- Modelled from the spec: the three-argument query
`cumulativeOfferedForSaleTimesPrice(sellPrice, buyPrice, smoothMult)` that the tests "demand
query" and "attempt overflow demand query" call; its implementation is not among the sources.
The result is a 128-bit value in units of the sell price (section 8, scenarios 4 and 5:
`300 * 10000`, `sellAmount * u64 max`, "must not wrap"), saturating as the spec requires of
overflows. Section 4.1 of the spec describes the third argument as a cap on
`supplyTimesPriceAt`, which the assertions of the tests contradict (with one offer of 10000 at
`300/100`, the results at `(400, 100)` are `400 * 10000`, `200 * 10000`, `400 * 10000` for the
third arguments 0, 1, 2); the model follows the tests, the third argument being a smoothing
exponent: offers priced at most `(sellPrice - (sellPrice >> smoothMult)) / buyPrice` are
counted in full at the sell price, and the offers between that price and
`sellPrice / buyPrice` for the difference between the sell price and their own price, scaled
by `2 ^ smoothMult`; with `smoothMult = 0` every offer priced at most `sellPrice / buyPrice`
is counted in full. -/
def cumulativeOfferedForSaleTimesPrice (book : IOCOrderbook)
    (sellPrice buyPrice smoothMult : Nat) : Nat :=
  let partialExecStats := book.getPriceCompStats sellPrice buyPrice
  let fullExecStats :=
    if smoothMult = 0 then partialExecStats
    else book.getPriceCompStats (sellPrice - (sellPrice >>> smoothMult)) buyPrice
  let fullExec := sellPrice * fullExecStats.cumulativeOfferedForSale.toNat
  let partialAmount :=
    (partialExecStats.cumulativeOfferedForSale - fullExecStats.cumulativeOfferedForSale).toNat
  let partialTimesPrice := partialExecStats.cumulativeOfferedForSaleTimesPrice
    - fullExecStats.cumulativeOfferedForSaleTimesPrice
  let partialExec :=
    (sellPrice * partialAmount - ((buyPrice * partialTimesPrice) >>> 32)) <<< smoothMult
  min (fullExec + partialExec) (2 ^ 128 - 1)

end IOCOrderbook

/-! ## `CreateSpeedexIOCOfferOpFrame` -/

/-- The result codes of the operation that the source sets, with the code of success. -/
inductive CreateSpeedexIOCOfferResultCode where
  | CREATE_SPEEDEX_IOC_OFFER_SUCCESS
  | CREATE_SPEEDEX_IOC_OFFER_MALFORMED
  | CREATE_SPEEDEX_IOC_OFFER_NO_SPEEDEX_CONFIG
  | CREATE_SPEEDEX_IOC_OFFER_INVALID_TRADING_PAIR
  deriving DecidableEq, Repr

/-- The XDR struct `CreateSpeedexIOCOfferOp`, with the fields that the source reads. -/
structure CreateSpeedexIOCOfferOp where
  sellAsset : Asset
  buyAsset : Asset
  sellAmount : Int
  minPrice : Price
  deriving DecidableEq, Repr

/-- The class `CreateSpeedexIOCOfferOpFrame`: the operation, its index, the source account
(`getSourceID()`), the sequence number of the parent transaction (`mParentTx.getSeqNum()`) and
the result code held by `innerResult()`. -/
structure CreateSpeedexIOCOfferOpFrame where
  mCreateSpeedexIOCOffer : CreateSpeedexIOCOfferOp
  mOperationIndex : Nat
  sourceID : Nat
  seqNum : Int
  innerResultCode : CreateSpeedexIOCOfferResultCode
  deriving DecidableEq, Repr

namespace CreateSpeedexIOCOfferOpFrame

/-- The call `innerResult().code(c)`. -/
def setCode (frame : CreateSpeedexIOCOfferOpFrame) (c : CreateSpeedexIOCOfferResultCode) :
    CreateSpeedexIOCOfferOpFrame :=
  ⟨frame.mCreateSpeedexIOCOffer, frame.mOperationIndex, frame.sourceID, frame.seqNum, c⟩

/-- The method `checkMalformed`: the value returned and the frame after the call. -/
def checkMalformed (frame : CreateSpeedexIOCOfferOpFrame) :
    Bool × CreateSpeedexIOCOfferOpFrame :=
  if frame.mCreateSpeedexIOCOffer.sellAmount ≤ 0 then
    (false, frame.setCode .CREATE_SPEEDEX_IOC_OFFER_MALFORMED)
  else if frame.mCreateSpeedexIOCOffer.minPrice.n ≤ 0
      ∨ frame.mCreateSpeedexIOCOffer.minPrice.d ≤ 0 then
    (false, frame.setCode .CREATE_SPEEDEX_IOC_OFFER_MALFORMED)
  else (true, frame)

/-- The method `doCheckValid`, which ignores the ledger version. -/
def doCheckValid (frame : CreateSpeedexIOCOfferOpFrame) (_ledgerVersion : Nat) :
    Bool × CreateSpeedexIOCOfferOpFrame :=
  frame.checkMalformed

end CreateSpeedexIOCOfferOpFrame

/-! ## Ledger state read and written by the operation -/

/-- An account identifier. -/
abbrev AccountID := Nat

/-- The XDR enum `AssetType`. -/
inductive AssetType where
  | ASSET_TYPE_NATIVE
  | ASSET_TYPE_CREDIT_ALPHANUM4
  | ASSET_TYPE_CREDIT_ALPHANUM12
  | ASSET_TYPE_POOL_SHARE
  deriving DecidableEq, Repr

/-- What the sources use of the XDR declarations and of `getIssuer`, none of which is among
them: the type of an asset (`asset.type()`), its issuer (`getIssuer(asset)`), the account
flag `AUTH_ISSUANCE_LIMIT` and the trust-line flag `AUTHORIZED_FLAG`. They are parameters of
the functions that use them. -/
structure XdrDeclarations where
  assetType : Asset → AssetType
  getIssuer : Asset → AccountID
  AUTH_ISSUANCE_LIMIT : Nat
  AUTHORIZED_FLAG : Nat

/-- The XDR struct `Liabilities`: two `int64` amounts. -/
structure Liabilities where
  buying : Int
  selling : Int
  deriving DecidableEq, Repr

/-- An asset code (the XDR union `AssetCode`): an identifier with a total order
(`operator<` and `operator==` of the source). -/
abbrev AssetCode := Nat

/-- The XDR struct `IssuedAssetLog`: an asset code and the `int64` amount issued of it. -/
structure IssuedAssetLog where
  code : AssetCode
  issuedAmount : Int
  deriving DecidableEq, Repr

/-- The XDR struct `AccountEntryExtensionV3`: the vector of issued-asset logs. -/
structure AccountEntryExtensionV3 where
  issuedAmounts : List IssuedAssetLog
  deriving DecidableEq, Repr

/-- The XDR struct `AccountEntryExtensionV2`, with the fields that the functions below
read, and the extension, absent (`ext.v() == 0`) or of version 3. -/
structure AccountEntryExtensionV2 where
  numSponsored : Nat
  numSponsoring : Nat
  ext : Option AccountEntryExtensionV3
  deriving DecidableEq, Repr

/-- The XDR struct `AccountEntryExtensionV1`: the liabilities and the extension, absent
(`ext.v() == 0`) or of version 2. -/
structure AccountEntryExtensionV1 where
  liabilities : Liabilities
  ext : Option AccountEntryExtensionV2
  deriving DecidableEq, Repr

/-- The XDR struct `AccountEntry`, with the fields that the functions below read: the `int64`
balance, the `uint32` number of subentries, the flags, and the extension, absent
(`ext.v() == 0`) or of version 1. -/
structure AccountEntry where
  balance : Int
  numSubEntries : Nat
  flags : Nat
  ext : Option AccountEntryExtensionV1
  deriving DecidableEq, Repr

/-- Modelled from the spec: the class `SpeedexConfigSnapshotFrame`
(`SpeedexConfigEntryFrame.h` is not among the sources): the config entry, absent or naming
"the set of tradable asset pairs". -/
structure SpeedexConfigSnapshotFrame where
  mEntry : Option (List AssetPair)
  deriving DecidableEq, Repr

namespace SpeedexConfigSnapshotFrame

/-- Modelled from the spec: `operator bool`, true when the config entry exists. -/
def toBool (config : SpeedexConfigSnapshotFrame) : Bool := config.mEntry.isSome

/-- Modelled from the spec: `isValidAssetPair(pair)`, membership in the set of tradable
pairs. -/
def isValidAssetPair (config : SpeedexConfigSnapshotFrame) (pair : AssetPair) : Bool :=
  match config.mEntry with
  | some pairs => decide (pair ∈ pairs)
  | none => false

end SpeedexConfigSnapshotFrame

/-- Modelled from the spec: the part of the ledger transaction (`AbstractLedgerTxn`, not among
the sources) that the operation reads and writes: the account entries, the speedex config
entry, and the orderbook of batch offers of every trading pair. -/
structure AbstractLedgerTxn where
  accounts : AccountID → Option AccountEntry
  speedexConfig : Option (List AssetPair)
  speedexIOCOffers : AssetPair → IOCOrderbook

namespace AbstractLedgerTxn

/-- Modelled from the spec: `addSpeedexIOCOffer(tradingPair, offer)`, which adds the offer to
the orderbook of the trading pair. -/
def addSpeedexIOCOffer (ltx : AbstractLedgerTxn) (tradingPair : AssetPair) (offer : IOCOffer) :
    AbstractLedgerTxn :=
  ⟨ltx.accounts, ltx.speedexConfig,
    fun pair => if pair = tradingPair then (ltx.speedexIOCOffers pair).addOffer offer
      else ltx.speedexIOCOffers pair⟩

end AbstractLedgerTxn

/-- The function `loadAccount`: the account entry of the ledger, if any. -/
def loadAccount (ltx : AbstractLedgerTxn) (accountID : AccountID) : Option AccountEntry :=
  ltx.accounts accountID

/-- The function `loadSpeedexConfigSnapshot`. -/
def loadSpeedexConfigSnapshot (ltx : AbstractLedgerTxn) : SpeedexConfigSnapshotFrame :=
  ⟨ltx.speedexConfig⟩

/-- The function `isIssuanceLimitedAccount(uint32_t flags)`. -/
def isIssuanceLimitedAccount (xdr : XdrDeclarations) (flags : Nat) : Bool :=
  (flags &&& xdr.AUTH_ISSUANCE_LIMIT) != 0

/-- The function `isCommutativeTxEnabledAsset(AbstractLedgerTxn&, Asset const&)`. -/
def isCommutativeTxEnabledAsset (xdr : XdrDeclarations) (ltx : AbstractLedgerTxn)
    (asset : Asset) : Bool :=
  if xdr.assetType asset = .ASSET_TYPE_NATIVE then true
  else
    match loadAccount ltx (xdr.getIssuer asset) with
    | none => false
    | some acct => isIssuanceLimitedAccount xdr acct.flags

namespace CreateSpeedexIOCOfferOpFrame

/-- The method `checkValidAssetPair`: the value returned and the frame after the call. -/
def checkValidAssetPair (xdr : XdrDeclarations) (frame : CreateSpeedexIOCOfferOpFrame)
    (ltx : AbstractLedgerTxn) : Bool × CreateSpeedexIOCOfferOpFrame :=
  if !(loadSpeedexConfigSnapshot ltx).toBool then
    (false, frame.setCode .CREATE_SPEEDEX_IOC_OFFER_NO_SPEEDEX_CONFIG)
  else if !(loadSpeedexConfigSnapshot ltx).isValidAssetPair
      ⟨frame.mCreateSpeedexIOCOffer.sellAsset, frame.mCreateSpeedexIOCOffer.buyAsset⟩ then
    (false, frame.setCode .CREATE_SPEEDEX_IOC_OFFER_INVALID_TRADING_PAIR)
  else if !isCommutativeTxEnabledAsset xdr ltx frame.mCreateSpeedexIOCOffer.sellAsset then
    (false, frame.setCode .CREATE_SPEEDEX_IOC_OFFER_MALFORMED)
  else if !isCommutativeTxEnabledAsset xdr ltx frame.mCreateSpeedexIOCOffer.buyAsset then
    (false, frame.setCode .CREATE_SPEEDEX_IOC_OFFER_MALFORMED)
  else (true, frame)

/-- The method `doApply`: the value returned, the frame and the ledger transaction after the
call. -/
def doApply (xdr : XdrDeclarations) (frame : CreateSpeedexIOCOfferOpFrame)
    (ltx : AbstractLedgerTxn) : Bool × CreateSpeedexIOCOfferOpFrame × AbstractLedgerTxn :=
  if !(frame.checkValidAssetPair xdr ltx).1 then
    (false, (frame.checkValidAssetPair xdr ltx).2, ltx)
  else if !(frame.checkValidAssetPair xdr ltx).2.checkMalformed.1 then
    (false, (frame.checkValidAssetPair xdr ltx).2.checkMalformed.2, ltx)
  else
    (true, (frame.checkValidAssetPair xdr ltx).2.checkMalformed.2,
      ltx.addSpeedexIOCOffer
        ⟨frame.mCreateSpeedexIOCOffer.sellAsset, frame.mCreateSpeedexIOCOffer.buyAsset⟩
        ⟨frame.mCreateSpeedexIOCOffer.sellAmount, frame.mCreateSpeedexIOCOffer.minPrice,
          frame.sourceID, frame.seqNum, frame.mOperationIndex⟩)

end CreateSpeedexIOCOfferOpFrame

/-! ## `TransactionUtils.cpp`: trust-line assets, pool identifiers, available balance -/

/-- The XDR union `TrustLineAsset`: for the types `ASSET_TYPE_NATIVE`,
`ASSET_TYPE_CREDIT_ALPHANUM4` and `ASSET_TYPE_CREDIT_ALPHANUM12` the arm of an `Asset` of that
type, for `ASSET_TYPE_POOL_SHARE` the identifier of a liquidity pool. -/
inductive TrustLineAsset where
  | asset (asset : Asset)
  | poolShare (liquidityPoolID : Nat)
  deriving DecidableEq, Repr

/-- The accessor `tlAsset.type()`. -/
def TrustLineAsset.type (xdr : XdrDeclarations) : TrustLineAsset → AssetType
  | .asset a => xdr.assetType a
  | .poolShare _ => .ASSET_TYPE_POOL_SHARE

/-- The function `trustLineAssetToAsset`: the asset of the same type and arm, `std::nullopt`
for a pool share. The `default` branch of the `switch` ("unknown asset type") has no value of
`AssetType` to serve. -/
def trustLineAssetToAsset (xdr : XdrDeclarations) (tlAsset : TrustLineAsset) : Option Asset :=
  match tlAsset.type xdr with
  | .ASSET_TYPE_NATIVE =>
    match tlAsset with
    | .asset a => some a
    | .poolShare _ => none
  | .ASSET_TYPE_CREDIT_ALPHANUM4 =>
    match tlAsset with
    | .asset a => some a
    | .poolShare _ => none
  | .ASSET_TYPE_CREDIT_ALPHANUM12 =>
    match tlAsset with
    | .asset a => some a
    | .poolShare _ => none
  | .ASSET_TYPE_POOL_SHARE => none

/-- The function `isCommutativeTxEnabledAsset(AbstractLedgerTxn&, TrustLineAsset const&)`. -/
def TrustLineAsset.isCommutativeTxEnabledAsset (xdr : XdrDeclarations)
    (ltx : AbstractLedgerTxn) (tlAsset : TrustLineAsset) : Bool :=
  match trustLineAssetToAsset xdr tlAsset with
  | none => false
  | some a => stellar.isCommutativeTxEnabledAsset xdr ltx a

/-- The XDR struct `LiquidityPoolConstantProductParameters`. -/
structure LiquidityPoolConstantProductParameters where
  assetA : Asset
  assetB : Asset
  fee : Nat
  deriving DecidableEq, Repr

/-- The local `params` of `getPoolID` before it is hashed: the two assets in the order of
`operator<` and the fee `LIQUIDITY_POOL_FEE_V18`, a constant that is not among the sources
and is a parameter. -/
def getPoolIDParams (LIQUIDITY_POOL_FEE_V18 : Nat) (selling buying : Asset) :
    LiquidityPoolConstantProductParameters :=
  if selling < buying then ⟨selling, buying, LIQUIDITY_POOL_FEE_V18⟩
  else ⟨buying, selling, LIQUIDITY_POOL_FEE_V18⟩

/-- The function `getPoolID`: the hash `xdrSha256`, which is not among the sources and is a
parameter, of the pool parameters. -/
def getPoolID (xdrSha256 : LiquidityPoolConstantProductParameters → Nat)
    (LIQUIDITY_POOL_FEE_V18 : Nat) (selling buying : Asset) : Nat :=
  xdrSha256 (getPoolIDParams LIQUIDITY_POOL_FEE_V18 selling buying)

/-- The XDR struct `LedgerHeader`, with the `uint32` fields that the functions below read. -/
structure LedgerHeader where
  ledgerVersion : Nat
  baseReserve : Nat
  deriving DecidableEq, Repr

/-- The XDR struct `TrustLineEntry`, with the fields that the functions below read: the
asset, the `int64` balance, the flags, and the liabilities of the extension, absent when
`ext.v() == 0`. -/
structure TrustLineEntry where
  asset : TrustLineAsset
  balance : Int
  flags : Nat
  ext : Option Liabilities
  deriving DecidableEq, Repr

/-- The XDR union `LedgerEntry::data`: an account, a trust line, or an entry of another
type. -/
inductive LedgerEntryData where
  | ACCOUNT (account : AccountEntry)
  | TRUSTLINE (trustLine : TrustLineEntry)
  | OTHER (type : Nat)
  deriving DecidableEq, Repr

/-- The XDR struct `LedgerEntry`, with the field that the functions below read. -/
structure LedgerEntry where
  data : LedgerEntryData
  deriving DecidableEq, Repr

/-- The constant `TRUSTLINE_AUTH_FLAGS`, by the `static_assert(TRUSTLINE_AUTH_FLAGS == 3, ...)`
of `trustLineFlagAuthIsValid`. -/
def TRUSTLINE_AUTH_FLAGS : Nat := 3

/-- The function `hasAccountEntryExtV2`. -/
def hasAccountEntryExtV2 (ae : AccountEntry) : Bool :=
  match ae.ext with
  | some v1 => v1.ext.isSome
  | none => false

/-- The function `getMinBalance(LedgerHeader const&, uint32_t, uint32_t, uint32_t)`. Up to
version 8 the product is taken in `uint32_t`; from version 9 `effEntries` is an `int64_t`
(its value, below `2^34` in absolute value, is exact) and so is the product. -/
def getMinBalance (lh : LedgerHeader) (numSubentries numSponsoring numSponsored : Nat) :
    Except Fault Int :=
  if lh.ledgerVersion < 14 ∧ (numSponsored ≠ 0 ∨ numSponsoring ≠ 0) then
    .error .unexpectedSponsorshipState
  else if lh.ledgerVersion ≤ 8 then
    .ok ((((2 + numSubentries) % 2 ^ 32 * lh.baseReserve) % 2 ^ 32 : Nat) : Int)
  else
    let effEntries : Int := 2 + (numSubentries : Int) + (numSponsoring : Int)
      - (numSponsored : Int)
    if effEntries < 0 then .error .unexpectedAccountState
    else .ok (toInt64 (effEntries * (lh.baseReserve : Int)))

/-- The function `getMinBalance(LedgerHeader const&, AccountEntry const&)`. -/
def AccountEntry.getMinBalance (header : LedgerHeader) (acc : AccountEntry) :
    Except Fault Int :=
  let sponsorship : Nat × Nat :=
    if header.ledgerVersion ≥ 14 ∧ hasAccountEntryExtV2 acc = true then
      match acc.ext with
      | some ⟨_, some v2⟩ => (v2.numSponsoring, v2.numSponsored)
      | _ => (0, 0)
    else (0, 0)
  stellar.getMinBalance header acc.numSubEntries sponsorship.1 sponsorship.2

/-- The function `getSellingLiabilities(LedgerHeader const&, LedgerEntry const&)`. -/
def getSellingLiabilities (header : LedgerHeader) (le : LedgerEntry) : Except Fault Int :=
  if header.ledgerVersion < 10 then .error .liabilitiesBeforeVersion10
  else
    match le.data with
    | .ACCOUNT acc =>
      match acc.ext with
      | none => .ok 0
      | some v1 => .ok v1.liabilities.selling
    | .TRUSTLINE tl =>
      match tl.ext with
      | none => .ok 0
      | some liabilities => .ok liabilities.selling
    | .OTHER _ => .error .unknownLedgerEntryType

/-- The function `isAuthorized(LedgerEntry const&)`, on the trust line of the entry. -/
def isAuthorized (xdr : XdrDeclarations) (tl : TrustLineEntry) : Bool :=
  (tl.flags &&& xdr.AUTHORIZED_FLAG) != 0

/-- The function `isAuthorizedToMaintainLiabilitiesUnsafe`. -/
def isAuthorizedToMaintainLiabilitiesUnsafe (flags : Nat) : Bool :=
  (flags &&& TRUSTLINE_AUTH_FLAGS) != 0

/-- The function `isAuthorizedToMaintainLiabilities(LedgerEntry const&)`, on the trust line
of the entry. -/
def isAuthorizedToMaintainLiabilities (xdr : XdrDeclarations) (tl : TrustLineEntry) : Bool :=
  if tl.asset.type xdr = .ASSET_TYPE_POOL_SHARE then true
  else isAuthorizedToMaintainLiabilitiesUnsafe tl.flags

/-- The function `checkAuthorization`, on the trust line of the entry. -/
def checkAuthorization (xdr : XdrDeclarations) (header : LedgerHeader) (tl : TrustLineEntry) :
    Except Fault Bool :=
  if header.ledgerVersion < 10 then
    if !isAuthorized xdr tl then .ok false else .ok true
  else if !isAuthorizedToMaintainLiabilities xdr tl then .error .invalidAuthorization
  else .ok true

/-- The function `getAvailableBalance(LedgerHeader const&, LedgerEntry const&)`: the
differences are taken in `int64_t`. -/
def getAvailableBalance (xdr : XdrDeclarations) (header : LedgerHeader) (le : LedgerEntry) :
    Except Fault Int :=
  let avail : Except Fault Int :=
    match le.data with
    | .ACCOUNT acc =>
      match AccountEntry.getMinBalance header acc with
      | .error e => .error e
      | .ok minBalance => .ok (toInt64 (acc.balance - minBalance))
    | .TRUSTLINE tl =>
      match checkAuthorization xdr header tl with
      | .error e => .error e
      | .ok _ => .ok tl.balance
    | .OTHER _ => .error .unknownLedgerEntryType
  match avail with
  | .error e => .error e
  | .ok avail =>
    if header.ledgerVersion ≥ 10 then
      match getSellingLiabilities header le with
      | .error e => .error e
      | .ok selling => .ok (toInt64 (avail - selling))
    else .ok avail

/-! ## Commutativity requirements of the operation -/

/-- Modelled from the spec: the collector `TransactionCommutativityRequirements`, which is
not among the sources, seen through the registrations made to it: the `(owner, asset,
amount)` of every call of `addAssetRequirement`, the latest first. The "running total" of an
owner in an asset is the sum of the amounts registered for them. -/
structure TransactionCommutativityRequirements where
  mRequiredAssets : List (AccountID × Asset × Int)
  deriving DecidableEq, Repr

/-- Modelled from the spec: `addAssetRequirement(account, asset, amount)` registers the
triple. -/
def TransactionCommutativityRequirements.addAssetRequirement
    (reqs : TransactionCommutativityRequirements) (account : AccountID) (asset : Asset)
    (amount : Int) : TransactionCommutativityRequirements :=
  ⟨(account, asset, amount) :: reqs.mRequiredAssets⟩

namespace CreateSpeedexIOCOfferOpFrame

/-- The method `doAddCommutativityRequirementsUnconditional`: the collector after the call. -/
def doAddCommutativityRequirementsUnconditional (frame : CreateSpeedexIOCOfferOpFrame)
    (reqs : TransactionCommutativityRequirements) : TransactionCommutativityRequirements :=
  reqs.addAssetRequirement frame.sourceID frame.mCreateSpeedexIOCOffer.sellAsset
    frame.mCreateSpeedexIOCOffer.sellAmount

/-- The method `doAddCommutativityRequirements`: the value returned, the frame and the
collector after the call. The method `checkTrustLine` of the collector, which is not among
the sources, is a parameter: from the collector, the ledger, an account and an asset it gives
a boolean and the collector after the call. -/
def doAddCommutativityRequirements (xdr : XdrDeclarations)
    (checkTrustLine : TransactionCommutativityRequirements → AbstractLedgerTxn → AccountID →
      Asset → Bool × TransactionCommutativityRequirements)
    (frame : CreateSpeedexIOCOfferOpFrame) (ltx : AbstractLedgerTxn)
    (reqs : TransactionCommutativityRequirements) :
    Bool × CreateSpeedexIOCOfferOpFrame × TransactionCommutativityRequirements :=
  if !(frame.checkValidAssetPair xdr ltx).1 then
    (false, (frame.checkValidAssetPair xdr ltx).2, reqs)
  else
    let checked := (frame.checkValidAssetPair xdr ltx).2
    let buyCheck := checkTrustLine reqs ltx checked.sourceID
      checked.mCreateSpeedexIOCOffer.buyAsset
    if !buyCheck.1 then
      (false, checked.setCode .CREATE_SPEEDEX_IOC_OFFER_MALFORMED, buyCheck.2)
    else
      let sellCheck := checkTrustLine buyCheck.2 ltx checked.sourceID
        checked.mCreateSpeedexIOCOffer.sellAsset
      if !sellCheck.1 then
        (false, checked.setCode .CREATE_SPEEDEX_IOC_OFFER_MALFORMED, sellCheck.2)
      else (true, checked, checked.doAddCommutativityRequirementsUnconditional sellCheck.2)

end CreateSpeedexIOCOfferOpFrame

/-! ## `TransactionUtils.cpp`: issued-asset logs -/

/-- The constant `INT64_MAX`. -/
def INT64_MAX : Int := 2 ^ 63 - 1

/-- The function `prepareAccountEntryExtensionV1`: the account entry after the call. -/
def prepareAccountEntryExtensionV1 (ae : AccountEntry) : AccountEntry :=
  match ae.ext with
  | none => ⟨ae.balance, ae.numSubEntries, ae.flags, some ⟨⟨0, 0⟩, none⟩⟩
  | some _ => ae

/-- The function `prepareAccountEntryExtensionV2`: the account entry after the call. The new
extension has the default values of XDR in the fields that are modelled. -/
def prepareAccountEntryExtensionV2 (ae : AccountEntry) : AccountEntry :=
  match (prepareAccountEntryExtensionV1 ae).ext with
  | some ⟨liabilities, none⟩ =>
    ⟨ae.balance, ae.numSubEntries, ae.flags, some ⟨liabilities, some ⟨0, 0, none⟩⟩⟩
  | _ => prepareAccountEntryExtensionV1 ae

/-- The function `prepareAccountEntryExtensionV3`: the account entry after the call. -/
def prepareAccountEntryExtensionV3 (ae : AccountEntry) : AccountEntry :=
  match (prepareAccountEntryExtensionV2 ae).ext with
  | some ⟨liabilities, some ⟨numSponsored, numSponsoring, none⟩⟩ =>
    ⟨ae.balance, ae.numSubEntries, ae.flags,
      some ⟨liabilities, some ⟨numSponsored, numSponsoring, some ⟨[]⟩⟩⟩⟩
  | _ => prepareAccountEntryExtensionV2 ae

/-- The function `hasAccountEntryExtV3`. -/
def hasAccountEntryExtV3 (ae : AccountEntry) : Bool :=
  hasAccountEntryExtV2 ae &&
    match ae.ext with
    | some ⟨_, some v2⟩ => v2.ext.isSome
    | _ => false

/-- The function `getAccountEntryExtensionV3`: the extension that the reference returned
designates. -/
def getAccountEntryExtensionV3 (ae : AccountEntry) : Except Fault AccountEntryExtensionV3 :=
  match ae.ext with
  | some ⟨_, some ⟨_, _, some v3⟩⟩ => .ok v3
  | _ => .error .expectedAccountEntryExtensionV3

/-- A write of the vector `issuedAmounts` through the reference that
`getAccountEntryExtensionV3` returned: the account entry after it. -/
def setIssuedAmounts (ae : AccountEntry) (logs : List IssuedAssetLog) : AccountEntry :=
  match ae.ext with
  | some ⟨liabilities, some ⟨numSponsored, numSponsoring, some _⟩⟩ =>
    ⟨ae.balance, ae.numSubEntries, ae.flags,
      some ⟨liabilities, some ⟨numSponsored, numSponsoring, some ⟨logs⟩⟩⟩⟩
  | _ => ae

/-- The loop `for (auto& issuedLog : v3.issuedAmounts) if (issuedLog.code == code) ...` of
`hasIssuedAssetLog`, `getIssuedAssetLog` and `trimIssuedAssetLog`: the position of the first
log with the code, if any. -/
def findIssuedAssetLog : List IssuedAssetLog → AssetCode → Option Nat
  | [], _ => none
  | issuedLog :: logs, code =>
    if issuedLog.code = code then some 0
    else
      match findIssuedAssetLog logs code with
      | some i => some (i + 1)
      | none => none

/-- The function `hasIssuedAssetLog`. -/
def hasIssuedAssetLog (ae : AccountEntry) (code : AssetCode) : Except Fault Bool :=
  if !hasAccountEntryExtV3 ae then .ok false
  else
    match getAccountEntryExtensionV3 ae with
    | .error e => .error e
    | .ok v3 => .ok (findIssuedAssetLog v3.issuedAmounts code).isSome

/-- The function `getIssuedAssetLog`: the position in `issuedAmounts` of the log that the
reference returned designates. -/
def getIssuedAssetLog (ae : AccountEntry) (code : AssetCode) : Except Fault Nat :=
  match getAccountEntryExtensionV3 ae with
  | .error e => .error e
  | .ok v3 =>
    match findIssuedAssetLog v3.issuedAmounts code with
    | some i => .ok i
    | none => .error .issuedAssetCodeNotFound

/-- The function `IssuedAssetLogSorter`. -/
def IssuedAssetLogSorter (l1 l2 : IssuedAssetLog) : Bool := decide (l1.code < l2.code)

/-- Insertion of a log before the first log that it precedes by `IssuedAssetLogSorter`. -/
def insertIssuedAssetLog (newLog : IssuedAssetLog) : List IssuedAssetLog → List IssuedAssetLog
  | [] => [newLog]
  | issuedLog :: logs =>
    if IssuedAssetLogSorter newLog issuedLog then newLog :: issuedLog :: logs
    else issuedLog :: insertIssuedAssetLog newLog logs

/-- The call `std::sort(v3.issuedAmounts.begin(), v3.issuedAmounts.end(),
IssuedAssetLogSorter)`, as a sort by insertion: the result is in the order of the codes;
the relative order of logs with equal codes, which `std::sort` leaves open, is one of the
orders allowed. -/
def sortIssuedAssetLogs (logs : List IssuedAssetLog) : List IssuedAssetLog :=
  logs.foldr insertIssuedAssetLog []

/-- The function `addNewIssuedAssetLog`: the account entry after the call. -/
def addNewIssuedAssetLog (ae : AccountEntry) (code : AssetCode) : Except Fault AccountEntry :=
  match hasIssuedAssetLog ae code with
  | .error e => .error e
  | .ok true => .error .issuanceLogAlreadyExists
  | .ok false =>
    match getAccountEntryExtensionV3
      (if !hasAccountEntryExtV3 ae then prepareAccountEntryExtensionV3 ae else ae) with
    | .error e => .error e
    | .ok v3 =>
      .ok (setIssuedAmounts
        (if !hasAccountEntryExtV3 ae then prepareAccountEntryExtensionV3 ae else ae)
        (sortIssuedAssetLogs (v3.issuedAmounts ++ [⟨code, 0⟩])))

/-- The function `trimIssuedAssetLog`: the account entry after the call. -/
def trimIssuedAssetLog (ae : AccountEntry) (code : AssetCode) : Except Fault AccountEntry :=
  match getAccountEntryExtensionV3 ae with
  | .error e => .error e
  | .ok v3 =>
    match findIssuedAssetLog v3.issuedAmounts code with
    | some i => .ok (setIssuedAmounts ae (v3.issuedAmounts.eraseIdx i))
    | none => .error .cantDeleteNonexistentLog

/-- A read of `log.issuedAmount` through the reference `log` of `issueAsset`, which
designates the position `log` of the vector `issuedAmounts`: the amount of the log at that
position. After `trimIssuedAssetLog` has erased the log, the position holds the log that
followed it, or, when there is none, is past the end of the vector: `stale` is the value that
the slot then still holds. -/
def readIssuedAmount (ae : AccountEntry) (log : Nat) (stale : Int) : Int :=
  match getAccountEntryExtensionV3 ae with
  | .error _ => stale
  | .ok v3 =>
    match v3.issuedAmounts.get? log with
    | some issuedLog => issuedLog.issuedAmount
    | none => stale

/-- A write of `log.issuedAmount` through the reference `log` of `issueAsset`: the account
entry after it. -/
def writeIssuedAmount (ae : AccountEntry) (log : Nat) (amount : Int) : AccountEntry :=
  match getAccountEntryExtensionV3 ae with
  | .error _ => ae
  | .ok v3 =>
    match v3.issuedAmounts.get? log with
    | some issuedLog => setIssuedAmounts ae (v3.issuedAmounts.set log ⟨issuedLog.code, amount⟩)
    | none => ae

/-- The function `issueAsset`, on the ledger entry `entry.current()`: the value returned and
the entry after the call. The sums and differences are taken in `int64_t`. -/
def issueAsset (xdr : XdrDeclarations) (entry : LedgerEntry) (code : AssetCode) (delta : Int) :
    Except Fault (Bool × LedgerEntry) :=
  match entry.data with
  | .ACCOUNT account =>
    if isIssuanceLimitedAccount xdr account.flags then
      match hasIssuedAssetLog
        (if !hasAccountEntryExtV3 account then prepareAccountEntryExtensionV3 account
          else account) code with
      | .error e => .error e
      | .ok hasLog =>
        match (if !hasLog then
            addNewIssuedAssetLog
              (if !hasAccountEntryExtV3 account then prepareAccountEntryExtensionV3 account
                else account) code
          else .ok (if !hasAccountEntryExtV3 account then prepareAccountEntryExtensionV3 account
            else account)) with
        | .error e => .error e
        | .ok ae =>
          match getIssuedAssetLog ae code with
          | .error e => .error e
          | .ok log =>
            if readIssuedAmount ae log 0 < 0 then .error .startedWithNegativeAmount
            else if toInt64 (INT64_MAX - readIssuedAmount ae log 0) < delta then
              .ok (false, ⟨.ACCOUNT ae⟩)
            else if delta < 0 ∧ toInt64 (readIssuedAmount ae log 0 + delta) < 0 then
              .ok (false, ⟨.ACCOUNT ae⟩)
            else
              match (if readIssuedAmount (writeIssuedAmount ae log
                    (toInt64 (readIssuedAmount ae log 0 + delta))) log 0 = 0 then
                  trimIssuedAssetLog (writeIssuedAmount ae log
                    (toInt64 (readIssuedAmount ae log 0 + delta))) code
                else .ok (writeIssuedAmount ae log
                    (toInt64 (readIssuedAmount ae log 0 + delta)))) with
              | .error e => .error e
              | .ok trimmed =>
                if readIssuedAmount trimmed log
                    (readIssuedAmount (writeIssuedAmount ae log
                      (toInt64 (readIssuedAmount ae log 0 + delta))) log 0) < 0 then
                  .error .issuedNegativeAmount
                else .ok (true, ⟨.ACCOUNT trimmed⟩)
    else .ok (true, entry)
  | _ => .error .cantIssueOnNonAccount

/-- The issued-asset logs of an account entry: those of its extension V3, none without it. -/
def AccountEntry.issuedAmounts (ae : AccountEntry) : List IssuedAssetLog :=
  match getAccountEntryExtensionV3 ae with
  | .ok v3 => v3.issuedAmounts
  | .error _ => []

/-- The amount logged for a code in a list of logs: that of the first log with the code, if
there is one. -/
def loggedAmount (logs : List IssuedAssetLog) (code : AssetCode) : Option Int :=
  match findIssuedAssetLog logs code with
  | some i =>
    match logs.get? i with
    | some issuedLog => some issuedLog.issuedAmount
    | none => none
  | none => none

/-! ## Lemmas on machine integers and square roots -/

theorem toUInt64_of_nonneg {x : Int} (h0 : 0 ≤ x) (h1 : x < 2 ^ 64) : (toUInt64 x : Int) = x := by
  unfold toUInt64
  omega

theorem toUInt64_lt (x : Int) : toUInt64 x < 2 ^ 64 := by
  unfold toUInt64
  omega

theorem toInt64_of_range {x : Int} (h0 : -2 ^ 63 ≤ x) (h1 : x < 2 ^ 63) : toInt64 x = x := by
  unfold toInt64
  omega

set_option maxRecDepth 4000 in
theorem toInt128_of_range {x : Int} (h0 : -2 ^ 127 ≤ x) (h1 : x < 2 ^ 127) : toInt128 x = x := by
  unfold toInt128
  omega

theorem INT128_MAX_eq : INT128_MAX = 2 ^ 127 - 1 := by decide

theorem bitLengthAux_le (fuel : Nat) : ∀ (n m : Nat), n < 2 ^ m → bitLengthAux fuel n ≤ m := by
  induction fuel with
  | zero => intro n m _; exact Nat.zero_le _
  | succ fuel ih =>
    intro n m h
    unfold bitLengthAux
    split
    · exact Nat.zero_le _
    · rename_i hn
      cases m with
      | zero => simp at h; exact absurd h hn
      | succ m =>
        have h2 : n / 2 < 2 ^ m := by
          rw [Nat.pow_succ] at h
          omega
        have := ih (n / 2) m h2
        omega

theorem lt_two_pow_bitLengthAux (fuel : Nat) :
    ∀ n : Nat, n < 2 ^ fuel → n < 2 ^ bitLengthAux fuel n := by
  induction fuel with
  | zero => intro n h; simpa [bitLengthAux] using h
  | succ fuel ih =>
    intro n h
    unfold bitLengthAux
    split
    · rename_i hn
      rw [hn]
      exact Nat.two_pow_pos _
    · have h2 : n / 2 < 2 ^ fuel := by
        rw [Nat.pow_succ] at h
        omega
      have := ih (n / 2) h2
      rw [Nat.pow_succ]
      omega

/-- A natural number of at most 53 bits, and `2^53`, are doubles: the conversion is exact. -/
theorem roundToDoubleNat_of_le {n : Nat} (h : n ≤ 2 ^ 53) : roundToDoubleNat n = n := by
  rcases Nat.lt_or_ge n (2 ^ 53) with hlt | hge
  · have hb : bitLength n ≤ 53 := bitLengthAux_le 130 n 53 hlt
    unfold roundToDoubleNat
    rw [if_pos hb]
  · have : n = 2 ^ 53 := Nat.le_antisymm h hge
    subst this
    decide

/-- Rounding to a double does not pass a power of two. -/
theorem roundToDoubleNat_le_two_pow {n m : Nat} (hm : m < 130) (h : n ≤ 2 ^ m) :
    roundToDoubleNat n ≤ 2 ^ m := by
  unfold roundToDoubleNat
  split
  · exact h
  · rename_i hL
    have hL' : 53 < bitLength n := by omega
    simp only
    have hn130 : n < 2 ^ 130 :=
      lt_of_le_of_lt h (Nat.pow_lt_pow_right (by norm_num) hm)
    have hup : n < 2 ^ bitLength n := lt_two_pow_bitLengthAux 130 n hn130
    have hk : bitLength n = 53 + (bitLength n - 53) := by omega
    generalize bitLength n - 53 = k at hk
    have hkpos : 1 ≤ k := by omega
    rw [hk, Nat.pow_add] at hup
    have hq : n / 2 ^ k < 2 ^ 53 := by
      rw [Nat.div_lt_iff_lt_mul (Nat.two_pow_pos _)]
      exact hup
    split
    · rename_i hround
      rcases Nat.lt_or_ge n (2 ^ m) with hlt | hge
      · have hLm : bitLength n ≤ m := bitLengthAux_le 130 n m hlt
        have hkm : 53 + k ≤ m := by omega
        calc (n / 2 ^ k + 1) * 2 ^ k ≤ 2 ^ 53 * 2 ^ k := Nat.mul_le_mul_right _ hq
          _ = 2 ^ (53 + k) := (Nat.pow_add 2 53 k).symm
          _ ≤ 2 ^ m := Nat.pow_le_pow_right (by norm_num) hkm
      · exfalso
        have hnm : n = 2 ^ m := Nat.le_antisymm h hge
        have hkm : k ≤ m := by
          by_contra hcon
          have : 2 ^ m < 2 ^ k := Nat.pow_lt_pow_right (by norm_num) (by omega)
          have h53 : (1 : Nat) ≤ 2 ^ 53 := Nat.one_le_two_pow
          have : 2 ^ k ≤ 2 ^ 53 * 2 ^ k := Nat.le_mul_of_pos_left _ (by omega)
          have hLm : bitLength n ≤ m + 1 := by
            apply bitLengthAux_le 130 n (m + 1)
            rw [hnm]
            exact Nat.pow_lt_pow_right (by norm_num) (by omega)
          omega
        have hdvd : n % 2 ^ k = 0 := by
          rw [hnm]
          exact Nat.mod_eq_zero_of_dvd (Nat.pow_dvd_pow 2 hkm)
        have hhalf : 0 < 2 ^ (k - 1) := Nat.two_pow_pos _
        rw [hdvd] at hround
        rcases hround with h1 | h1
        · omega
        · omega
    · exact le_trans (Nat.div_mul_le_self n (2 ^ k)) h

/-- Rounding an integer to a double does not pass a power of two. -/
theorem roundToDouble_abs_le {x : Int} {m : Nat} (hm : m < 130)
    (h0 : -2 ^ m ≤ x) (h1 : x ≤ 2 ^ m) :
    -2 ^ m ≤ roundToDouble x ∧ roundToDouble x ≤ 2 ^ m := by
  have hn : x.natAbs ≤ 2 ^ m := by
    have : ((x.natAbs : Nat) : Int) ≤ 2 ^ m := by omega
    exact_mod_cast this
  have hr : ((roundToDoubleNat x.natAbs : Nat) : Int) ≤ 2 ^ m := by
    exact_mod_cast roundToDoubleNat_le_two_pow hm hn
  have hp : (0 : Int) ≤ 2 ^ m := by positivity
  unfold roundToDouble
  split <;> omega

/-- An integer of absolute value at most `2^53` is a double: the conversion is exact. -/
theorem roundToDouble_of_abs_le {x : Int} (h0 : -2 ^ 53 ≤ x) (h1 : x ≤ 2 ^ 53) :
    roundToDouble x = x := by
  unfold roundToDouble
  have hn : x.natAbs ≤ 2 ^ 53 := by omega
  rw [roundToDoubleNat_of_le hn]
  split <;> omega

theorem isqrtAux_spec (n : Nat) : ∀ (k r : Nat), r * r ≤ n → n < (r + 2 ^ k) * (r + 2 ^ k) →
    isqrtAux n k r * isqrtAux n k r ≤ n ∧ n < (isqrtAux n k r + 1) * (isqrtAux n k r + 1) := by
  intro k
  induction k with
  | zero => intro r h1 h2; simpa [isqrtAux] using And.intro h1 h2
  | succ k ih =>
    intro r h1 h2
    unfold isqrtAux
    split
    · rename_i hle
      apply ih _ hle
      have : r + 2 ^ k + 2 ^ k = r + 2 ^ (k + 1) := by rw [pow_succ]; omega
      rw [this]; exact h2
    · rename_i hnle
      exact ih r h1 (by omega)

theorem isqrt_eq_sqrt {n : Nat} (hn : n < 2 ^ 128) : isqrt n = Nat.sqrt n := by
  have h := isqrtAux_spec n 64 0 (by simp) (by norm_num; omega)
  exact Nat.eq_sqrt.mpr h

theorem isqrt_sq_le {n : Nat} (hn : n < 2 ^ 128) : isqrt n * isqrt n ≤ n :=
  (isqrtAux_spec n 64 0 (by simp) (by norm_num; omega)).1

theorem lt_isqrt_succ_sq {n : Nat} (hn : n < 2 ^ 128) : n < (isqrt n + 1) * (isqrt n + 1) :=
  (isqrtAux_spec n 64 0 (by simp) (by norm_num; omega)).2

theorem mul_lt_two_pow_128 {a b : Nat} (ha : a < 2 ^ 64) (hb : b < 2 ^ 64) :
    a * b < 2 ^ 128 := by
  have h : a * b < 2 ^ 64 * 2 ^ 64 := Nat.mul_lt_mul'' ha hb
  have e : (2 : Nat) ^ 64 * 2 ^ 64 = 2 ^ 128 := by norm_num
  omega

theorem mul_le_max_sq {a b : Nat} (ha : a < 2 ^ 64) (hb : b < 2 ^ 64) :
    a * b ≤ (2 ^ 64 - 1) * (2 ^ 64 - 1) :=
  Nat.mul_le_mul (by omega) (by omega)

/-- On 64-bit operands the exact ceiling fits in a `uint64_t`. -/
theorem sqrtCeil_lt {a b : Nat} (ha : a < 2 ^ 64) (hb : b < 2 ^ 64) : sqrtCeil a b < 2 ^ 64 := by
  have hn := mul_lt_two_pow_128 ha hb
  have h1 := isqrt_sq_le hn
  have h3 := mul_le_max_sq ha hb
  unfold sqrtCeil
  split
  · by_contra hge
    have : 2 ^ 64 * 2 ^ 64 ≤ isqrt (a * b) * isqrt (a * b) :=
      Nat.mul_le_mul (by omega) (by omega)
    have e : (2 : Nat) ^ 64 * 2 ^ 64 = 2 ^ 128 := by norm_num
    omega
  · rename_i hne
    by_contra hge
    have : (2 ^ 64 - 1) * (2 ^ 64 - 1) ≤ isqrt (a * b) * isqrt (a * b) :=
      Nat.mul_le_mul (by omega) (by omega)
    omega

theorem sqrtCeil_sq_ge {a b : Nat} (ha : a < 2 ^ 64) (hb : b < 2 ^ 64) :
    a * b ≤ sqrtCeil a b * sqrtCeil a b := by
  have hn := mul_lt_two_pow_128 ha hb
  have h2 := lt_isqrt_succ_sq hn
  unfold sqrtCeil
  split
  · rename_i h; omega
  · omega

/-- The exact ceiling is at least the real square root. -/
theorem real_sqrt_le_sqrtCeil {a b : Nat} (ha : a < 2 ^ 64) (hb : b < 2 ^ 64) :
    Real.sqrt ((a : ℝ) * (b : ℝ)) ≤ (sqrtCeil a b : ℝ) := by
  have h := sqrtCeil_sq_ge ha hb
  have h' : ((a : ℝ) * (b : ℝ)) ≤ (sqrtCeil a b : ℝ) ^ 2 := by
    have : ((a * b : Nat) : ℝ) ≤ ((sqrtCeil a b * sqrtCeil a b : Nat) : ℝ) := by exact_mod_cast h
    push_cast at this
    nlinarith
  exact Real.sqrt_le_iff.mpr ⟨by positivity, h'⟩

/-- The floor of the square root is at most the real square root. -/
theorem isqrt_le_real_sqrt {a b : Nat} (ha : a < 2 ^ 64) (hb : b < 2 ^ 64) :
    (isqrt (a * b) : ℝ) ≤ Real.sqrt ((a : ℝ) * (b : ℝ)) := by
  have h := isqrt_sq_le (mul_lt_two_pow_128 ha hb)
  apply Real.le_sqrt_of_sq_le
  have : ((isqrt (a * b) * isqrt (a * b) : Nat) : ℝ) ≤ ((a * b : Nat) : ℝ) := by exact_mod_cast h
  push_cast at this
  nlinarith

/-- On 64-bit operands `sqrtCeil a b` is the ceiling of the real square root of `a * b`. -/
theorem sqrtCeil_eq_ceil {a b : Nat} (ha : a < 2 ^ 64) (hb : b < 2 ^ 64) :
    sqrtCeil a b = ⌈Real.sqrt ((a : ℝ) * (b : ℝ))⌉₊ := by
  have hn := mul_lt_two_pow_128 ha hb
  have h1 := isqrt_sq_le hn
  have h2 := lt_isqrt_succ_sq hn
  have hcast : ((a : ℝ) * (b : ℝ)) = ((a * b : Nat) : ℝ) := by push_cast; ring
  rw [hcast]
  unfold sqrtCeil
  generalize a * b = n at *
  by_cases hsq : isqrt n * isqrt n = n
  · rw [if_pos hsq]
    have : Real.sqrt (n : ℝ) = (isqrt n : ℝ) := by
      rw [Real.sqrt_eq_iff_mul_self_eq (by positivity) (by positivity)]
      exact_mod_cast hsq.symm
    rw [this, Nat.ceil_natCast]
  · rw [if_neg hsq]
    symm
    rw [Nat.ceil_eq_iff (by omega)]
    constructor
    · rw [Real.lt_sqrt (by positivity)]
      have : isqrt n * isqrt n < n := by omega
      have h3 : ((isqrt n * isqrt n : Nat) : ℝ) < (n : ℝ) := by exact_mod_cast this
      simp only [Nat.add_sub_cancel]
      push_cast at h3
      nlinarith
    · rw [Real.sqrt_le_left (by positivity)]
      have h3 : ((n : Nat) : ℝ) ≤ (((isqrt n + 1) * (isqrt n + 1) : Nat) : ℝ) := by
        exact_mod_cast le_of_lt h2
      push_cast at h3 ⊢
      nlinarith

namespace LiquidityPoolFrame

/-- With the exact ceiling for `sqrt`, the round-down root is the floor of the square root. -/
theorem hackyBigSquareRootRoundDown_sqrtCeil {a b : Nat} (ha : a < 2 ^ 64) (hb : b < 2 ^ 64) :
    hackyBigSquareRootRoundDown sqrtCeil a b = isqrt (a * b) := by
  have hn := mul_lt_two_pow_128 ha hb
  have hc := sqrtCeil_lt ha hb
  have h1 := isqrt_sq_le hn
  have h2 := lt_isqrt_succ_sq hn
  have hcc := mul_lt_two_pow_128 hc hc
  unfold hackyBigSquareRootRoundDown
  simp only [Nat.mod_eq_of_lt hc, Nat.mod_eq_of_lt hn, Nat.mod_eq_of_lt hcc]
  unfold sqrtCeil at hc ⊢
  by_cases hsq : isqrt (a * b) * isqrt (a * b) = a * b
  · simp only [hsq, if_true] at hc ⊢
  · simp only [hsq, if_false] at hc ⊢
    have hne : ¬ a * b = (isqrt (a * b) + 1) * (isqrt (a * b) + 1) := by omega
    rw [if_neg hne]
    omega

theorem hackyBigSquareRootRoundUp_sqrtCeil {a b : Nat} (ha : a < 2 ^ 64) (hb : b < 2 ^ 64) :
    hackyBigSquareRootRoundUp sqrtCeil a b = sqrtCeil a b := by
  unfold hackyBigSquareRootRoundUp
  exact Nat.mod_eq_of_lt (sqrtCeil_lt ha hb)

theorem subtractFeeRateFixedPoint_le (frame : LiquidityPoolFrame) (x : Nat) :
    frame.subtractFeeRateFixedPoint x ≤ x := by
  unfold subtractFeeRateFixedPoint
  simp only
  split <;> omega

end LiquidityPoolFrame

namespace LiquidityPoolFrame

set_option maxRecDepth 4000 in
/-- Shape of the value of `amountOfferedForSaleTimesSellPrice` for a non-zero sell price, for
every implementation of `sqrt`: it is `0`, or obtained from a `total` that is at most
`top - bot` and at most `INT128_MAX` by subtracting `total % sellPrice`. -/
theorem amountOffered_shape (sqrt : Nat → Nat → Nat) (frame : LiquidityPoolFrame)
    (sellPrice buyPrice : Nat) (hsp : 1 ≤ sellPrice) :
    frame.amountOfferedForSaleTimesSellPrice sqrt sellPrice buyPrice = .ok 0 ∨
    ∃ total : Nat, total ≤ INT128_MAX ∧
      total ≤ (sellPrice * hackyBigSquareRootRoundDown sqrt (toUInt64 frame.getSellBuyAmounts.1)
          frame.getMinPriceRatioFixedPoint.2) % 2 ^ 128
        - (hackyBigSquareRootRoundUp sqrt (toUInt64 frame.getSellBuyAmounts.2) buyPrice
          * hackyBigSquareRootRoundUp sqrt (toUInt64 frame.getSellBuyAmounts.1) sellPrice)
            % 2 ^ 128 ∧
      frame.amountOfferedForSaleTimesSellPrice sqrt sellPrice buyPrice
        = .ok ((total - total % sellPrice : Nat) : Int) := by
  unfold amountOfferedForSaleTimesSellPrice
  simp only
  split
  · exact Or.inl rfl
  split
  · exact Or.inl rfl
  split
  · exact Or.inl rfl
  split
  · exact Or.inl rfl
  rw [if_neg (by omega)]
  right
  generalize (sellPrice * hackyBigSquareRootRoundDown sqrt (toUInt64 frame.getSellBuyAmounts.1)
          frame.getMinPriceRatioFixedPoint.2) % 2 ^ 128 = T
  generalize (hackyBigSquareRootRoundUp sqrt (toUInt64 frame.getSellBuyAmounts.2) buyPrice
          * hackyBigSquareRootRoundUp sqrt (toUInt64 frame.getSellBuyAmounts.1) sellPrice)
            % 2 ^ 128 = B
  have hmax := INT128_MAX_eq
  refine ⟨if T - B > INT128_MAX then INT128_MAX else T - B, ?_, ?_, ?_⟩
  · split <;> omega
  · split <;> omega
  · have hle : (if T - B > INT128_MAX then INT128_MAX else T - B) ≤ INT128_MAX := by
      split <;> omega
    generalize (if T - B > INT128_MAX then INT128_MAX else T - B) = total at hle ⊢
    have hsub : total - total % sellPrice ≤ total := Nat.sub_le _ _
    rw [toInt128_of_range (by omega) (by omega)]

end LiquidityPoolFrame

namespace LiquidityPoolFrame

theorem hackyBigSquareRootRoundDown_lt (sqrt : Nat → Nat → Nat) (a b : Nat) :
    hackyBigSquareRootRoundDown sqrt a b < 2 ^ 64 := by
  unfold hackyBigSquareRootRoundDown
  simp only
  split <;> exact Nat.mod_lt _ (by norm_num)

theorem hackyBigSquareRootRoundUp_lt (sqrt : Nat → Nat → Nat) (a b : Nat) :
    hackyBigSquareRootRoundUp sqrt a b < 2 ^ 64 :=
  Nat.mod_lt _ (by norm_num)

end LiquidityPoolFrame

/-- Bounds on a product of two bounded integers. -/
theorem mul_range {x y A B : Int} (hx : -A ≤ x ∧ x ≤ A) (hy : -B ≤ y ∧ y ≤ B) :
    -(A * B) ≤ x * y ∧ x * y ≤ A * B := by
  have hA : 0 ≤ A := by omega
  apply abs_le.mp
  rw [abs_mul]
  exact mul_le_mul (abs_le.mpr hx) (abs_le.mpr hy) (abs_nonneg _) hA

namespace LiquidityPoolFrame

/-- The fee-adjusted amount is `⌊buyAmount * (1 - fee / 10000)⌋` over the rationals. -/
theorem feeAdjustedBuyAmount_eq_floor (frame : LiquidityPoolFrame) (buyAmount : Int) :
    frame.feeAdjustedBuyAmount buyAmount
      = ⌊(buyAmount : ℚ) * (1 - (frame.getFixedPointFeeRate : ℚ) / 10000)⌋ := by
  unfold feeAdjustedBuyAmount
  have h : (buyAmount : ℚ) * (1 - (frame.getFixedPointFeeRate : ℚ) / 10000)
      = ((buyAmount * (10000 - (frame.getFixedPointFeeRate : Int)) : Int) : ℚ)
        / ((10000 : Nat) : ℚ) := by
    push_cast
    field_simp
  rw [h, Rat.floor_intCast_div_natCast]
  rfl

/-- For a fee of at most 10000 basis points the fee-adjusted amount lies between `0` and the
amount. -/
theorem feeAdjustedBuyAmount_bounds (frame : LiquidityPoolFrame) (buyAmount : Int)
    (hfee : frame.getFixedPointFeeRate ≤ 10000) :
    (0 ≤ buyAmount → 0 ≤ frame.feeAdjustedBuyAmount buyAmount ∧
      frame.feeAdjustedBuyAmount buyAmount ≤ buyAmount) ∧
    (buyAmount ≤ 0 → buyAmount ≤ frame.feeAdjustedBuyAmount buyAmount ∧
      frame.feeAdjustedBuyAmount buyAmount ≤ 0) := by
  unfold feeAdjustedBuyAmount
  have hc0 : (0 : Int) ≤ 10000 - (frame.getFixedPointFeeRate : Int) := by omega
  have hc1 : 10000 - (frame.getFixedPointFeeRate : Int) ≤ 10000 := by omega
  generalize 10000 - (frame.getFixedPointFeeRate : Int) = c at hc0 hc1
  constructor
  · intro h
    have h1 : 0 ≤ buyAmount * c := mul_nonneg h hc0
    have h2 : buyAmount * c ≤ buyAmount * 10000 := mul_le_mul_of_nonneg_left hc1 h
    generalize buyAmount * c = p at h1 h2
    omega
  · intro h
    have h1 : buyAmount * c ≤ 0 := mul_nonpos_of_nonpos_of_nonneg h hc0
    have h2 : buyAmount * 10000 ≤ buyAmount * c := mul_le_mul_of_nonpos_left hc1 h
    generalize buyAmount * c = p at h1 h2
    omega

/-- A sell amount that passes `assertValidSellAmount` is not negative. -/
theorem assertValidSellAmount_ok_nonneg (sqrt : Nat → Nat → Nat) (frame : LiquidityPoolFrame)
    (sellAmount : Int) (sellPrice buyPrice : Nat)
    (h : frame.assertValidSellAmount sqrt sellAmount sellPrice buyPrice = .ok ()) :
    0 ≤ sellAmount := by
  unfold assertValidSellAmount at h
  cases hv : frame.amountOfferedForSaleTimesSellPrice sqrt sellPrice buyPrice with
  | error e => rw [hv] at h; cases h
  | ok v =>
    rw [hv] at h
    simp only at h
    by_contra hneg
    by_cases hq : toInt128 (sellAmount * (sellPrice : Int)) > v
    · rw [if_pos hq] at h; cases h
    · rw [if_neg hq, if_pos (by omega)] at h; cases h

end LiquidityPoolFrame

/-- The product of an `int64_t` by a `uint64_t` fits in an `__int128`. -/
theorem toInt128_mul_int64_uint64 {x : Int} {p : Nat} (h0 : -2 ^ 63 ≤ x) (h1 : x < 2 ^ 63)
    (hp : p < 2 ^ 64) : toInt128 (x * (p : Int)) = x * (p : Int) := by
  have hp' : (p : Int) < 2 ^ 64 := by exact_mod_cast hp
  have hp0 : (0 : Int) ≤ (p : Int) := Int.natCast_nonneg p
  have e : (2 : Int) ^ 63 * 2 ^ 64 = 2 ^ 127 := by norm_num
  apply toInt128_of_range
  · nlinarith
  · nlinarith

/-- The outcome of `assertValidSellAmount` once the offered amount is known. -/
theorem assertValidSellAmount_of_offered (sqrt : Nat → Nat → Nat) (frame : LiquidityPoolFrame)
    (sellAmount : Int) (sellPrice buyPrice : Nat) (v : Int)
    (hsa0 : -2 ^ 63 ≤ sellAmount) (hsa1 : sellAmount < 2 ^ 63) (hsp64 : sellPrice < 2 ^ 64)
    (hv : frame.amountOfferedForSaleTimesSellPrice sqrt sellPrice buyPrice = .ok v) :
    frame.assertValidSellAmount sqrt sellAmount sellPrice buyPrice =
      if sellAmount * (sellPrice : Int) > v then .error .invalidSellAmount
      else if sellAmount < 0 then .error .negativeSellAmount
      else .ok () := by
  unfold LiquidityPoolFrame.assertValidSellAmount
  rw [hv]
  simp only [toInt128_mul_int64_uint64 hsa0 hsa1 hsp64]

set_option maxRecDepth 4000 in
/-- Under the ranges of a pool with a non-negative sell reserve and a fee of at most 10000
basis points, the difference and the two products of `assertValidTrade` are exact, the sum
`oldBuyAmount + std::floor(...)` being the one made in double precision. -/
theorem assertValidTrade_of_pass (sqrt : Nat → Nat → Nat) (frame : LiquidityPoolFrame)
    (sellAmount buyAmount : Int) (sellPrice buyPrice : Nat)
    (hs0 : 0 ≤ frame.getSellBuyAmounts.1) (hs1 : frame.getSellBuyAmounts.1 < 2 ^ 63)
    (hb0 : -2 ^ 63 ≤ frame.getSellBuyAmounts.2) (hb1 : frame.getSellBuyAmounts.2 < 2 ^ 63)
    (hsa1 : sellAmount < 2 ^ 63) (hba0 : -2 ^ 63 ≤ buyAmount) (hba1 : buyAmount < 2 ^ 63)
    (hfee : frame.getFixedPointFeeRate ≤ 10000)
    (hpass : frame.assertValidSellAmount sqrt sellAmount sellPrice buyPrice = .ok ()) :
    frame.assertValidTrade sqrt sellAmount buyAmount sellPrice buyPrice =
      if (frame.getSellBuyAmounts.1 - sellAmount)
          * roundToDouble (roundToDouble frame.getSellBuyAmounts.2
            + frame.feeAdjustedBuyAmount buyAmount)
          < frame.getSellBuyAmounts.1 * frame.getSellBuyAmounts.2
      then .error .constantProductNotPreserved else .ok () := by
  have hsa0 := LiquidityPoolFrame.assertValidSellAmount_ok_nonneg sqrt frame sellAmount
    sellPrice buyPrice hpass
  have hg := LiquidityPoolFrame.feeAdjustedBuyAmount_bounds frame buyAmount hfee
  unfold LiquidityPoolFrame.assertValidTrade
  rw [hpass]
  simp only
  generalize frame.feeAdjustedBuyAmount buyAmount = g at hg ⊢
  generalize frame.getSellBuyAmounts.1 = s at hs0 hs1 ⊢
  generalize frame.getSellBuyAmounts.2 = b at hb0 hb1 ⊢
  have hgr : -2 ^ 63 ≤ g ∧ g ≤ 2 ^ 63 := by
    rcases le_total 0 buyAmount with h | h
    · have := hg.1 h; omega
    · have := hg.2 h; omega
  have hrb := roundToDouble_abs_le (x := b) (m := 63) (by norm_num) (by omega) (by omega)
  have hrs := roundToDouble_abs_le (x := roundToDouble b + g) (m := 64) (by norm_num)
    (by omega) (by omega)
  generalize roundToDouble (roundToDouble b + g) = t at hrs ⊢
  have e1 : toInt64 (s - sellAmount) = s - sellAmount :=
    toInt64_of_range (by omega) (by omega)
  have e2 : toInt128 t = t := toInt128_of_range (by omega) (by omega)
  have e3 : toInt128 (s * b) = s * b := by
    have h := mul_range (x := s) (y := b) (A := 2 ^ 63) (B := 2 ^ 63)
      ⟨by omega, by omega⟩ ⟨by omega, by omega⟩
    have e : (2 : Int) ^ 63 * 2 ^ 63 = 2 ^ 126 := by norm_num
    rw [e] at h
    exact toInt128_of_range (by omega) (by omega)
  have e4 : toInt128 ((s - sellAmount) * t) = (s - sellAmount) * t := by
    have h := mul_range (x := s - sellAmount) (y := t) (A := 2 ^ 63 - 1) (B := 2 ^ 64)
      ⟨by omega, by omega⟩ ⟨by omega, by omega⟩
    have e : ((2 : Int) ^ 63 - 1) * 2 ^ 64 = 2 ^ 127 - 2 ^ 64 := by norm_num
    rw [e] at h
    exact toInt128_of_range (by omega) (by omega)
  rw [e1, e2, e3, e4]

namespace LiquidityPoolFrame

/-- What a returning `doTransfer` has done: the pool exists, `assertValidTrade` returned, and
the result is the clearing status with the frame over the base frame after `transfer`. -/
theorem doTransfer_ok (sqrt : Nat → Nat → Nat) (frame : LiquidityPoolFrame)
    (sellAmount buyAmount : Int) (sellPrice buyPrice : Nat)
    (r : SpeedexLiquidityPoolClearingStatus × LiquidityPoolFrame)
    (h : frame.doTransfer sqrt sellAmount buyAmount sellPrice buyPrice = .ok r) :
    frame.mBaseFrame.toBool = true ∧
    frame.assertValidTrade sqrt sellAmount buyAmount sellPrice buyPrice = .ok () ∧
    r.2.mTradingPair = frame.mTradingPair ∧
    r.2.mBaseFrame =
      (if frame.mTradingPair.selling < frame.mTradingPair.buying then
        frame.mBaseFrame.transfer (toInt64 (-sellAmount)) buyAmount
      else frame.mBaseFrame.transfer buyAmount (toInt64 (-sellAmount))) ∧
    r.1 = ⟨r.2.mBaseFrame.poolID, frame.mTradingPair.selling, frame.mTradingPair.buying,
      sellAmount, buyAmount⟩ := by
  unfold doTransfer at h
  by_cases hb : frame.mBaseFrame.toBool = true
  · rw [if_neg (by simp [hb])] at h
    cases hv : frame.assertValidTrade sqrt sellAmount buyAmount sellPrice buyPrice with
    | error e => rw [hv] at h; cases h
    | ok u =>
      rw [hv] at h
      simp only [Except.ok.injEq] at h
      subst h
      exact ⟨hb, rfl, rfl, rfl, rfl⟩
  · rw [if_pos (by simp [hb])] at h
    cases h

/-- A returning `assertValidTrade` means that `assertValidSellAmount` returned. -/
theorem assertValidTrade_ok (sqrt : Nat → Nat → Nat) (frame : LiquidityPoolFrame)
    (sellAmount buyAmount : Int) (sellPrice buyPrice : Nat)
    (h : frame.assertValidTrade sqrt sellAmount buyAmount sellPrice buyPrice = .ok ()) :
    frame.assertValidSellAmount sqrt sellAmount sellPrice buyPrice = .ok () := by
  unfold assertValidTrade at h
  cases hv : frame.assertValidSellAmount sqrt sellAmount sellPrice buyPrice with
  | error e => rw [hv] at h; cases h
  | ok u => rfl

/-- The oriented reserves after a returning `doTransfer` of an `int64_t` sell amount: the sell
reserve less `sellAmount`, the buy reserve plus the whole `buyAmount`. -/
theorem getSellBuyAmounts_after_doTransfer (sqrt : Nat → Nat → Nat) (frame : LiquidityPoolFrame)
    (sellAmount buyAmount : Int) (sellPrice buyPrice : Nat)
    (r : SpeedexLiquidityPoolClearingStatus × LiquidityPoolFrame)
    (hsa1 : sellAmount < 2 ^ 63)
    (h : frame.doTransfer sqrt sellAmount buyAmount sellPrice buyPrice = .ok r) :
    r.2.getSellBuyAmounts
      = (frame.getSellBuyAmounts.1 - sellAmount, frame.getSellBuyAmounts.2 + buyAmount) := by
  obtain ⟨hb, hvt, hpair, hbase, _⟩ := doTransfer_ok sqrt frame sellAmount buyAmount
    sellPrice buyPrice r h
  have hsa0 := assertValidSellAmount_ok_nonneg sqrt frame sellAmount sellPrice buyPrice
    (assertValidTrade_ok sqrt frame sellAmount buyAmount sellPrice buyPrice hvt)
  have hneg : toInt64 (-sellAmount) = -sellAmount := toInt64_of_range (by omega) (by omega)
  rw [hneg] at hbase
  obtain ⟨base, pair⟩ := frame
  obtain ⟨entry⟩ := base
  cases entry with
  | none => simp [LiquidityPoolFrameBase.toBool] at hb
  | some e =>
    unfold getSellBuyAmounts
    rw [hpair, hbase]
    by_cases hlt : pair.selling < pair.buying
    · simp [hlt, LiquidityPoolFrameBase.toBool, LiquidityPoolFrameBase.transfer,
        LiquidityPoolFrameBase.getReserves]
      omega
    · simp [hlt, LiquidityPoolFrameBase.toBool, LiquidityPoolFrameBase.transfer,
        LiquidityPoolFrameBase.getReserves]
      omega

/-- With the exact `sqrt`, for a sell reserve in `[0, 2^63)` and `1 ≤ sellPrice`, the
offered value is between `0` and `sellPrice` times the sell reserve. -/
theorem amountOffered_le_sellPrice_mul_reserve (frame : LiquidityPoolFrame)
    (sellPrice buyPrice : Nat)
    (hs0 : 0 ≤ frame.getSellBuyAmounts.1) (hs1 : frame.getSellBuyAmounts.1 < 2 ^ 63)
    (hsp : 1 ≤ sellPrice) :
    ∃ v : Int, frame.amountOfferedForSaleTimesSellPrice sqrtCeil sellPrice buyPrice = .ok v ∧
      0 ≤ v ∧ v ≤ (sellPrice : Int) * frame.getSellBuyAmounts.1 := by
  have hsu : ((toUInt64 frame.getSellBuyAmounts.1 : Nat) : Int) = frame.getSellBuyAmounts.1 :=
    toUInt64_of_nonneg hs0 (by omega)
  have hs64 := toUInt64_lt frame.getSellBuyAmounts.1
  have hD := subtractFeeRateFixedPoint_le frame (toUInt64 frame.getSellBuyAmounts.1)
  rcases amountOffered_shape sqrtCeil frame sellPrice buyPrice hsp with h0 | ⟨total, _, hle, hv⟩
  · exact ⟨0, h0, le_refl _, mul_nonneg (Int.natCast_nonneg _) hs0⟩
  · refine ⟨_, hv, Int.natCast_nonneg _, ?_⟩
    have hD64 : frame.getMinPriceRatioFixedPoint.2 < 2 ^ 64 := by
      show frame.subtractFeeRateFixedPoint (toUInt64 frame.getSellBuyAmounts.1) < 2 ^ 64
      omega
    have hD' : frame.getMinPriceRatioFixedPoint.2 ≤ toUInt64 frame.getSellBuyAmounts.1 := hD
    rw [hackyBigSquareRootRoundDown_sqrtCeil hs64 hD64] at hle
    have hsq := isqrt_sq_le (mul_lt_two_pow_128 hs64 hD64)
    rw [← hsu]
    generalize frame.getMinPriceRatioFixedPoint.2 = D at *
    generalize toUInt64 frame.getSellBuyAmounts.1 = s at *
    have hroot : isqrt (s * D) ≤ s := by
      by_contra hgt
      have h1 : (s + 1) * (s + 1) ≤ isqrt (s * D) * isqrt (s * D) :=
        Nat.mul_le_mul (by omega) (by omega)
      have h2 : s * D ≤ s * s := Nat.mul_le_mul_left s hD'
      nlinarith
    have h3 : sellPrice * isqrt (s * D) ≤ sellPrice * s := Nat.mul_le_mul_left _ hroot
    have h4 : (sellPrice * isqrt (s * D)) % 2 ^ 128 ≤ sellPrice * isqrt (s * D) :=
      Nat.mod_le _ _
    have h5 : total - total % sellPrice ≤ sellPrice * s := by omega
    exact_mod_cast h5

end LiquidityPoolFrame

namespace LiquidityPoolFrame

end LiquidityPoolFrame

namespace LiquidityPoolFrame

/-- The product of the oriented reserves is the product `reserveA * reserveB`. -/
theorem getSellBuyAmounts_product (frame : LiquidityPoolFrame)
    (hb : frame.mBaseFrame.toBool = true) :
    frame.getSellBuyAmounts.1 * frame.getSellBuyAmounts.2
      = frame.mBaseFrame.getReserves.1 * frame.mBaseFrame.getReserves.2 := by
  unfold getSellBuyAmounts
  rw [if_neg (by simp [hb])]
  split
  · rfl
  · exact mul_comm _ _

/-- What a returning `doTransfer` has checked, with the exact `sqrt`, on a pool with a sell
reserve in `[0, 2^63)`, a buy reserve in `[0, 2^53]` whose sum with the buy amount is of
absolute value at most `2^53` (so that the sum in double precision is exact), and a fee of at
most 10000 basis points, for `int64_t` amounts and a sell price of at least 1:
`0 ≤ sellAmount ≤ sellReserve` and the constant-product inequality on the fee-adjusted buy
amount. -/
theorem doTransfer_ok_checked (frame : LiquidityPoolFrame)
    (sellAmount buyAmount : Int) (sellPrice buyPrice : Nat)
    (r : SpeedexLiquidityPoolClearingStatus × LiquidityPoolFrame)
    (hs0 : 0 ≤ frame.getSellBuyAmounts.1) (hs1 : frame.getSellBuyAmounts.1 < 2 ^ 63)
    (hb0 : 0 ≤ frame.getSellBuyAmounts.2) (hb1 : frame.getSellBuyAmounts.2 ≤ 2 ^ 53)
    (hsum0 : -2 ^ 53 ≤ frame.getSellBuyAmounts.2 + buyAmount)
    (hsum1 : frame.getSellBuyAmounts.2 + buyAmount ≤ 2 ^ 53)
    (hsa1 : sellAmount < 2 ^ 63) (hba0 : -2 ^ 63 ≤ buyAmount) (hba1 : buyAmount < 2 ^ 63)
    (hfee : frame.getFixedPointFeeRate ≤ 10000)
    (hsp : 1 ≤ sellPrice) (hsp64 : sellPrice < 2 ^ 64)
    (h : frame.doTransfer sqrtCeil sellAmount buyAmount sellPrice buyPrice = .ok r) :
    0 ≤ sellAmount ∧ sellAmount ≤ frame.getSellBuyAmounts.1 ∧
      frame.getSellBuyAmounts.1 * frame.getSellBuyAmounts.2
        ≤ (frame.getSellBuyAmounts.1 - sellAmount)
          * (frame.getSellBuyAmounts.2 + frame.feeAdjustedBuyAmount buyAmount) := by
  obtain ⟨_, hvt, _, _, _⟩ := doTransfer_ok sqrtCeil frame sellAmount buyAmount
    sellPrice buyPrice r h
  have hpass := assertValidTrade_ok sqrtCeil frame sellAmount buyAmount sellPrice buyPrice hvt
  have hsa0 := assertValidSellAmount_ok_nonneg sqrtCeil frame sellAmount sellPrice buyPrice hpass
  obtain ⟨v, hv, _, hvle⟩ := amountOffered_le_sellPrice_mul_reserve frame sellPrice buyPrice
    hs0 hs1 hsp
  have hA := assertValidSellAmount_of_offered sqrtCeil frame sellAmount sellPrice buyPrice v
    (by omega) hsa1 hsp64 hv
  rw [hpass] at hA
  have hq : sellAmount * (sellPrice : Int) ≤ v := by
    by_contra hn
    rw [if_pos (by omega)] at hA
    cases hA
  have hg := feeAdjustedBuyAmount_bounds frame buyAmount hfee
  have hgsum : -2 ^ 53 ≤ frame.getSellBuyAmounts.2 + frame.feeAdjustedBuyAmount buyAmount ∧
      frame.getSellBuyAmounts.2 + frame.feeAdjustedBuyAmount buyAmount ≤ 2 ^ 53 := by
    rcases le_total 0 buyAmount with h' | h'
    · have := hg.1 h'
      omega
    · have := hg.2 h'
      omega
  have hT := assertValidTrade_of_pass sqrtCeil frame sellAmount buyAmount sellPrice buyPrice
    hs0 hs1 (by omega) (by omega) hsa1 hba0 hba1 hfee hpass
  rw [roundToDouble_of_abs_le (by omega) hb1, roundToDouble_of_abs_le hgsum.1 hgsum.2] at hT
  rw [hvt] at hT
  refine ⟨hsa0, ?_, ?_⟩
  · have hsp' : (1 : Int) ≤ (sellPrice : Int) := by exact_mod_cast hsp
    by_contra hgt
    have : (frame.getSellBuyAmounts.1 + 1) * (sellPrice : Int)
        ≤ sellAmount * (sellPrice : Int) :=
      mul_le_mul_of_nonneg_right (by omega) (by omega)
    nlinarith
  · by_contra hn
    rw [if_pos (by omega)] at hT
    cases hT

end LiquidityPoolFrame

/-- On a pool with a sell reserve in `[0, 2^63)`, a buy reserve in `[0, 2^53]` whose sum
with the buy amount is of absolute value at most `2^53`, and a fee of at most 10000 basis
points, with the exact `sqrt` and fee deduction and a sell price of at least 1, a returning
`doTransfer` of `int64_t` amounts does not decrease `reserveA * reserveB` as soon as the buy
amount is not negative or the fee is below 10000 basis points. -/
theorem doTransfer_product_nondecreasing (frame : LiquidityPoolFrame)
    (sellAmount buyAmount : Int) (sellPrice buyPrice : Nat)
    (r : SpeedexLiquidityPoolClearingStatus × LiquidityPoolFrame)
    (hs0 : 0 ≤ frame.getSellBuyAmounts.1) (hs1 : frame.getSellBuyAmounts.1 < 2 ^ 63)
    (hb0 : 0 ≤ frame.getSellBuyAmounts.2) (hb1 : frame.getSellBuyAmounts.2 ≤ 2 ^ 53)
    (hsum0 : -2 ^ 53 ≤ frame.getSellBuyAmounts.2 + buyAmount)
    (hsum1 : frame.getSellBuyAmounts.2 + buyAmount ≤ 2 ^ 53)
    (hsa1 : sellAmount < 2 ^ 63) (hba0 : -2 ^ 63 ≤ buyAmount) (hba1 : buyAmount < 2 ^ 63)
    (hfee : frame.getFixedPointFeeRate ≤ 10000)
    (hsp : 1 ≤ sellPrice) (hsp64 : sellPrice < 2 ^ 64)
    (hcase : 0 ≤ buyAmount ∨ frame.getFixedPointFeeRate < 10000)
    (h : frame.doTransfer sqrtCeil sellAmount buyAmount sellPrice buyPrice = .ok r) :
    frame.mBaseFrame.getReserves.1 * frame.mBaseFrame.getReserves.2
      ≤ r.2.mBaseFrame.getReserves.1 * r.2.mBaseFrame.getReserves.2 := by
  obtain ⟨hsa0, hsale, hK⟩ := LiquidityPoolFrame.doTransfer_ok_checked frame sellAmount
    buyAmount sellPrice buyPrice r hs0 hs1 hb0 hb1 hsum0 hsum1 hsa1 hba0 hba1 hfee hsp hsp64 h
  obtain ⟨hb, _, _, hbase, _⟩ := LiquidityPoolFrame.doTransfer_ok sqrtCeil frame sellAmount
    buyAmount sellPrice buyPrice r h
  have hb' : r.2.mBaseFrame.toBool = true := by
    rw [hbase]
    obtain ⟨⟨entry⟩, pair⟩ := frame
    cases entry with
    | none => simp [LiquidityPoolFrameBase.toBool] at hb
    | some e => split <;> rfl
  have hafter := LiquidityPoolFrame.getSellBuyAmounts_after_doTransfer sqrtCeil frame
    sellAmount buyAmount sellPrice buyPrice r hsa1 h
  rw [← LiquidityPoolFrame.getSellBuyAmounts_product frame hb,
    ← LiquidityPoolFrame.getSellBuyAmounts_product r.2 hb', hafter]
  simp only
  have hg := LiquidityPoolFrame.feeAdjustedBuyAmount_bounds frame buyAmount hfee
  by_cases hba : 0 ≤ buyAmount
  · have hgle := (hg.1 hba).2
    have : (frame.getSellBuyAmounts.1 - sellAmount)
          * (frame.getSellBuyAmounts.2 + frame.feeAdjustedBuyAmount buyAmount)
        ≤ (frame.getSellBuyAmounts.1 - sellAmount) * (frame.getSellBuyAmounts.2 + buyAmount) :=
      mul_le_mul_of_nonneg_left (by omega) (by omega)
    omega
  · have hf : frame.getFixedPointFeeRate < 10000 := by
      rcases hcase with h' | h'
      · exact absurd h' hba
      · exact h'
    have hgneg : frame.feeAdjustedBuyAmount buyAmount ≤ -1 := by
      unfold LiquidityPoolFrame.feeAdjustedBuyAmount
      have hp : buyAmount * (10000 - (frame.getFixedPointFeeRate : Int)) ≤ -1 := by
        have hc : (1 : Int) ≤ 10000 - (frame.getFixedPointFeeRate : Int) := by omega
        nlinarith
      generalize buyAmount * (10000 - (frame.getFixedPointFeeRate : Int)) = p at hp
      omega
    generalize frame.feeAdjustedBuyAmount buyAmount = g at hK hgneg
    generalize frame.getSellBuyAmounts.1 = s at *
    generalize frame.getSellBuyAmounts.2 = b at *
    have hsb : 0 ≤ sellAmount * b := mul_nonneg hsa0 hb0
    have hzero : s - sellAmount = 0 := by
      by_contra hne
      have hpos : 1 ≤ s - sellAmount := by omega
      nlinarith
    have hs : s = sellAmount := by omega
    subst hs
    simp only [sub_self, zero_mul] at hK ⊢
    exact hK

/-- On a pool with a sell reserve in `[0, 2^63)`, a buy reserve in `[0, 2^53]` whose sum
with the buy amount is of absolute value at most `2^53`, and a fee of at most 10000 basis
points, with the exact `sqrt` and fee deduction and a sell price of at least 1, a returning
`doTransfer` of `int64_t` amounts leaves both reserves non-negative as soon as the buy
amount is not negative, or the fee is below 10000 basis points and both reserves are
positive. -/
theorem doTransfer_reserves_nonneg (frame : LiquidityPoolFrame)
    (sellAmount buyAmount : Int) (sellPrice buyPrice : Nat)
    (r : SpeedexLiquidityPoolClearingStatus × LiquidityPoolFrame)
    (hs0 : 0 ≤ frame.getSellBuyAmounts.1) (hs1 : frame.getSellBuyAmounts.1 < 2 ^ 63)
    (hb0 : 0 ≤ frame.getSellBuyAmounts.2) (hb1 : frame.getSellBuyAmounts.2 ≤ 2 ^ 53)
    (hsum0 : -2 ^ 53 ≤ frame.getSellBuyAmounts.2 + buyAmount)
    (hsum1 : frame.getSellBuyAmounts.2 + buyAmount ≤ 2 ^ 53)
    (hsa1 : sellAmount < 2 ^ 63) (hba0 : -2 ^ 63 ≤ buyAmount) (hba1 : buyAmount < 2 ^ 63)
    (hfee : frame.getFixedPointFeeRate ≤ 10000)
    (hsp : 1 ≤ sellPrice) (hsp64 : sellPrice < 2 ^ 64)
    (hcase : 0 ≤ buyAmount ∨ (frame.getFixedPointFeeRate < 10000 ∧
      0 < frame.getSellBuyAmounts.1 ∧ 0 < frame.getSellBuyAmounts.2))
    (h : frame.doTransfer sqrtCeil sellAmount buyAmount sellPrice buyPrice = .ok r) :
    0 ≤ r.2.getSellBuyAmounts.1 ∧ 0 ≤ r.2.getSellBuyAmounts.2 := by
  obtain ⟨hsa0, hsale, hK⟩ := LiquidityPoolFrame.doTransfer_ok_checked frame sellAmount
    buyAmount sellPrice buyPrice r hs0 hs1 hb0 hb1 hsum0 hsum1 hsa1 hba0 hba1 hfee hsp hsp64 h
  rw [LiquidityPoolFrame.getSellBuyAmounts_after_doTransfer sqrtCeil frame
    sellAmount buyAmount sellPrice buyPrice r hsa1 h]
  simp only
  refine ⟨by omega, ?_⟩
  by_cases hba : 0 ≤ buyAmount
  · omega
  · exfalso
    rcases hcase with h' | ⟨hf, hspos, hbpos⟩
    · exact hba h'
    · have hgneg : frame.feeAdjustedBuyAmount buyAmount ≤ -1 := by
        unfold LiquidityPoolFrame.feeAdjustedBuyAmount
        have hp : buyAmount * (10000 - (frame.getFixedPointFeeRate : Int)) ≤ -1 := by
          have hc : (1 : Int) ≤ 10000 - (frame.getFixedPointFeeRate : Int) := by omega
          nlinarith
        generalize buyAmount * (10000 - (frame.getFixedPointFeeRate : Int)) = p at hp
        omega
      generalize frame.feeAdjustedBuyAmount buyAmount = g at hK hgneg
      generalize frame.getSellBuyAmounts.1 = s at *
      generalize frame.getSellBuyAmounts.2 = b at *
      have hsbpos : 0 < s * b := mul_pos hspos hbpos
      by_cases hbg : 0 ≤ b + g
      · have h1 : (s - sellAmount) * (b + g) ≤ s * (b + g) :=
          mul_le_mul_of_nonneg_right (by omega) hbg
        have h2 : s * (b + g) < s * b := by nlinarith
        omega
      · have h1 : (s - sellAmount) * (b + g) ≤ 0 :=
          mul_nonpos_of_nonneg_of_nonpos (by omega) (by omega)
        omega

/-! ## Lemmas on the orderbook -/

theorem insertOffer_perm (o : IOCOffer) (l : List IOCOffer) :
    (insertOffer o l).Perm (o :: l) := by
  induction l with
  | nil => exact List.Perm.refl _
  | cons x xs ih =>
    unfold insertOffer
    split
    · exact List.Perm.refl _
    · exact (List.Perm.cons x ih).trans (List.Perm.swap o x xs)

theorem sortOffers_perm (l : List IOCOffer) : (sortOffers l).Perm l := by
  induction l with
  | nil => exact List.Perm.refl _
  | cons x xs ih =>
    unfold sortOffers
    exact (insertOffer_perm x (sortOffers xs)).trans (List.Perm.cons x ih)

/-- An offer that is before another in the order of offers has at most its price. -/
theorem IOCOffer.price_le_of_le {a b : IOCOffer} (h : a.le b = true) :
    a.mMinPrice.n * b.mMinPrice.d ≤ b.mMinPrice.n * a.mMinPrice.d := by
  unfold IOCOffer.le at h
  by_contra hn
  rw [if_neg (by omega), if_pos (by omega)] at h
  cases h

/-- An offer that is not before another in the order of offers has at least its price. -/
theorem IOCOffer.price_le_of_not_le {a b : IOCOffer} (h : ¬ a.le b = true) :
    b.mMinPrice.n * a.mMinPrice.d ≤ a.mMinPrice.n * b.mMinPrice.d := by
  unfold IOCOffer.le at h
  by_contra hn
  rw [if_pos (by omega)] at h
  exact h rfl

/-- The comparison of prices by cross products is transitive over positive denominators. -/
theorem price_le_trans {a b c : Price} (ha : 0 < a.d) (hb : 0 < b.d) (hc : 0 < c.d)
    (hab : a.n * b.d ≤ b.n * a.d) (hbc : b.n * c.d ≤ c.n * b.d) :
    a.n * c.d ≤ c.n * a.d := by
  have h1 : a.n * b.d * c.d ≤ b.n * a.d * c.d := mul_le_mul_of_nonneg_right hab (le_of_lt hc)
  have h2 : b.n * c.d * a.d ≤ c.n * b.d * a.d := mul_le_mul_of_nonneg_right hbc (le_of_lt ha)
  have h3 : (a.n * c.d) * b.d ≤ (c.n * a.d) * b.d := by nlinarith
  exact le_of_mul_le_mul_right h3 hb

theorem insertOffer_sorted (o : IOCOffer) (l : List IOCOffer)
    (ho : 0 < o.mMinPrice.d) (hl : ∀ x ∈ l, 0 < x.mMinPrice.d)
    (hs : l.Pairwise (fun a b => a.mMinPrice.n * b.mMinPrice.d ≤ b.mMinPrice.n * a.mMinPrice.d)) :
    (insertOffer o l).Pairwise
      (fun a b => a.mMinPrice.n * b.mMinPrice.d ≤ b.mMinPrice.n * a.mMinPrice.d) := by
  induction l with
  | nil => simp [insertOffer]
  | cons x xs ih =>
    have hx : 0 < x.mMinPrice.d := hl x (List.mem_cons_self _ _)
    have hxs : ∀ y ∈ xs, 0 < y.mMinPrice.d := fun y hy => hl y (List.mem_cons_of_mem _ hy)
    rw [List.pairwise_cons] at hs
    unfold insertOffer
    split
    · rename_i hle
      have hox := IOCOffer.price_le_of_le hle
      rw [List.pairwise_cons]
      refine ⟨?_, List.pairwise_cons.mpr hs⟩
      intro y hy
      rcases List.mem_cons.mp hy with rfl | hy'
      · exact hox
      · exact price_le_trans ho hx (hxs y hy') hox (hs.1 y hy')
    · rename_i hle
      have hxo := IOCOffer.price_le_of_not_le hle
      rw [List.pairwise_cons]
      refine ⟨?_, ih hxs hs.2⟩
      intro y hy
      rcases List.mem_cons.mp ((insertOffer_perm o xs).mem_iff.mp hy) with rfl | hy'
      · exact hxo
      · exact hs.1 y hy'

theorem sortOffers_sorted (l : List IOCOffer) (hl : ∀ x ∈ l, 0 < x.mMinPrice.d) :
    (sortOffers l).Pairwise
      (fun a b => a.mMinPrice.n * b.mMinPrice.d ≤ b.mMinPrice.n * a.mMinPrice.d) := by
  induction l with
  | nil => simp [sortOffers]
  | cons x xs ih =>
    unfold sortOffers
    apply insertOffer_sorted
    · exact hl x (List.mem_cons_self _ _)
    · intro y hy
      exact hl y (List.mem_cons_of_mem _ ((sortOffers_perm xs).mem_iff.mp hy))
    · exact ih (fun y hy => hl y (List.mem_cons_of_mem _ hy))

theorem accumulateStats_length (amount : Int) (weighted : Nat) (l : List IOCOffer) :
    (accumulateStats amount weighted l).length = l.length := by
  induction l generalizing amount weighted with
  | nil => rfl
  | cons o os ih => simp [accumulateStats, ih]

/-- The entry of rank `i` of the preprocessed data holds the price of the offer of rank `i`
and the sum of the sell amounts of the offers up to it. -/
theorem accumulateStats_getElem? (amount : Int) (weighted : Nat) (l : List IOCOffer)
    (i : Nat) (h : i < l.length) :
    ∃ s, (accumulateStats amount weighted l)[i]? = some s ∧
      s.sellPrice = l[i].mMinPrice ∧
      s.cumulativeOfferedForSale
        = amount + ((l.take (i + 1)).map (fun o => o.mSellAmount)).sum := by
  induction l generalizing amount weighted i with
  | nil => simp at h
  | cons o os ih =>
    cases i with
    | zero =>
      refine ⟨⟨o.mMinPrice, amount + o.mSellAmount,
        saturatingAdd128 weighted o.weightedContribution⟩, ?_, rfl, ?_⟩
      · simp [accumulateStats]
      · simp
    | succ j =>
      have hj : j < os.length := by simpa using h
      obtain ⟨s, hs1, hs2, hs3⟩ := ih (amount + o.mSellAmount)
        (saturatingAdd128 weighted o.weightedContribution) j hj
      refine ⟨s, ?_, ?_, ?_⟩
      · simpa [accumulateStats] using hs1
      · simpa using hs2
      · rw [hs3]
        simp [List.take_succ_cons, add_assoc]

/-- A list whose entries satisfy a test exactly below the rank `k`: the entries that satisfy
the test are the first `k`. -/
theorem filter_eq_take_of_ranks {α : Type} (q : α → Bool) (l : List α) (k : Nat)
    (h1 : ∀ i (h : i < l.length), i < k → q l[i] = true)
    (h2 : ∀ i (h : i < l.length), k ≤ i → ¬ q l[i] = true) :
    l.filter q = l.take k := by
  have hsplit : l.filter q = (l.take k).filter q ++ (l.drop k).filter q := by
    rw [← List.filter_append, List.take_append_drop]
  rw [hsplit]
  have ht : (l.take k).filter q = l.take k := by
    rw [List.filter_eq_self]
    intro a ha
    obtain ⟨i, hi, rfl⟩ := List.mem_take_iff_getElem.mp ha
    exact h1 i (by omega) (by omega)
  have hd : (l.drop k).filter q = [] := by
    rw [List.filter_eq_nil_iff]
    intro a ha
    obtain ⟨i, hi, rfl⟩ := List.mem_drop_iff_getElem.mp ha
    exact h2 (k + i) (by omega) (by omega)
  rw [ht, hd, List.append_nil]

/-- The binary search, between two positions that bracket the boundary of a test that holds on
a prefix of the data, finds that boundary. -/
theorem searchPrefixLength_spec (data : List PriceCompStats) (pn pd : Nat)
    (hmono : ∀ i j (hi : i < data.length) (hj : j < data.length), i ≤ j →
      priceAtMost data[j].sellPrice pn pd = true → priceAtMost data[i].sellPrice pn pd = true) :
    ∀ (fuel lo hi : Nat), hi - lo ≤ fuel → lo ≤ hi → hi ≤ data.length →
      (∀ i (h : i < data.length), i < lo → priceAtMost data[i].sellPrice pn pd = true) →
      (∀ i (h : i < data.length), hi ≤ i → ¬ priceAtMost data[i].sellPrice pn pd = true) →
      (∀ i (h : i < data.length), i < searchPrefixLength data pn pd fuel lo hi →
        priceAtMost data[i].sellPrice pn pd = true) ∧
      (∀ i (h : i < data.length), searchPrefixLength data pn pd fuel lo hi ≤ i →
        ¬ priceAtMost data[i].sellPrice pn pd = true) := by
  intro fuel
  induction fuel with
  | zero =>
    intro lo hi hf hle _ hlo hhi
    have : lo = hi := by omega
    subst this
    exact ⟨hlo, hhi⟩
  | succ fuel ih =>
    intro lo hi hf hle hlen hlo hhi
    unfold searchPrefixLength
    by_cases hlt : lo < hi
    · rw [if_pos hlt]
      have hmid : lo + (hi - lo) / 2 < data.length := by omega
      rw [List.getElem?_eq_getElem hmid]
      simp only
      by_cases hq : priceAtMost data[lo + (hi - lo) / 2].sellPrice pn pd = true
      · rw [if_pos hq]
        apply ih _ _ (by omega) (by omega) hlen _ hhi
        intro i h hi'
        exact hmono i _ h hmid (by omega) hq
      · rw [if_neg hq]
        apply ih _ _ (by omega) (by omega) (by omega) hlo
        intro i h hi' hqi
        exact hq (hmono _ i hmid h hi' hqi)
    · rw [if_neg hlt]
      have : lo = hi := by omega
      subst this
      exact ⟨hlo, hhi⟩

theorem searchPrefixLength_le (data : List PriceCompStats) (pn pd : Nat) :
    ∀ (fuel lo hi : Nat), lo ≤ hi → searchPrefixLength data pn pd fuel lo hi ≤ hi := by
  intro fuel
  induction fuel with
  | zero => intro lo hi h; exact h
  | succ fuel ih =>
    intro lo hi h
    unfold searchPrefixLength
    split
    · split
      · split
        · exact ih _ _ (by omega)
        · exact le_trans (ih _ _ (by omega)) (by omega)
      · exact h
    · exact h

theorem accumulateStats_getElem (amount : Int) (weighted : Nat) (l : List IOCOffer)
    (i : Nat) (h : i < l.length) (h' : i < (accumulateStats amount weighted l).length) :
    (accumulateStats amount weighted l)[i].sellPrice = l[i].mMinPrice ∧
      (accumulateStats amount weighted l)[i].cumulativeOfferedForSale
        = amount + ((l.take (i + 1)).map (fun o => o.mSellAmount)).sum := by
  obtain ⟨s, hs1, hs2, hs3⟩ := accumulateStats_getElem? amount weighted l i h
  rw [List.getElem?_eq_getElem h'] at hs1
  cases hs1
  exact ⟨hs2, hs3⟩

/-- Along offers sorted by price with positive denominators, an offer before one whose price
is at most the candidate price has a price that is at most the candidate price. -/
theorem priceAtMost_of_price_le {a b : Price} (pn pd : Nat) (ha : 0 < a.d) (hb : 0 < b.d)
    (hab : a.n * b.d ≤ b.n * a.d) (h : priceAtMost b pn pd = true) :
    priceAtMost a pn pd = true := by
  unfold priceAtMost at h ⊢
  simp only [decide_eq_true_eq] at h ⊢
  have hpd : (0 : Int) ≤ (pd : Int) := Int.natCast_nonneg pd
  have h1 : a.n * b.d * (pd : Int) ≤ b.n * a.d * (pd : Int) :=
    mul_le_mul_of_nonneg_right hab hpd
  have h2 : b.n * (pd : Int) * a.d ≤ (pn : Int) * b.d * a.d :=
    mul_le_mul_of_nonneg_right h (le_of_lt ha)
  have h3 : (a.n * (pd : Int)) * b.d ≤ ((pn : Int) * a.d) * b.d := by nlinarith
  exact le_of_mul_le_mul_right h3 hb

theorem addOffers_mOffers (book : IOCOrderbook) (offers : List IOCOffer) :
    (book.addOffers offers).mOffers = offers.reverse ++ book.mOffers := by
  unfold IOCOrderbook.addOffers
  induction offers generalizing book with
  | nil => rfl
  | cons o os ih =>
    rw [List.foldl_cons, ih]
    simp [IOCOrderbook.addOffer]

/-- The answer of the query on the data preprocessed from a list of offers that is sorted by
price: the sum of the sell amounts of the offers whose price is at most the candidate. -/
theorem getPriceCompStats_of_sorted (tradingPair : AssetPair) (added l : List IOCOffer)
    (pn pd : Nat) (hl : ∀ x ∈ l, 0 < x.mMinPrice.d)
    (hs : l.Pairwise
      (fun a b => a.mMinPrice.n * b.mMinPrice.d ≤ b.mMinPrice.n * a.mMinPrice.d)) :
    (IOCOrderbook.getPriceCompStats ⟨tradingPair, added, accumulateStats 0 0 l⟩
        pn pd).cumulativeOfferedForSale
      = ((l.filter (fun o => priceAtMost o.mMinPrice pn pd)).map
          (fun o => o.mSellAmount)).sum := by
  have hlen := accumulateStats_length 0 0 l
  have hprice : ∀ i (h : i < (accumulateStats 0 0 l).length) (h2 : i < l.length),
      priceAtMost (accumulateStats 0 0 l)[i].sellPrice pn pd
        = priceAtMost l[i].mMinPrice pn pd := by
    intro i h h2
    rw [(accumulateStats_getElem 0 0 l i h2 h).1]
  have hmono : ∀ i j (hi : i < (accumulateStats 0 0 l).length)
      (hj : j < (accumulateStats 0 0 l).length), i ≤ j →
      priceAtMost (accumulateStats 0 0 l)[j].sellPrice pn pd = true →
      priceAtMost (accumulateStats 0 0 l)[i].sellPrice pn pd = true := by
    intro i j hi hj hij hq
    rw [hprice i hi (by omega)]
    rw [hprice j hj (by omega)] at hq
    rcases Nat.lt_or_ge i j with hlt | hge
    · have hij' := List.pairwise_iff_getElem.mp hs i j (by omega) (by omega) hlt
      exact priceAtMost_of_price_le pn pd (hl _ (List.getElem_mem _))
        (hl _ (List.getElem_mem _)) hij' hq
    · have : i = j := by omega
      subst this
      exact hq
  obtain ⟨hk1, hk2⟩ := searchPrefixLength_spec (accumulateStats 0 0 l) pn pd hmono
    (accumulateStats 0 0 l).length 0 (accumulateStats 0 0 l).length (by omega) (by omega)
    (le_refl _) (fun i _ hi => absurd hi (Nat.not_lt_zero i)) (fun i h hi => by omega)
  have hfilter : l.filter (fun o => priceAtMost o.mMinPrice pn pd)
      = l.take (searchPrefixLength (accumulateStats 0 0 l) pn pd
          (accumulateStats 0 0 l).length 0 (accumulateStats 0 0 l).length) := by
    apply filter_eq_take_of_ranks
    · intro i h hi
      have := hk1 i (by omega) hi
      rwa [hprice i (by omega) h] at this
    · intro i h hi
      have := hk2 i (by omega) hi
      rwa [hprice i (by omega) h] at this
  rw [hfilter]
  unfold IOCOrderbook.getPriceCompStats
  simp only
  cases hk : searchPrefixLength (accumulateStats 0 0 l) pn pd
      (accumulateStats 0 0 l).length 0 (accumulateStats 0 0 l).length with
  | zero => simp
  | succ k =>
    simp only
    by_cases hkl : k < l.length
    · rw [List.getD_eq_getElem?_getD, List.getElem?_eq_getElem (by omega)]
      simp only [Option.getD_some]
      rw [(accumulateStats_getElem 0 0 l k hkl (by omega)).2]
      simp
    · rw [List.getD_eq_getElem?_getD, List.getElem?_eq_none (by omega)]
      simp only [Option.getD_none]
      exfalso
      have := searchPrefixLength_le (accumulateStats 0 0 l) pn pd
        (accumulateStats 0 0 l).length 0 (accumulateStats 0 0 l).length (Nat.zero_le _)
      omega

/-! ## Lemmas on offer admission -/

namespace CreateSpeedexIOCOfferOpFrame

/-- The method `doApply` as one chain of tests on the ledger and on the operation. -/
theorem doApply_eq (xdr : XdrDeclarations) (frame : CreateSpeedexIOCOfferOpFrame)
    (ltx : AbstractLedgerTxn) :
    frame.doApply xdr ltx =
      if ltx.speedexConfig = none then
        (false, frame.setCode .CREATE_SPEEDEX_IOC_OFFER_NO_SPEEDEX_CONFIG, ltx)
      else if (loadSpeedexConfigSnapshot ltx).isValidAssetPair
          ⟨frame.mCreateSpeedexIOCOffer.sellAsset, frame.mCreateSpeedexIOCOffer.buyAsset⟩
          = false then
        (false, frame.setCode .CREATE_SPEEDEX_IOC_OFFER_INVALID_TRADING_PAIR, ltx)
      else if isCommutativeTxEnabledAsset xdr ltx frame.mCreateSpeedexIOCOffer.sellAsset = false
          ∨ isCommutativeTxEnabledAsset xdr ltx frame.mCreateSpeedexIOCOffer.buyAsset = false then
        (false, frame.setCode .CREATE_SPEEDEX_IOC_OFFER_MALFORMED, ltx)
      else if frame.mCreateSpeedexIOCOffer.sellAmount ≤ 0
          ∨ frame.mCreateSpeedexIOCOffer.minPrice.n ≤ 0
          ∨ frame.mCreateSpeedexIOCOffer.minPrice.d ≤ 0 then
        (false, frame.setCode .CREATE_SPEEDEX_IOC_OFFER_MALFORMED, ltx)
      else
        (true, frame, ltx.addSpeedexIOCOffer
          ⟨frame.mCreateSpeedexIOCOffer.sellAsset, frame.mCreateSpeedexIOCOffer.buyAsset⟩
          ⟨frame.mCreateSpeedexIOCOffer.sellAmount, frame.mCreateSpeedexIOCOffer.minPrice,
            frame.sourceID, frame.seqNum, frame.mOperationIndex⟩) := by
  unfold doApply checkValidAssetPair
  by_cases hc : ltx.speedexConfig = none
  · simp [loadSpeedexConfigSnapshot, SpeedexConfigSnapshotFrame.toBool, hc]
  · have hc' : (loadSpeedexConfigSnapshot ltx).toBool = true := by
      simpa [loadSpeedexConfigSnapshot, SpeedexConfigSnapshotFrame.toBool,
        Option.isSome_iff_ne_none] using hc
    simp only [hc', hc, if_false, Bool.not_true, Bool.false_eq_true]
    by_cases hv : (loadSpeedexConfigSnapshot ltx).isValidAssetPair
        ⟨frame.mCreateSpeedexIOCOffer.sellAsset, frame.mCreateSpeedexIOCOffer.buyAsset⟩ = false
    · simp [hv]
    · simp only [Bool.not_eq_false] at hv
      simp only [hv, Bool.not_true, Bool.false_eq_true, if_false]
      by_cases hs : isCommutativeTxEnabledAsset xdr ltx frame.mCreateSpeedexIOCOffer.sellAsset
          = false
      · simp [hs]
      · simp only [Bool.not_eq_false] at hs
        simp only [hs, Bool.not_true, Bool.false_eq_true, if_false, false_or]
        by_cases hb : isCommutativeTxEnabledAsset xdr ltx frame.mCreateSpeedexIOCOffer.buyAsset
            = false
        · simp [hb]
        · simp only [Bool.not_eq_false] at hb
          simp only [hb, Bool.not_true, Bool.false_eq_true, if_false]
          unfold checkMalformed
          by_cases h1 : frame.mCreateSpeedexIOCOffer.sellAmount ≤ 0
          · simp [h1]
          · by_cases h2 : frame.mCreateSpeedexIOCOffer.minPrice.n ≤ 0
              ∨ frame.mCreateSpeedexIOCOffer.minPrice.d ≤ 0
            · simp [h1, h2]
            · simp [h1, h2]

end CreateSpeedexIOCOfferOpFrame

/-- Saturating additions one after the other saturate the exact sum. -/
theorem saturatingAdd128_saturatingAdd128 (a b c : Nat) :
    saturatingAdd128 (saturatingAdd128 a b) c = min (a + b + c) (2 ^ 128 - 1) := by
  unfold saturatingAdd128
  omega

/-- The entry of rank `i` of the preprocessed data holds the weighted contributions of the
offers up to it, added to the initial value and saturated. -/
theorem accumulateStats_getElem_weighted (amount : Int) (weighted : Nat) (l : List IOCOffer)
    (i : Nat) (h : i < l.length) (h' : i < (accumulateStats amount weighted l).length) :
    (accumulateStats amount weighted l)[i].cumulativeOfferedForSaleTimesPrice
      = min (weighted + ((l.take (i + 1)).map IOCOffer.weightedContribution).sum)
          (2 ^ 128 - 1) := by
  induction l generalizing amount weighted i with
  | nil => simp at h
  | cons o os ih =>
    cases i with
    | zero => simp [accumulateStats, saturatingAdd128]
    | succ j =>
      have hj : j < os.length := by simpa using h
      have hj' : j < (accumulateStats (amount + o.mSellAmount)
          (saturatingAdd128 weighted o.weightedContribution) os).length := by
        rw [accumulateStats_length]; exact hj
      have := ih (amount + o.mSellAmount) (saturatingAdd128 weighted o.weightedContribution)
        j hj hj'
      simp only [accumulateStats, List.getElem_cons_succ, List.take_succ_cons, List.map_cons,
        List.sum_cons]
      rw [this]
      unfold saturatingAdd128
      omega

/-- On offers sorted by price with positive denominators, the offers whose price is at most
the candidate price are the prefix found by the binary search. -/
theorem filter_eq_take_searchPrefixLength (l : List IOCOffer) (pn pd : Nat)
    (hl : ∀ x ∈ l, 0 < x.mMinPrice.d)
    (hs : l.Pairwise
      (fun a b => a.mMinPrice.n * b.mMinPrice.d ≤ b.mMinPrice.n * a.mMinPrice.d)) :
    l.filter (fun o => priceAtMost o.mMinPrice pn pd)
      = l.take (searchPrefixLength (accumulateStats 0 0 l) pn pd
          (accumulateStats 0 0 l).length 0 (accumulateStats 0 0 l).length) ∧
    searchPrefixLength (accumulateStats 0 0 l) pn pd
        (accumulateStats 0 0 l).length 0 (accumulateStats 0 0 l).length ≤ l.length := by
  have hlen := accumulateStats_length 0 0 l
  have hprice : ∀ i (h : i < (accumulateStats 0 0 l).length) (h2 : i < l.length),
      priceAtMost (accumulateStats 0 0 l)[i].sellPrice pn pd
        = priceAtMost l[i].mMinPrice pn pd := by
    intro i h h2
    rw [(accumulateStats_getElem 0 0 l i h2 h).1]
  have hmono : ∀ i j (hi : i < (accumulateStats 0 0 l).length)
      (hj : j < (accumulateStats 0 0 l).length), i ≤ j →
      priceAtMost (accumulateStats 0 0 l)[j].sellPrice pn pd = true →
      priceAtMost (accumulateStats 0 0 l)[i].sellPrice pn pd = true := by
    intro i j hi hj hij hq
    rw [hprice i hi (by omega)]
    rw [hprice j hj (by omega)] at hq
    rcases Nat.lt_or_ge i j with hlt | hge
    · have hij' := List.pairwise_iff_getElem.mp hs i j (by omega) (by omega) hlt
      exact priceAtMost_of_price_le pn pd (hl _ (List.getElem_mem _))
        (hl _ (List.getElem_mem _)) hij' hq
    · have : i = j := by omega
      subst this
      exact hq
  obtain ⟨hk1, hk2⟩ := searchPrefixLength_spec (accumulateStats 0 0 l) pn pd hmono
    (accumulateStats 0 0 l).length 0 (accumulateStats 0 0 l).length (by omega) (by omega)
    (le_refl _) (fun i _ hi => absurd hi (Nat.not_lt_zero i)) (fun i h hi => by omega)
  constructor
  · apply filter_eq_take_of_ranks
    · intro i h hi
      have := hk1 i (by omega) hi
      rwa [hprice i (by omega) h] at this
    · intro i h hi
      have := hk2 i (by omega) hi
      rwa [hprice i (by omega) h] at this
  · have := searchPrefixLength_le (accumulateStats 0 0 l) pn pd
      (accumulateStats 0 0 l).length 0 (accumulateStats 0 0 l).length (Nat.zero_le _)
    omega

/-- The weighted answer of the query on the data preprocessed from a list of offers that is
sorted by price: the saturated sum of the weighted contributions of the offers whose price is
at most the candidate. -/
theorem getPriceCompStats_weighted_of_sorted (tradingPair : AssetPair)
    (added l : List IOCOffer) (pn pd : Nat) (hl : ∀ x ∈ l, 0 < x.mMinPrice.d)
    (hs : l.Pairwise
      (fun a b => a.mMinPrice.n * b.mMinPrice.d ≤ b.mMinPrice.n * a.mMinPrice.d)) :
    (IOCOrderbook.getPriceCompStats ⟨tradingPair, added, accumulateStats 0 0 l⟩
        pn pd).cumulativeOfferedForSaleTimesPrice
      = min (((l.filter (fun o => priceAtMost o.mMinPrice pn pd)).map
          IOCOffer.weightedContribution).sum) (2 ^ 128 - 1) := by
  obtain ⟨hfilter, hkle⟩ := filter_eq_take_searchPrefixLength l pn pd hl hs
  have hlen := accumulateStats_length 0 0 l
  rw [hfilter]
  unfold IOCOrderbook.getPriceCompStats
  simp only
  cases hk : searchPrefixLength (accumulateStats 0 0 l) pn pd
      (accumulateStats 0 0 l).length 0 (accumulateStats 0 0 l).length with
  | zero => simp
  | succ k =>
    rw [hk] at hkle
    simp only
    rw [List.getD_eq_getElem?_getD, List.getElem?_eq_getElem (by omega)]
    simp only [Option.getD_some]
    rw [accumulateStats_getElem_weighted 0 0 l k (by omega) (by omega)]
    simp

/-- The two answers of the query on the orderbook preprocessed after the offers of a list
were added to an empty orderbook, for offers with positive price denominators: the sum of the
sell amounts, and the saturated sum of the weighted contributions, of the offers whose price
is at most the candidate. -/
theorem getPriceCompStats_of_offers (tradingPair : AssetPair) (offers : List IOCOffer)
    (pn pd : Nat) (hd : ∀ o ∈ offers, 0 < o.mMinPrice.d) :
    (((IOCOrderbook.empty tradingPair).addOffers offers).doPriceComputationPreprocessing
        |>.getPriceCompStats pn pd).cumulativeOfferedForSale
      = ((offers.filter (fun o => priceAtMost o.mMinPrice pn pd)).map
          (fun o => o.mSellAmount)).sum ∧
    (((IOCOrderbook.empty tradingPair).addOffers offers).doPriceComputationPreprocessing
        |>.getPriceCompStats pn pd).cumulativeOfferedForSaleTimesPrice
      = min (((offers.filter (fun o => priceAtMost o.mMinPrice pn pd)).map
          IOCOffer.weightedContribution).sum) (2 ^ 128 - 1) := by
  have hadd := addOffers_mOffers (IOCOrderbook.empty tradingPair) offers
  have hperm : (sortOffers ((IOCOrderbook.empty tradingPair).addOffers offers).mOffers).Perm
      offers := by
    rw [hadd]
    refine (sortOffers_perm _).trans ?_
    simp [IOCOrderbook.empty, List.reverse_perm]
  have hpos : ∀ x ∈ sortOffers ((IOCOrderbook.empty tradingPair).addOffers offers).mOffers,
      0 < x.mMinPrice.d := fun x hx => hd x (hperm.mem_iff.mp hx)
  have hsorted := sortOffers_sorted ((IOCOrderbook.empty tradingPair).addOffers offers).mOffers
    (fun x hx => hd x (hperm.mem_iff.mp ((sortOffers_perm _).mem_iff.mpr hx)))
  have h1 := getPriceCompStats_of_sorted
    ((IOCOrderbook.empty tradingPair).addOffers offers).mTradingPair
    ((IOCOrderbook.empty tradingPair).addOffers offers).mOffers _ pn pd hpos hsorted
  have h2 := getPriceCompStats_weighted_of_sorted
    ((IOCOrderbook.empty tradingPair).addOffers offers).mTradingPair
    ((IOCOrderbook.empty tradingPair).addOffers offers).mOffers _ pn pd hpos hsorted
  unfold IOCOrderbook.doPriceComputationPreprocessing
  rw [h1, h2]
  exact ⟨((hperm.filter _).map _).sum_eq, by rw [((hperm.filter _).map _).sum_eq]⟩

set_option maxRecDepth 4000 in
/-- For an offer whose fields are in the ranges of their types, with a non-negative amount
and numerator and a positive denominator, the weighted contribution is
`(sellAmount * minPrice.n * 2 ^ 32) / minPrice.d`, no reduction to 128 bits taking place, and
it is at most `2 ^ 63` times the sell amount. -/
theorem IOCOffer.weightedContribution_eq (o : IOCOffer)
    (hd : 0 < o.mMinPrice.d) (hn0 : 0 ≤ o.mMinPrice.n) (hn1 : o.mMinPrice.n < 2 ^ 31)
    (ha0 : 0 ≤ o.mSellAmount) (ha1 : o.mSellAmount < 2 ^ 63) :
    o.weightedContribution = (o.mSellAmount * o.mMinPrice.n * 2 ^ 32 / o.mMinPrice.d).toNat ∧
    ((o.mSellAmount * o.mMinPrice.n * 2 ^ 32 / o.mMinPrice.d).toNat : Int)
      ≤ 2 ^ 63 * o.mSellAmount := by
  have hp0 : 0 ≤ o.mSellAmount * o.mMinPrice.n * 2 ^ 32 :=
    mul_nonneg (mul_nonneg ha0 hn0) (by positivity)
  have hn32 : o.mMinPrice.n * 2 ^ 32 ≤ 2 ^ 63 := by omega
  have hp1 : o.mSellAmount * o.mMinPrice.n * 2 ^ 32 ≤ 2 ^ 63 * o.mSellAmount := by
    have := mul_le_mul_of_nonneg_left hn32 ha0
    linarith
  have hq0 : 0 ≤ o.mSellAmount * o.mMinPrice.n * 2 ^ 32 / o.mMinPrice.d :=
    Int.ediv_nonneg hp0 (le_of_lt hd)
  have hq1 : o.mSellAmount * o.mMinPrice.n * 2 ^ 32 / o.mMinPrice.d
      ≤ o.mSellAmount * o.mMinPrice.n * 2 ^ 32 :=
    Int.ediv_le_self _ hp0
  constructor
  · unfold IOCOffer.weightedContribution
    congr 1
    apply Int.emod_eq_of_lt hq0
    have : (2 : Int) ^ 63 * o.mSellAmount < 2 ^ 63 * 2 ^ 63 :=
      mul_lt_mul_of_pos_left ha1 (by positivity)
    have e : (2 : Int) ^ 63 * 2 ^ 63 = 2 ^ 126 := by norm_num
    omega
  · rw [Int.toNat_of_nonneg hq0]
    omega

/-- For offers whose fields are in the ranges of their types, the sum of the weighted
contributions of the offers selected by a test is at most `2 ^ 63` times the sum of the sell
amounts of all the offers. -/
theorem sum_weighted_le (q : IOCOffer → Bool) (l : List IOCOffer)
    (h : ∀ o ∈ l, 0 < o.mMinPrice.d ∧ 0 ≤ o.mMinPrice.n ∧ o.mMinPrice.n < 2 ^ 31 ∧
      0 ≤ o.mSellAmount ∧ o.mSellAmount < 2 ^ 63) :
    ((((l.filter q).map
        (fun o => (o.mSellAmount * o.mMinPrice.n * 2 ^ 32 / o.mMinPrice.d).toNat)).sum : Nat)
        : Int)
      ≤ 2 ^ 63 * (l.map (fun o => o.mSellAmount)).sum := by
  induction l with
  | nil => simp
  | cons o os ih =>
    have ho := h o (List.mem_cons_self _ _)
    have hos := ih (fun x hx => h x (List.mem_cons_of_mem _ hx))
    have hw := (IOCOffer.weightedContribution_eq o ho.1 ho.2.1 ho.2.2.1 ho.2.2.2.1
      ho.2.2.2.2).2
    simp only [List.map_cons, List.sum_cons]
    by_cases hq : q o = true
    · rw [List.filter_cons_of_pos hq]
      simp only [List.map_cons, List.sum_cons, Nat.cast_add]
      linarith
    · rw [List.filter_cons_of_neg hq]
      have := ho.2.2.2.1
      have h63 : (0 : Int) ≤ 2 ^ 63 * o.mSellAmount := mul_nonneg (by positivity) this
      linarith

/-- With the third argument `0`, the three-argument query is the sell price times the
cumulative sell amount of the two-argument query, saturated to 128 bits. -/
theorem cumulativeOfferedForSaleTimesPrice_zero (book : IOCOrderbook)
    (sellPrice buyPrice : Nat) :
    book.cumulativeOfferedForSaleTimesPrice sellPrice buyPrice 0
      = min (sellPrice * (book.getPriceCompStats sellPrice buyPrice).cumulativeOfferedForSale.toNat)
          (2 ^ 128 - 1) := by
  unfold IOCOrderbook.cumulativeOfferedForSaleTimesPrice
  simp

/-- A sum of non-negative sell amounts is not negative. -/
theorem sum_sellAmount_nonneg (l : List IOCOffer) (h : ∀ o ∈ l, 0 ≤ o.mSellAmount) :
    0 ≤ (l.map (fun o => o.mSellAmount)).sum := by
  apply List.sum_nonneg
  intro x hx
  obtain ⟨o, ho, rfl⟩ := List.mem_map.mp hx
  exact h o ho

/-- The order of offers spelled out: a strictly lower price, or an equal price and a key
`(owner, sequence number, operation index)` that is not above. -/
theorem IOCOffer.le_iff (a b : IOCOffer) :
    a.le b = true ↔
      (a.mMinPrice.n * b.mMinPrice.d < b.mMinPrice.n * a.mMinPrice.d ∨
        (a.mMinPrice.n * b.mMinPrice.d = b.mMinPrice.n * a.mMinPrice.d ∧
          (a.mSourceAccount < b.mSourceAccount ∨
            (a.mSourceAccount = b.mSourceAccount ∧
              (a.mSeqNum < b.mSeqNum ∨
                (a.mSeqNum = b.mSeqNum ∧ a.mOpIndex ≤ b.mOpIndex)))))) := by
  unfold IOCOffer.le
  generalize a.mMinPrice.n * b.mMinPrice.d = x
  generalize b.mMinPrice.n * a.mMinPrice.d = y
  split_ifs <;>
    simp only [decide_eq_true_eq, Bool.false_eq_true, false_iff, true_iff, eq_self_iff_true]
    <;> omega

/-- Cross products of three prices with positive denominators, put over the middle
denominator. -/
theorem price_cross_mul (a b c : Price) :
    (a.n * c.d) * b.d = (a.n * b.d) * c.d ∧ (c.n * a.d) * b.d = (c.n * b.d) * a.d ∧
      (b.n * a.d) * c.d = (b.n * c.d) * a.d := by
  refine ⟨by ring, by ring, by ring⟩

/-- The order of offers is transitive over positive price denominators. -/
theorem IOCOffer.le_trans {a b c : IOCOffer} (ha : 0 < a.mMinPrice.d)
    (hb : 0 < b.mMinPrice.d) (hc : 0 < c.mMinPrice.d)
    (hab : a.le b = true) (hbc : b.le c = true) : a.le c = true := by
  rw [IOCOffer.le_iff] at hab hbc ⊢
  obtain ⟨e1, e2, e3⟩ := price_cross_mul a.mMinPrice b.mMinPrice c.mMinPrice
  have hstrict : ∀ {x1 y1 x2 y2 : Int}, x1 ≤ y1 → x2 ≤ y2 → (x1 < y1 ∨ x2 < y2) →
      x1 * c.mMinPrice.d < y2 * a.mMinPrice.d ∨ ¬ (y1 * c.mMinPrice.d = x2 * a.mMinPrice.d) := by
    intro x1 y1 x2 y2 h1 h2 h3
    by_cases he : y1 * c.mMinPrice.d = x2 * a.mMinPrice.d
    · left
      rcases h3 with h3 | h3
      · have := mul_lt_mul_of_pos_right h3 hc
        have := mul_le_mul_of_nonneg_right h2 (le_of_lt ha)
        linarith
      · have := mul_le_mul_of_nonneg_right h1 (le_of_lt hc)
        have := mul_lt_mul_of_pos_right h3 ha
        linarith
    · right; exact he
  have hlt : ∀ {x y : Int}, x * b.mMinPrice.d < y * b.mMinPrice.d → x < y :=
    fun h => lt_of_mul_lt_mul_right h (le_of_lt hb)
  rcases hab with hab | ⟨hab, kab⟩
  · rcases hbc with hbc | ⟨hbc, _⟩
    · left
      apply hlt
      rw [e1, e2]
      rcases hstrict (le_of_lt hab) (le_of_lt hbc) (Or.inl hab) with h | h
      · exact h
      · exact absurd e3 h
    · left
      apply hlt
      rw [e1, e2]
      rcases hstrict (le_of_lt hab) (le_of_eq hbc) (Or.inl hab) with h | h
      · exact h
      · exact absurd e3 h
  · rcases hbc with hbc | ⟨hbc, kbc⟩
    · left
      apply hlt
      rw [e1, e2]
      rcases hstrict (le_of_eq hab) (le_of_lt hbc) (Or.inr hbc) with h | h
      · exact h
      · exact absurd e3 h
    · right
      constructor
      · have h1 : (a.mMinPrice.n * c.mMinPrice.d) * b.mMinPrice.d
            = (c.mMinPrice.n * a.mMinPrice.d) * b.mMinPrice.d := by
          rw [e1, e2, hab, e3, hbc]
        exact mul_right_cancel₀ (ne_of_gt hb) h1
      · omega

/-- Two offers are always comparable in the order of offers. -/
theorem IOCOffer.le_of_not_le {a b : IOCOffer} (h : ¬ a.le b = true) : b.le a = true := by
  rw [IOCOffer.le_iff] at h ⊢
  generalize a.mMinPrice.n * b.mMinPrice.d = x at h ⊢
  generalize b.mMinPrice.n * a.mMinPrice.d = y at h ⊢
  omega

theorem insertOffer_sorted_le (o : IOCOffer) (l : List IOCOffer)
    (ho : 0 < o.mMinPrice.d) (hl : ∀ x ∈ l, 0 < x.mMinPrice.d)
    (hs : l.Pairwise (fun a b => a.le b = true)) :
    (insertOffer o l).Pairwise (fun a b => a.le b = true) := by
  induction l with
  | nil => simp [insertOffer]
  | cons x xs ih =>
    have hx : 0 < x.mMinPrice.d := hl x (List.mem_cons_self _ _)
    have hxs : ∀ y ∈ xs, 0 < y.mMinPrice.d := fun y hy => hl y (List.mem_cons_of_mem _ hy)
    rw [List.pairwise_cons] at hs
    unfold insertOffer
    split
    · rename_i hle
      rw [List.pairwise_cons]
      refine ⟨?_, List.pairwise_cons.mpr hs⟩
      intro y hy
      rcases List.mem_cons.mp hy with rfl | hy'
      · exact hle
      · exact IOCOffer.le_trans ho hx (hxs y hy') hle (hs.1 y hy')
    · rename_i hle
      rw [List.pairwise_cons]
      refine ⟨?_, ih hxs hs.2⟩
      intro y hy
      rcases List.mem_cons.mp ((insertOffer_perm o xs).mem_iff.mp hy) with rfl | hy'
      · exact IOCOffer.le_of_not_le hle
      · exact hs.1 y hy'

theorem sortOffers_sorted_le (l : List IOCOffer) (hl : ∀ x ∈ l, 0 < x.mMinPrice.d) :
    (sortOffers l).Pairwise (fun a b => a.le b = true) := by
  induction l with
  | nil => simp [sortOffers]
  | cons x xs ih =>
    unfold sortOffers
    apply insertOffer_sorted_le
    · exact hl x (List.mem_cons_self _ _)
    · intro y hy
      exact hl y (List.mem_cons_of_mem _ ((sortOffers_perm xs).mem_iff.mp hy))
    · exact ih (fun y hy => hl y (List.mem_cons_of_mem _ hy))

/-- Offers with positive price denominators, no two of which are tied in the order of offers:
the sorted list, and so the preprocessed data, is the same for every permutation of the
list. -/
theorem sortOffers_eq_of_perm (l₁ l₂ : List IOCOffer) (hperm : l₁.Perm l₂)
    (hd : ∀ o ∈ l₁, 0 < o.mMinPrice.d)
    (hties : ∀ a ∈ l₁, ∀ b ∈ l₁, a.le b = true → b.le a = true → a = b) :
    sortOffers l₁ = sortOffers l₂ := by
  have hd' : ∀ o ∈ l₂, 0 < o.mMinPrice.d := fun o ho => hd o (hperm.mem_iff.mpr ho)
  refine List.Perm.eq_of_sorted ?_ (sortOffers_sorted_le l₁ hd) (sortOffers_sorted_le l₂ hd')
    ((sortOffers_perm l₁).trans (hperm.trans (sortOffers_perm l₂).symm))
  intro a b ha hb hab hba
  exact hties a ((sortOffers_perm l₁).mem_iff.mp ha)
    b (hperm.mem_iff.mpr ((sortOffers_perm l₂).mem_iff.mp hb)) hab hba

/-! ## The base frame under `transfer` -/

/-- The pool identifier is not changed by `transfer`. -/
theorem LiquidityPoolFrameBase.transfer_poolID (base : LiquidityPoolFrameBase)
    (amountA amountB : Int) : (base.transfer amountA amountB).poolID = base.poolID := by
  cases base with
  | mk entry => cases entry <;> rfl

/-! ## Issued-asset logs -/

theorem loggedAmount_nil (c : AssetCode) : loggedAmount [] c = none := rfl

theorem loggedAmount_cons (x : IssuedAssetLog) (xs : List IssuedAssetLog) (c : AssetCode) :
    loggedAmount (x :: xs) c = if x.code = c then some x.issuedAmount else loggedAmount xs c := by
  unfold loggedAmount
  simp only [findIssuedAssetLog]
  by_cases h : x.code = c
  · simp [h]
  · simp only [h, if_false]
    cases findIssuedAssetLog xs c with
    | none => rfl
    | some i => simp

theorem findIssuedAssetLog_isSome_iff (logs : List IssuedAssetLog) (c : AssetCode) :
    (findIssuedAssetLog logs c).isSome = (loggedAmount logs c).isSome := by
  induction logs with
  | nil => rfl
  | cons x xs ih =>
    rw [loggedAmount_cons]
    simp only [findIssuedAssetLog]
    by_cases h : x.code = c
    · simp [h]
    · simp only [h, if_false]
      rw [← ih]
      cases findIssuedAssetLog xs c <;> rfl

theorem findIssuedAssetLog_get (logs : List IssuedAssetLog) (c : AssetCode) (i : Nat)
    (h : findIssuedAssetLog logs c = some i) :
    ∃ l, logs.get? i = some l ∧ l.code = c ∧ loggedAmount logs c = some l.issuedAmount := by
  induction logs generalizing i with
  | nil => cases h
  | cons x xs ih =>
    rw [loggedAmount_cons]
    simp only [findIssuedAssetLog] at h
    by_cases hx : x.code = c
    · simp only [hx, if_true, Option.some.injEq] at h
      subst h
      exact ⟨x, rfl, hx, by simp [hx]⟩
    · simp only [hx, if_false] at h ⊢
      cases hf : findIssuedAssetLog xs c with
      | none => rw [hf] at h; cases h
      | some j =>
        rw [hf] at h
        simp only [Option.some.injEq] at h
        subst h
        obtain ⟨l, hl, hc, ha⟩ := ih j hf
        exact ⟨l, by simpa using hl, hc, ha⟩

theorem loggedAmount_eq_none_iff (logs : List IssuedAssetLog) (c : AssetCode) :
    loggedAmount logs c = none ↔ ∀ l ∈ logs, l.code ≠ c := by
  induction logs with
  | nil => simp [loggedAmount_nil]
  | cons x xs ih =>
    rw [loggedAmount_cons]
    by_cases h : x.code = c
    · simp [h]
    · simp [h, ih]

theorem mem_insertIssuedAssetLog (l y : IssuedAssetLog) (xs : List IssuedAssetLog) :
    y ∈ insertIssuedAssetLog l xs ↔ y = l ∨ y ∈ xs := by
  induction xs with
  | nil => simp [insertIssuedAssetLog]
  | cons x xs ih =>
    unfold insertIssuedAssetLog
    split
    · simp
    · simp only [List.mem_cons, ih]
      tauto

theorem mem_sortIssuedAssetLogs (y : IssuedAssetLog) (xs : List IssuedAssetLog) :
    y ∈ sortIssuedAssetLogs xs ↔ y ∈ xs := by
  induction xs with
  | nil => simp [sortIssuedAssetLogs]
  | cons x xs ih =>
    have : sortIssuedAssetLogs (x :: xs) = insertIssuedAssetLog x (sortIssuedAssetLogs xs) := rfl
    rw [this, mem_insertIssuedAssetLog, ih]
    simp

theorem loggedAmount_insertIssuedAssetLog (l : IssuedAssetLog) (xs : List IssuedAssetLog)
    (c : AssetCode) (hl : ∀ x ∈ xs, x.code ≠ l.code) :
    loggedAmount (insertIssuedAssetLog l xs) c
      = if l.code = c then some l.issuedAmount else loggedAmount xs c := by
  induction xs with
  | nil => simp [insertIssuedAssetLog, loggedAmount_cons, loggedAmount_nil]
  | cons x xs ih =>
    unfold insertIssuedAssetLog
    split
    · rw [loggedAmount_cons]
    · rw [loggedAmount_cons, ih (fun y hy => hl y (List.mem_cons_of_mem _ hy)),
        loggedAmount_cons]
      have hx : x.code ≠ l.code := hl x (List.mem_cons_self _ _)
      by_cases h1 : x.code = c
      · have : ¬ l.code = c := fun h => hx (h1.trans h.symm)
        simp [h1, this]
      · simp [h1]

theorem pairwise_insertIssuedAssetLog (l : IssuedAssetLog) (xs : List IssuedAssetLog)
    (hl : ∀ x ∈ xs, x.code ≠ l.code) (hxs : xs.Pairwise (fun a b => a.code ≠ b.code)) :
    (insertIssuedAssetLog l xs).Pairwise (fun a b => a.code ≠ b.code) := by
  induction xs with
  | nil => simp [insertIssuedAssetLog]
  | cons x xs ih =>
    unfold insertIssuedAssetLog
    rw [List.pairwise_cons] at hxs
    split
    · rw [List.pairwise_cons]
      exact ⟨fun y hy => (hl y hy).symm, List.pairwise_cons.mpr hxs⟩
    · rw [List.pairwise_cons]
      refine ⟨?_, ih (fun y hy => hl y (List.mem_cons_of_mem _ hy)) hxs.2⟩
      intro y hy
      rw [mem_insertIssuedAssetLog] at hy
      rcases hy with hy | hy
      · subst hy
        exact hl x (List.mem_cons_self _ _)
      · exact hxs.1 y hy

theorem sortIssuedAssetLogs_spec (xs : List IssuedAssetLog)
    (hxs : xs.Pairwise (fun a b => a.code ≠ b.code)) :
    (sortIssuedAssetLogs xs).Pairwise (fun a b => a.code ≠ b.code) ∧
    ∀ c, loggedAmount (sortIssuedAssetLogs xs) c = loggedAmount xs c := by
  induction xs with
  | nil => exact ⟨List.Pairwise.nil, fun _ => rfl⟩
  | cons x xs ih =>
    have hs : sortIssuedAssetLogs (x :: xs) = insertIssuedAssetLog x (sortIssuedAssetLogs xs) :=
      rfl
    rw [List.pairwise_cons] at hxs
    obtain ⟨ih1, ih2⟩ := ih hxs.2
    have hx : ∀ y ∈ sortIssuedAssetLogs xs, y.code ≠ x.code := by
      intro y hy
      rw [mem_sortIssuedAssetLogs] at hy
      exact (hxs.1 y hy).symm
    rw [hs]
    refine ⟨pairwise_insertIssuedAssetLog x _ hx ih1, fun c => ?_⟩
    rw [loggedAmount_insertIssuedAssetLog x _ c hx, ih2, loggedAmount_cons]

theorem loggedAmount_append_single (xs : List IssuedAssetLog) (code c : AssetCode) (v : Int)
    (hnew : loggedAmount xs code = none) :
    loggedAmount (xs ++ [⟨code, v⟩]) c = if c = code then some v else loggedAmount xs c := by
  induction xs with
  | nil =>
    rw [List.nil_append, loggedAmount_cons, loggedAmount_nil]
    by_cases h : code = c
    · simp [h]
    · have : ¬ c = code := fun h' => h h'.symm
      simp [h, this]
  | cons x xs ih =>
    rw [loggedAmount_cons] at hnew
    by_cases hx : x.code = code
    · simp [hx] at hnew
    · simp only [hx, if_false] at hnew
      rw [List.cons_append, loggedAmount_cons, ih hnew, loggedAmount_cons]
      by_cases h1 : x.code = c
      · have : ¬ c = code := fun h' => hx (h1.trans h')
        simp [h1, this]
      · simp [h1]

theorem pairwise_append_single (xs : List IssuedAssetLog) (code : AssetCode) (v : Int)
    (hxs : xs.Pairwise (fun a b => a.code ≠ b.code)) (hnew : loggedAmount xs code = none) :
    (xs ++ [(⟨code, v⟩ : IssuedAssetLog)]).Pairwise (fun a b => a.code ≠ b.code) := by
  rw [List.pairwise_append]
  refine ⟨hxs, List.pairwise_singleton _ _, ?_⟩
  intro a ha b hb
  rw [List.mem_singleton] at hb
  rw [hb]
  exact (loggedAmount_eq_none_iff xs code).mp hnew a ha

theorem findIssuedAssetLog_set (logs : List IssuedAssetLog) (c : AssetCode) (i : Nat) (v : Int)
    (h : findIssuedAssetLog logs c = some i) :
    findIssuedAssetLog (logs.set i ⟨c, v⟩) c = some i := by
  induction logs generalizing i with
  | nil => cases h
  | cons x xs ih =>
    simp only [findIssuedAssetLog] at h
    by_cases hx : x.code = c
    · simp only [hx, if_true, Option.some.injEq] at h
      subst h
      simp [findIssuedAssetLog]
    · simp only [hx, if_false] at h
      cases hf : findIssuedAssetLog xs c with
      | none => rw [hf] at h; cases h
      | some j =>
        rw [hf] at h
        simp only [Option.some.injEq] at h
        subst h
        simp [findIssuedAssetLog, hx, ih j hf]

theorem eraseIdx_set_self (logs : List IssuedAssetLog) (i : Nat) (x : IssuedAssetLog) :
    (logs.set i x).eraseIdx i = logs.eraseIdx i := by
  induction logs generalizing i with
  | nil => rfl
  | cons y ys ih =>
    cases i with
    | zero => rfl
    | succ j => simp [ih j]

theorem loggedAmount_set (logs : List IssuedAssetLog) (c0 c : AssetCode) (i : Nat) (v : Int)
    (h : findIssuedAssetLog logs c0 = some i) :
    loggedAmount (logs.set i ⟨c0, v⟩) c = if c = c0 then some v else loggedAmount logs c := by
  induction logs generalizing i with
  | nil => cases h
  | cons x xs ih =>
    simp only [findIssuedAssetLog] at h
    by_cases hx : x.code = c0
    · simp only [hx, if_true, Option.some.injEq] at h
      subst h
      rw [List.set_cons_zero, loggedAmount_cons, loggedAmount_cons]
      by_cases hc : c = c0
      · simp [hc]
      · have h1 : ¬ c0 = c := fun h' => hc h'.symm
        have h2 : ¬ x.code = c := fun h' => hc (h'.symm.trans hx)
        simp [hc, h1, h2]
    · simp only [hx, if_false] at h
      cases hf : findIssuedAssetLog xs c0 with
      | none => rw [hf] at h; cases h
      | some j =>
        rw [hf] at h
        simp only [Option.some.injEq] at h
        subst h
        rw [List.set_cons_succ, loggedAmount_cons, loggedAmount_cons, ih j hf]
        by_cases hc : c = c0
        · have : ¬ x.code = c := fun h' => hx (h'.trans hc)
          simp [hc, this, hx]
        · simp [hc]

theorem loggedAmount_eraseIdx (logs : List IssuedAssetLog) (c0 c : AssetCode) (i : Nat)
    (hd : logs.Pairwise (fun a b => a.code ≠ b.code))
    (h : findIssuedAssetLog logs c0 = some i) :
    loggedAmount (logs.eraseIdx i) c = if c = c0 then none else loggedAmount logs c := by
  induction logs generalizing i with
  | nil => cases h
  | cons x xs ih =>
    rw [List.pairwise_cons] at hd
    simp only [findIssuedAssetLog] at h
    by_cases hx : x.code = c0
    · simp only [hx, if_true, Option.some.injEq] at h
      subst h
      rw [List.eraseIdx_cons_zero, loggedAmount_cons]
      by_cases hc : c = c0
      · simp only [hc, if_true]
        rw [loggedAmount_eq_none_iff]
        intro l hl
        rw [← hx]
        exact (hd.1 l hl).symm
      · have h2 : ¬ x.code = c := fun h' => hc (h'.symm.trans hx)
        simp [hc, h2]
    · simp only [hx, if_false] at h
      cases hf : findIssuedAssetLog xs c0 with
      | none => rw [hf] at h; cases h
      | some j =>
        rw [hf] at h
        simp only [Option.some.injEq] at h
        subst h
        rw [List.eraseIdx_cons_succ, loggedAmount_cons, loggedAmount_cons, ih j hd.2 hf]
        by_cases hc : c = c0
        · have : ¬ x.code = c := fun h' => hx (h'.trans hc)
          simp [hc, this, hx]
        · simp [hc]

theorem get?_eraseIdx_self_mem (logs : List IssuedAssetLog) (i : Nat) (l : IssuedAssetLog)
    (h : (logs.eraseIdx i).get? i = some l) : l ∈ logs := by
  have hmem : l ∈ logs.eraseIdx i := List.get?_mem h
  exact List.mem_of_mem_eraseIdx hmem

/-! ## Account entries and their extension V3 -/

theorem hasAccountEntryExtV3_of_get (ae : AccountEntry) (v3 : AccountEntryExtensionV3)
    (h : getAccountEntryExtensionV3 ae = .ok v3) : hasAccountEntryExtV3 ae = true := by
  obtain ⟨b, n, f, ext⟩ := ae
  rcases ext with _ | ⟨l, _ | ⟨s1, s2, _ | w⟩⟩ <;>
    simp_all [getAccountEntryExtensionV3, hasAccountEntryExtV3, hasAccountEntryExtV2]

theorem getAccountEntryExtensionV3_of_has (ae : AccountEntry)
    (h : hasAccountEntryExtV3 ae = true) :
    getAccountEntryExtensionV3 ae = .ok ⟨ae.issuedAmounts⟩ := by
  obtain ⟨b, n, f, ext⟩ := ae
  rcases ext with _ | ⟨l, _ | ⟨s1, s2, _ | w⟩⟩ <;>
    simp_all [getAccountEntryExtensionV3, hasAccountEntryExtV3, hasAccountEntryExtV2,
      AccountEntry.issuedAmounts]

theorem issuedAmounts_of_not_has (ae : AccountEntry) (h : hasAccountEntryExtV3 ae = false) :
    ae.issuedAmounts = [] := by
  obtain ⟨b, n, f, ext⟩ := ae
  rcases ext with _ | ⟨l, _ | ⟨s1, s2, _ | w⟩⟩ <;>
    simp_all [getAccountEntryExtensionV3, hasAccountEntryExtV3, hasAccountEntryExtV2,
      AccountEntry.issuedAmounts]

theorem prepareAccountEntryExtensionV3_of_not_has (ae : AccountEntry)
    (h : hasAccountEntryExtV3 ae = false) :
    getAccountEntryExtensionV3 (prepareAccountEntryExtensionV3 ae) = .ok ⟨[]⟩ ∧
    (prepareAccountEntryExtensionV3 ae).balance = ae.balance ∧
    (prepareAccountEntryExtensionV3 ae).numSubEntries = ae.numSubEntries ∧
    (prepareAccountEntryExtensionV3 ae).flags = ae.flags := by
  obtain ⟨b, n, f, ext⟩ := ae
  rcases ext with _ | ⟨l, _ | ⟨s1, s2, _ | w⟩⟩ <;>
    simp_all [getAccountEntryExtensionV3, hasAccountEntryExtV3, hasAccountEntryExtV2,
      prepareAccountEntryExtensionV3, prepareAccountEntryExtensionV2,
      prepareAccountEntryExtensionV1]

theorem setIssuedAmounts_spec (ae : AccountEntry) (v3 : AccountEntryExtensionV3)
    (logs : List IssuedAssetLog) (h : getAccountEntryExtensionV3 ae = .ok v3) :
    getAccountEntryExtensionV3 (setIssuedAmounts ae logs) = .ok ⟨logs⟩ ∧
    (setIssuedAmounts ae logs).balance = ae.balance ∧
    (setIssuedAmounts ae logs).numSubEntries = ae.numSubEntries ∧
    (setIssuedAmounts ae logs).flags = ae.flags ∧
    (∀ logs2, setIssuedAmounts (setIssuedAmounts ae logs) logs2 = setIssuedAmounts ae logs2) ∧
    setIssuedAmounts ae v3.issuedAmounts = ae := by
  obtain ⟨b, n, f, ext⟩ := ae
  rcases ext with _ | ⟨l, _ | ⟨s1, s2, _ | w⟩⟩ <;>
    simp_all [getAccountEntryExtensionV3, setIssuedAmounts]

theorem issuedAmounts_of_get (ae : AccountEntry) (logs : List IssuedAssetLog)
    (h : getAccountEntryExtensionV3 ae = .ok ⟨logs⟩) : ae.issuedAmounts = logs := by
  unfold AccountEntry.issuedAmounts
  rw [h]

/-- The account entry on which `issueAsset` works after its first two steps: with the
extension V3 and a log for the code. -/
theorem issueAsset_prepared (account : AccountEntry) (code : AssetCode) :
    ∃ ae : AccountEntry,
      hasIssuedAssetLog
          (if !hasAccountEntryExtV3 account then prepareAccountEntryExtensionV3 account
            else account) code
        = .ok (loggedAmount account.issuedAmounts code).isSome ∧
      (if !(loggedAmount account.issuedAmounts code).isSome then
          addNewIssuedAssetLog
            (if !hasAccountEntryExtV3 account then prepareAccountEntryExtensionV3 account
              else account) code
        else .ok (if !hasAccountEntryExtV3 account then prepareAccountEntryExtensionV3 account
          else account)) = Except.ok ae ∧
      getAccountEntryExtensionV3 ae
        = .ok ⟨if (loggedAmount account.issuedAmounts code).isSome then account.issuedAmounts
          else sortIssuedAssetLogs (account.issuedAmounts ++ [⟨code, 0⟩])⟩ ∧
      ae.balance = account.balance ∧ ae.numSubEntries = account.numSubEntries ∧
      ae.flags = account.flags ∧
      (hasAccountEntryExtV3 account = true →
        (loggedAmount account.issuedAmounts code).isSome = true → ae = account) := by
  -- the entry after the first step
  obtain ⟨ae1, hae1, hget1, hb1, hn1, hf1, hsame1⟩ :
      ∃ ae1, (if !hasAccountEntryExtV3 account then prepareAccountEntryExtensionV3 account
          else account) = ae1 ∧
        getAccountEntryExtensionV3 ae1 = .ok ⟨account.issuedAmounts⟩ ∧
        ae1.balance = account.balance ∧ ae1.numSubEntries = account.numSubEntries ∧
        ae1.flags = account.flags ∧ (hasAccountEntryExtV3 account = true → ae1 = account) := by
    by_cases h : hasAccountEntryExtV3 account = true
    · refine ⟨account, by simp [h], getAccountEntryExtensionV3_of_has account h, rfl, rfl, rfl,
        fun _ => rfl⟩
    · have h' : hasAccountEntryExtV3 account = false := by simpa using h
      obtain ⟨p1, p2, p3, p4⟩ := prepareAccountEntryExtensionV3_of_not_has account h'
      refine ⟨prepareAccountEntryExtensionV3 account, by simp [h'], ?_, p2, p3, p4,
        fun h2 => absurd h2 h⟩
      rw [issuedAmounts_of_not_has account h']
      exact p1
  rw [hae1]
  have hhas1 := hasAccountEntryExtV3_of_get ae1 _ hget1
  have hlog : hasIssuedAssetLog ae1 code
      = .ok (loggedAmount account.issuedAmounts code).isSome := by
    unfold hasIssuedAssetLog
    rw [hhas1, hget1]
    simp [findIssuedAssetLog_isSome_iff]
  by_cases hs : (loggedAmount account.issuedAmounts code).isSome = true
  · refine ⟨ae1, hlog, by simp [hs], by simp [hs, hget1], hb1, hn1, hf1, fun h _ => hsame1 h⟩
  · have hs' : (loggedAmount account.issuedAmounts code).isSome = false := by simpa using hs
    obtain ⟨q1, q2, q3, q4, _, _⟩ := setIssuedAmounts_spec ae1 _
      (sortIssuedAssetLogs (account.issuedAmounts ++ [⟨code, 0⟩])) hget1
    refine ⟨setIssuedAmounts ae1 (sortIssuedAssetLogs (account.issuedAmounts ++ [⟨code, 0⟩])),
      hlog, ?_, by simp [hs', q1], q2.trans hb1, q3.trans hn1, q4.trans hf1,
      fun _ h => absurd h hs⟩
    simp only [hs', Bool.not_false, if_true]
    unfold addNewIssuedAssetLog
    rw [hlog, hs']
    simp only [hhas1, Bool.not_true, Bool.false_eq_true, if_false, hget1]

theorem readIssuedAmount_of_get (ae : AccountEntry) (logs : List IssuedAssetLog)
    (h : getAccountEntryExtensionV3 ae = .ok ⟨logs⟩) (j : Nat) (stale : Int) :
    readIssuedAmount ae j stale
      = match logs.get? j with
        | some l => l.issuedAmount
        | none => stale := by
  unfold readIssuedAmount
  simp only [h]

theorem writeIssuedAmount_of_get (ae : AccountEntry) (logs : List IssuedAssetLog)
    (h : getAccountEntryExtensionV3 ae = .ok ⟨logs⟩) (i : Nat) (l : IssuedAssetLog) (v : Int)
    (hl : logs.get? i = some l) :
    writeIssuedAmount ae i v = setIssuedAmounts ae (logs.set i ⟨l.code, v⟩) := by
  unfold writeIssuedAmount
  rw [h]
  simp only [hl]

theorem trimIssuedAssetLog_of_get (ae : AccountEntry) (logs : List IssuedAssetLog)
    (h : getAccountEntryExtensionV3 ae = .ok ⟨logs⟩) (code : AssetCode) (i : Nat)
    (hi : findIssuedAssetLog logs code = some i) :
    trimIssuedAssetLog ae code = .ok (setIssuedAmounts ae (logs.eraseIdx i)) := by
  unfold trimIssuedAssetLog
  rw [h]
  simp only [hi]

theorem getIssuedAssetLog_of_get (ae : AccountEntry) (logs : List IssuedAssetLog)
    (h : getAccountEntryExtensionV3 ae = .ok ⟨logs⟩) (code : AssetCode) (i : Nat)
    (hi : findIssuedAssetLog logs code = some i) :
    getIssuedAssetLog ae code = .ok i := by
  unfold getIssuedAssetLog
  rw [h]
  simp only [hi]

/-- What `issueAsset` does on an issuance-limited account, in terms of the vector of logs
`logs` after its first two steps, the position `i` of the log of the code in it and the
amount `a` of that log. -/
theorem issueAsset_account (xdr : XdrDeclarations) (account : AccountEntry) (code : AssetCode)
    (delta : Int) (hlim : isIssuanceLimitedAccount xdr account.flags = true) :
    ∃ (ae : AccountEntry) (logs : List IssuedAssetLog) (i : Nat) (a : Int),
      logs = (if (loggedAmount account.issuedAmounts code).isSome then account.issuedAmounts
        else sortIssuedAssetLogs (account.issuedAmounts ++ [⟨code, 0⟩])) ∧
      getAccountEntryExtensionV3 ae = .ok ⟨logs⟩ ∧
      ae.balance = account.balance ∧ ae.numSubEntries = account.numSubEntries ∧
      ae.flags = account.flags ∧
      (hasAccountEntryExtV3 account = true →
        (loggedAmount account.issuedAmounts code).isSome = true → ae = account) ∧
      findIssuedAssetLog logs code = some i ∧ loggedAmount logs code = some a ∧
      issueAsset xdr ⟨.ACCOUNT account⟩ code delta
        = if a < 0 then .error .startedWithNegativeAmount
          else if toInt64 (INT64_MAX - a) < delta then .ok (false, ⟨.ACCOUNT ae⟩)
          else if delta < 0 ∧ toInt64 (a + delta) < 0 then .ok (false, ⟨.ACCOUNT ae⟩)
          else if toInt64 (a + delta) = 0 then
            (if (match (logs.eraseIdx i).get? i with
                | some l => l.issuedAmount
                | none => 0) < 0 then .error .issuedNegativeAmount
              else .ok (true, ⟨.ACCOUNT (setIssuedAmounts ae (logs.eraseIdx i))⟩))
          else if toInt64 (a + delta) < 0 then .error .issuedNegativeAmount
          else .ok (true,
            ⟨.ACCOUNT (setIssuedAmounts ae (logs.set i ⟨code, toInt64 (a + delta)⟩))⟩) := by
  obtain ⟨ae, hhas, hprep, hget, hb, hn, hf, hsame⟩ := issueAsset_prepared account code
  generalize hlogs : (if (loggedAmount account.issuedAmounts code).isSome then
      account.issuedAmounts
    else sortIssuedAssetLogs (account.issuedAmounts ++ [⟨code, 0⟩])) = logs at hget
  have hfound : (loggedAmount logs code).isSome = true := by
    rw [← hlogs]
    by_cases hs : (loggedAmount account.issuedAmounts code).isSome = true
    · simp [hs]
    · rw [if_neg hs, Option.isSome_iff_ne_none]
      intro hnone
      rw [loggedAmount_eq_none_iff] at hnone
      exact hnone ⟨code, 0⟩ (by rw [mem_sortIssuedAssetLogs]; simp) rfl
  rw [← findIssuedAssetLog_isSome_iff] at hfound
  obtain ⟨i, hi⟩ := Option.isSome_iff_exists.mp hfound
  obtain ⟨l, hl, hcode, ha⟩ := findIssuedAssetLog_get logs code i hi
  obtain ⟨lc, la⟩ := l
  simp only at hcode ha
  subst hcode
  refine ⟨ae, logs, i, la, rfl, hget, hb, hn, hf, hsame, hi, ha, ?_⟩
  have hilt : i < logs.length := by
    rw [List.get?_eq_some] at hl
    exact hl.1
  have hw : ∀ v, writeIssuedAmount ae i v = setIssuedAmounts ae (logs.set i ⟨lc, v⟩) :=
    fun v => writeIssuedAmount_of_get ae logs hget i _ v hl
  have hgetw : ∀ v, getAccountEntryExtensionV3 (setIssuedAmounts ae (logs.set i ⟨lc, v⟩))
      = .ok ⟨logs.set i ⟨lc, v⟩⟩ := fun v => (setIssuedAmounts_spec ae _ _ hget).1
  have hr0 : readIssuedAmount ae i 0 = la := by
    rw [readIssuedAmount_of_get ae logs hget, hl]
  have hrw : ∀ v stale,
      readIssuedAmount (setIssuedAmounts ae (logs.set i ⟨lc, v⟩)) i stale = v := by
    intro v stale
    rw [readIssuedAmount_of_get _ _ (hgetw v)]
    simp [hilt]
  have htrim : ∀ v, trimIssuedAssetLog (setIssuedAmounts ae (logs.set i ⟨lc, v⟩)) lc
      = .ok (setIssuedAmounts ae (logs.eraseIdx i)) := by
    intro v
    rw [trimIssuedAssetLog_of_get _ _ (hgetw v) lc i (findIssuedAssetLog_set logs lc i v hi),
      eraseIdx_set_self, (setIssuedAmounts_spec ae _ _ hget).2.2.2.2.1]
  have hrt : ∀ stale, readIssuedAmount (setIssuedAmounts ae (logs.eraseIdx i)) i stale
      = match (logs.eraseIdx i).get? i with
        | some l => l.issuedAmount
        | none => stale :=
    fun stale => readIssuedAmount_of_get _ _ (setIssuedAmounts_spec ae _ _ hget).1 i stale
  unfold issueAsset
  simp only [hlim, if_true, hhas, hprep, getIssuedAssetLog_of_get ae logs hget lc i hi, hr0, hw,
    hrw]
  by_cases h1 : la < 0
  · simp only [h1, if_true]
  simp only [h1, if_false]
  by_cases h2 : toInt64 (INT64_MAX - la) < delta
  · simp only [h2, if_true]
  simp only [h2, if_false]
  by_cases h3 : delta < 0 ∧ toInt64 (la + delta) < 0
  · simp only [h3, and_self, if_true]
  simp only [h3, if_false]
  by_cases h4 : toInt64 (la + delta) = 0
  · simp only [h4, if_true, htrim, hrt]
  · simp only [h4, if_false, hrw]

/-- On an account that is not issuance-limited, `issueAsset` returns true and leaves the
entry as it is. -/
theorem issueAsset_not_limited (xdr : XdrDeclarations) (account : AccountEntry)
    (code : AssetCode) (delta : Int)
    (hlim : isIssuanceLimitedAccount xdr account.flags = false) :
    issueAsset xdr ⟨.ACCOUNT account⟩ code delta = .ok (true, ⟨.ACCOUNT account⟩) := by
  unfold issueAsset
  simp [hlim]

set_option maxRecDepth 4000 in
/-- The behaviour of `issueAsset` on an issuance-limited account whose logs have distinct
codes and `int64_t` amounts that are not negative, for an `int64_t` `delta`, with `a` the
amount logged for the code (`0` without a log): the call returns false when `a + delta` is
outside `[0, INT64_MAX]`; otherwise it returns true, the amount logged for the code is then
`a + delta`, without a log when that is `0`, the amounts logged for the other codes are
unchanged, and so are the balance, the number of subentries and the flags. -/
theorem issueAsset_spec (xdr : XdrDeclarations) (account : AccountEntry) (code : AssetCode)
    (delta : Int) (hlim : isIssuanceLimitedAccount xdr account.flags = true)
    (hd : account.issuedAmounts.Pairwise (fun l1 l2 => l1.code ≠ l2.code))
    (hnn : ∀ l ∈ account.issuedAmounts, 0 ≤ l.issuedAmount)
    (hmax : ∀ l ∈ account.issuedAmounts, l.issuedAmount < 2 ^ 63)
    (hd0 : -2 ^ 63 ≤ delta) (hd1 : delta < 2 ^ 63) :
    (¬ (0 ≤ (loggedAmount account.issuedAmounts code).getD 0 + delta ∧
        (loggedAmount account.issuedAmounts code).getD 0 + delta ≤ INT64_MAX) →
      ∃ ae, issueAsset xdr ⟨.ACCOUNT account⟩ code delta = .ok (false, ⟨.ACCOUNT ae⟩)) ∧
    (0 ≤ (loggedAmount account.issuedAmounts code).getD 0 + delta ∧
        (loggedAmount account.issuedAmounts code).getD 0 + delta ≤ INT64_MAX →
      ∃ ae, issueAsset xdr ⟨.ACCOUNT account⟩ code delta = .ok (true, ⟨.ACCOUNT ae⟩) ∧
        (∀ c, loggedAmount ae.issuedAmounts c
          = if c = code then
              (if (loggedAmount account.issuedAmounts code).getD 0 + delta = 0 then none
                else some ((loggedAmount account.issuedAmounts code).getD 0 + delta))
            else loggedAmount account.issuedAmounts c) ∧
        ae.balance = account.balance ∧ ae.numSubEntries = account.numSubEntries ∧
        ae.flags = account.flags) := by
  obtain ⟨ae, logs, i, la, hlogs, hget, hb, hn, hf, _, hi, hla, heq⟩ :=
    issueAsset_account xdr account code delta hlim
  -- the logs after the first two steps
  have hfacts : logs.Pairwise (fun l1 l2 => l1.code ≠ l2.code) ∧
      (∀ l ∈ logs, 0 ≤ l.issuedAmount) ∧ (∀ l ∈ logs, l.issuedAmount < 2 ^ 63) ∧
      (∀ c, loggedAmount logs c
        = if c = code then some ((loggedAmount account.issuedAmounts code).getD 0)
          else loggedAmount account.issuedAmounts c) := by
    by_cases hs : (loggedAmount account.issuedAmounts code).isSome = true
    · rw [if_pos hs] at hlogs
      subst hlogs
      refine ⟨hd, hnn, hmax, fun c => ?_⟩
      by_cases hc : c = code
      · subst hc
        obtain ⟨v, hv⟩ := Option.isSome_iff_exists.mp hs
        simp [hv]
      · simp [hc]
    · rw [if_neg hs] at hlogs
      have hnone : loggedAmount account.issuedAmounts code = none := by
        cases hv : loggedAmount account.issuedAmounts code with
        | none => rfl
        | some v => rw [hv] at hs; simp at hs
      have hpw := pairwise_append_single account.issuedAmounts code 0 hd hnone
      obtain ⟨s1, s2⟩ := sortIssuedAssetLogs_spec _ hpw
      have hmem : ∀ l ∈ logs, l ∈ account.issuedAmounts ∨ l = ⟨code, 0⟩ := by
        intro l hl
        rw [hlogs, mem_sortIssuedAssetLogs, List.mem_append, List.mem_singleton] at hl
        exact hl
      subst hlogs
      refine ⟨s1, ?_, ?_, fun c => ?_⟩
      · intro l hl
        rcases hmem l hl with h | h
        · exact hnn l h
        · rw [h]
      · intro l hl
        rcases hmem l hl with h | h
        · exact hmax l h
        · rw [h]; norm_num
      · rw [s2, loggedAmount_append_single _ _ _ _ hnone, hnone]
        simp
  obtain ⟨hpw, hnn2, hmax2, hlook⟩ := hfacts
  generalize (loggedAmount account.issuedAmounts code).getD 0 = a at hlook ⊢
  have hla' : la = a := by
    have := hlook code
    rw [hla] at this
    simpa using this
  subst hla'
  obtain ⟨l, hl, _, hl2⟩ := findIssuedAssetLog_get logs code i hi
  have hlmem : l ∈ logs := List.get?_mem hl
  have hamt : l.issuedAmount = la := by
    rw [hla] at hl2
    simpa using hl2.symm
  have ha0 : 0 ≤ la := hamt ▸ hnn2 l hlmem
  have ha1 : la < 2 ^ 63 := hamt ▸ hmax2 l hlmem
  have hmaxsub : toInt64 (INT64_MAX - la) = INT64_MAX - la := by
    unfold INT64_MAX
    exact toInt64_of_range (by omega) (by omega)
  have hI : INT64_MAX = 2 ^ 63 - 1 := rfl
  rw [hmaxsub] at heq
  constructor
  · intro hout
    refine ⟨ae, ?_⟩
    rw [heq, if_neg (by omega)]
    by_cases h2 : INT64_MAX - la < delta
    · rw [if_pos h2]
    · rw [if_neg h2]
      have hsum : toInt64 (la + delta) = la + delta :=
        toInt64_of_range (by omega) (by omega)
      rw [hsum]
      have h3 : delta < 0 ∧ la + delta < 0 := by
        constructor <;> omega
      rw [if_pos h3]
  · intro hin
    have hsum : toInt64 (la + delta) = la + delta :=
      toInt64_of_range (by omega) (by omega)
    rw [hsum] at heq
    rw [heq, if_neg (by omega), if_neg (by omega), if_neg (by omega)]
    by_cases h4 : la + delta = 0
    · rw [if_pos h4]
      have hread : ¬ (match (logs.eraseIdx i).get? i with
          | some l => l.issuedAmount
          | none => 0) < 0 := by
        cases hg : (logs.eraseIdx i).get? i with
        | none => simp
        | some m =>
          have := hnn2 m (get?_eraseIdx_self_mem logs i m hg)
          simp only
          omega
      rw [if_neg hread]
      obtain ⟨q1, q2, q3, q4, _, _⟩ := setIssuedAmounts_spec ae _ (logs.eraseIdx i) hget
      refine ⟨_, rfl, fun c => ?_, q2.trans hb, q3.trans hn, q4.trans hf⟩
      rw [issuedAmounts_of_get _ _ q1, loggedAmount_eraseIdx logs code c i hpw hi, hlook c]
      by_cases hc : c = code
      · simp [hc, h4]
      · simp [hc]
    · rw [if_neg h4, if_neg (by omega)]
      obtain ⟨q1, q2, q3, q4, _, _⟩ :=
        setIssuedAmounts_spec ae _ (logs.set i ⟨code, la + delta⟩) hget
      refine ⟨_, rfl, fun c => ?_, q2.trans hb, q3.trans hn, q4.trans hf⟩
      rw [issuedAmounts_of_get _ _ q1, loggedAmount_set logs code c i _ hi, hlook c]
      by_cases hc : c = code
      · simp [hc, h4]
      · simp [hc]

/-! ## The square root in double precision and the offered amount -/

namespace LiquidityPoolFrame

/-- The value of `amountOfferedForSaleTimesSellPrice` depends on the lambda `sqrt` only
through its values at the three pairs of arguments with which it is called. -/
theorem amountOffered_congr (sqrt1 sqrt2 : Nat → Nat → Nat) (frame : LiquidityPoolFrame)
    (sellPrice buyPrice : Nat)
    (h1 : sqrt1 (toUInt64 frame.getSellBuyAmounts.1) frame.getMinPriceRatioFixedPoint.2
      = sqrt2 (toUInt64 frame.getSellBuyAmounts.1) frame.getMinPriceRatioFixedPoint.2)
    (h2 : sqrt1 (toUInt64 frame.getSellBuyAmounts.2) buyPrice
      = sqrt2 (toUInt64 frame.getSellBuyAmounts.2) buyPrice)
    (h3 : sqrt1 (toUInt64 frame.getSellBuyAmounts.1) sellPrice
      = sqrt2 (toUInt64 frame.getSellBuyAmounts.1) sellPrice) :
    frame.amountOfferedForSaleTimesSellPrice sqrt1 sellPrice buyPrice
      = frame.amountOfferedForSaleTimesSellPrice sqrt2 sellPrice buyPrice := by
  unfold amountOfferedForSaleTimesSellPrice hackyBigSquareRootRoundDown
    hackyBigSquareRootRoundUp
  simp only [h1, h2, h3]

set_option maxRecDepth 4000 in
/-- The value of `amountOfferedForSaleTimesSellPrice` for a sell price of at least 1 when
none of the early returns is taken and the difference is at most `INT128_MAX`: the
difference `top - bot` rounded down to a multiple of the sell price. -/
theorem amountOffered_eq_of_le (sqrt : Nat → Nat → Nat) (frame : LiquidityPoolFrame)
    (sellPrice buyPrice top bot : Nat) (hsp : 1 ≤ sellPrice)
    (h1 : frame.getSellBuyAmounts.1 ≠ 0) (h2 : frame.getMinPriceRatioFixedPoint.2 ≠ 0)
    (h3 : priceLT sellPrice buyPrice frame.getMinPriceRatioFixedPoint.1
      frame.getMinPriceRatioFixedPoint.2 = false)
    (htop : (sellPrice * hackyBigSquareRootRoundDown sqrt (toUInt64 frame.getSellBuyAmounts.1)
      frame.getMinPriceRatioFixedPoint.2) % 2 ^ 128 = top)
    (hbot : (hackyBigSquareRootRoundUp sqrt (toUInt64 frame.getSellBuyAmounts.2) buyPrice
      * hackyBigSquareRootRoundUp sqrt (toUInt64 frame.getSellBuyAmounts.1) sellPrice)
        % 2 ^ 128 = bot)
    (hle : bot ≤ top) (hmax : top - bot < 2 ^ 127) :
    frame.amountOfferedForSaleTimesSellPrice sqrt sellPrice buyPrice
      = .ok (((top - bot) - (top - bot) % sellPrice : Nat) : Int) := by
  have hI := INT128_MAX_eq
  unfold amountOfferedForSaleTimesSellPrice
  simp only
  rw [if_neg h1, if_neg h2, h3, htop, hbot]
  simp only [Bool.false_eq_true, if_false]
  rw [if_neg (by omega), if_neg (by omega), if_neg (by omega)]
  have hmod : (top - bot) % sellPrice ≤ top - bot := Nat.mod_le _ _
  generalize (top - bot) % sellPrice = r at hmod ⊢
  rw [toInt128_of_range (by omega) (by omega)]

end LiquidityPoolFrame

theorem sqrtCeil_pred_sq_lt {a b : Nat} (ha : a < 2 ^ 64) (hb : b < 2 ^ 64) :
    (sqrtCeil a b - 1) * (sqrtCeil a b - 1) ≤ a * b := by
  have hn := mul_lt_two_pow_128 ha hb
  have h1 := isqrt_sq_le hn
  unfold sqrtCeil
  split
  · have : (isqrt (a * b) - 1) * (isqrt (a * b) - 1) ≤ isqrt (a * b) * isqrt (a * b) :=
      Nat.mul_le_mul (by omega) (by omega)
    omega
  · simpa using h1

/-- Arithmetic of the pool `(1000000, 1000000)` with fee 30: from the sell price 1004 on,
against the buy price 1000, the subtracted product leaves at least one sell price. -/
theorem pool_margin {p c : Nat} (hp : 1004 ≤ p) (hc : (c - 1) * (c - 1) ≤ 1000000 * p) :
    31623 * c + p ≤ p * 998498 := by
  by_contra hlt
  have h1 : 998497 * p - 31623 < 31623 * (c - 1) := by omega
  have h2 : (998497 * p - 31623) * (998497 * p - 31623)
      < (31623 * (c - 1)) * (31623 * (c - 1)) :=
    Nat.mul_self_lt_mul_self h1
  have h3 : (31623 * (c - 1)) * (31623 * (c - 1)) ≤ 31623 * 31623 * (1000000 * p) := by
    calc (31623 * (c - 1)) * (31623 * (c - 1)) = 31623 * 31623 * ((c - 1) * (c - 1)) := by ring
      _ ≤ 31623 * 31623 * (1000000 * p) := Nat.mul_le_mul_left _ hc
  obtain ⟨d, hd⟩ : ∃ d, 998497 * p - 31623 = 998497 * 1004 - 31623 + 998497 * d ∧ p = 1004 + d :=
    ⟨p - 1004, by omega, by omega⟩
  rw [hd.1] at h2
  rw [hd.2] at h3
  have e : (998497 * 1004 - 31623 + 998497 * d) * (998497 * 1004 - 31623 + 998497 * d)
      = 31623 * 31623 * (1000000 * (1004 + d))
        + (910592960203225 + 1001891208148810 * d + 998497 * 998497 * (d * d)) := by
    ring
  omega

/-- The bisection with 65 steps is the floor of the square root below `2^130`. -/
theorem isqrtAux_65_spec {n : Nat} (hn : n < 2 ^ 130) :
    isqrtAux n 65 0 * isqrtAux n 65 0 ≤ n ∧ n < (isqrtAux n 65 0 + 1) * (isqrtAux n 65 0 + 1) :=
  isqrtAux_spec n 65 0 (by simp) (by norm_num; omega)

theorem eq_of_sq_bounds {q t : Nat} (h1 : q * q ≤ t * t) (h2 : t * t < (q + 1) * (q + 1)) :
    q = t := by
  apply Nat.le_antisymm
  · by_contra hgt
    have h : (t + 1) * (t + 1) ≤ q * q := Nat.mul_le_mul (by omega) (by omega)
    have e : (t + 1) * (t + 1) = t * t + 2 * t + 1 := by ring
    omega
  · by_contra hlt
    have : (q + 1) * (q + 1) ≤ t * t := Nat.mul_le_mul (by omega) (by omega)
    omega

theorem four_mul_sq_not_gt (t : Nat) : ¬ 4 * (t * t) > (2 * t + 1) * (2 * t + 1) := by
  have e : (2 * t + 1) * (2 * t + 1) = 4 * (t * t) + 4 * t + 1 := by ring
  omega

theorem succ_sq_le_scaled {r x J : Nat} (hx : r * r + 1 ≤ x) (hJ : 2 * r + 1 ≤ J) :
    (r * J + 1) * (r * J + 1) ≤ x * (J * J) := by
  have h1 : (r * r + 1) * (J * J) ≤ x * (J * J) := Nat.mul_le_mul_right _ hx
  have h2 : (2 * r + 1) * J ≤ J * J := Nat.mul_le_mul_right _ hJ
  have hJ1 : 1 ≤ J := by omega
  have e1 : (r * J + 1) * (r * J + 1) = r * r * (J * J) + 2 * r * J + 1 := by ring
  have e2 : (r * r + 1) * (J * J) = r * r * (J * J) + J * J := by ring
  have e3 : (2 * r + 1) * J = 2 * r * J + J := by ring
  omega

/-- Below `2^52` the correctly rounded square root, rounded up to an integer, is the exact
ceiling of the square root. -/
theorem ceilSqrtToDouble_of_lt {x : Nat} (hx : x < 2 ^ 52) :
    ceilSqrtToDouble x = if isqrt x * isqrt x = x then isqrt x else isqrt x + 1 := by
  by_cases hx0 : x = 0
  · subst hx0
    rfl
  have hr := isqrtAux_65_spec (n := x) (by omega)
  have hi : isqrt x = isqrtAux x 65 0 := by
    rw [isqrt_eq_sqrt (by omega)]
    exact (Nat.eq_sqrt.mpr hr).symm
  rw [hi]
  unfold ceilSqrtToDouble
  rw [if_neg hx0]
  generalize isqrtAux x 65 0 = r at hr ⊢
  obtain ⟨hr1, hr2⟩ := hr
  have hr26 : r < 2 ^ 26 := by
    by_contra hge
    have h1 : 2 ^ 26 * 2 ^ 26 ≤ r * r := Nat.mul_le_mul (by omega) (by omega)
    omega
  have hL : bitLength r ≤ 26 := bitLengthAux_le 130 r 26 hr26
  have hrL : r < 2 ^ bitLength r := lt_two_pow_bitLengthAux 130 r (by omega)
  simp only
  rw [if_neg (by omega)]
  generalize bitLength r = L at hL hrL ⊢
  have h4 : (4 : Nat) ^ (53 - L) = 2 ^ (53 - L) * 2 ^ (53 - L) := by
    rw [← Nat.mul_pow]
  have hJ27 : 2 ^ 27 ≤ 2 ^ (53 - L) := Nat.pow_le_pow_right (by omega) (by omega)
  have hJL : 2 ^ L * 2 ^ (53 - L) = 2 ^ 53 := by
    rw [← Nat.pow_add]
    congr 1
    omega
  rw [h4]
  generalize (2 : Nat) ^ (53 - L) = J at hJ27 hJL ⊢
  generalize (2 : Nat) ^ L = P at hrL hJL
  have hrJ : (r + 1) * J ≤ 2 ^ 53 := by
    rw [← hJL]
    exact Nat.mul_le_mul_right J (by omega)
  have hy : x * (J * J) < ((r + 1) * J) * ((r + 1) * J) := by
    have hJpos : 0 < J * J := Nat.mul_pos (by omega) (by omega)
    have := Nat.mul_lt_mul_of_pos_right hr2 hJpos
    calc x * (J * J) < (r + 1) * (r + 1) * (J * J) := this
      _ = ((r + 1) * J) * ((r + 1) * J) := by ring
  have hy130 : x * (J * J) < 2 ^ 130 := by
    have : ((r + 1) * J) * ((r + 1) * J) ≤ 2 ^ 53 * 2 ^ 53 := Nat.mul_le_mul hrJ hrJ
    omega
  have hq := isqrtAux_65_spec hy130
  generalize isqrtAux (x * (J * J)) 65 0 = q at hq ⊢
  obtain ⟨hq1, hq2⟩ := hq
  have hqlt : q < (r + 1) * J := by
    by_contra hge
    have := Nat.mul_le_mul (Nat.le_of_not_lt hge) (Nat.le_of_not_lt hge)
    omega
  have hJpos : 0 < J := by omega
  by_cases hsq : r * r = x
  · rw [if_pos hsq]
    have hyeq : x * (J * J) = (r * J) * (r * J) := by rw [← hsq]; ring
    rw [hyeq] at hq1 hq2 ⊢
    have hqr : q = r * J := eq_of_sq_bounds hq1 hq2
    rw [hqr]
    rw [if_neg (four_mul_sq_not_gt (r * J))]
    apply Nat.div_eq_of_lt_le
    · omega
    · rw [Nat.succ_mul]; omega
  · rw [if_neg hsq]
    have hx1 : r * r + 1 ≤ x := by omega
    have hylow : (r * J + 1) * (r * J + 1) ≤ x * (J * J) :=
      succ_sq_le_scaled hx1 (by omega)
    have hqge : r * J + 1 ≤ q := by
      by_contra hlt
      have : (q + 1) * (q + 1) ≤ (r * J + 1) * (r * J + 1) :=
        Nat.mul_le_mul (by omega) (by omega)
      omega
    apply Nat.div_eq_of_lt_le
    · split_ifs
      · rw [Nat.add_mul] at *; omega
      · rw [Nat.add_mul] at *; omega
    · have e : (r + 1).succ * J = (r + 1) * J + J := by rw [Nat.succ_mul]
      rw [e]
      split_ifs
      · omega
      · omega

/-- For operands whose product is below `2^52` the double-precision `sqrt` of the source
returns the exact ceiling of the square root. -/
theorem sqrtDouble_eq_sqrtCeil {a b : Nat} (h : a * b < 2 ^ 52) :
    sqrtDouble a b = sqrtCeil a b := by
  have hprod : roundToDoubleNat a * roundToDoubleNat b = a * b := by
    by_cases ha : a = 0
    · subst ha
      rw [roundToDoubleNat_of_le (by omega)]
      simp
    by_cases hb : b = 0
    · subst hb
      rw [roundToDoubleNat_of_le (n := 0) (by omega)]
      simp
    have ha1 : a ≤ a * b := Nat.le_mul_of_pos_right a (by omega)
    have hb1 : b ≤ a * b := Nat.le_mul_of_pos_left b (by omega)
    rw [roundToDoubleNat_of_le (by omega), roundToDoubleNat_of_le (by omega)]
  unfold sqrtDouble sqrtCeil
  rw [hprod, roundToDoubleNat_of_le (by omega)]
  exact ceilSqrtToDouble_of_lt h

/-- With the exact `sqrt`, the pool `(1000000, 1000000)` with fee 30 offers, against the buy
price 1000, at least one sell price from the sell price 1004 on. -/
theorem amountOffered_pool_positive_exact (p : Nat) (hp : 1004 ≤ p) (hp64 : p < 2 ^ 64) :
    ∃ v : Int, LiquidityPoolFrame.amountOfferedForSaleTimesSellPrice sqrtCeil
      ⟨⟨some ⟨7, 1000000, 1000000, 30⟩⟩, ⟨1, 2⟩⟩ p 1000 = .ok v ∧ (p : Int) ≤ v := by
  have hc := sqrtCeil_pred_sq_lt (a := 1000000) (b := p) (by omega) hp64
  have hclt := sqrtCeil_lt (a := 1000000) (b := p) (by omega) hp64
  have hm := pool_margin hp hc
  have hfirst : LiquidityPoolFrame.hackyBigSquareRootRoundDown sqrtCeil 1000000 997000
      = 998498 := by decide
  have hA : LiquidityPoolFrame.hackyBigSquareRootRoundUp sqrtCeil 1000000 1000 = 31623 := by
    decide
  have hB : LiquidityPoolFrame.hackyBigSquareRootRoundUp sqrtCeil 1000000 p
      = sqrtCeil 1000000 p :=
    LiquidityPoolFrame.hackyBigSquareRootRoundUp_sqrtCeil (by omega) hp64
  have hlt : ¬ (p * 997000 < 1000000 * 1000) := by omega
  have h := LiquidityPoolFrame.amountOffered_eq_of_le sqrtCeil
    ⟨⟨some ⟨7, 1000000, 1000000, 30⟩⟩, ⟨1, 2⟩⟩ p 1000 (p * 998498)
    (31623 * sqrtCeil 1000000 p) (by omega) (by decide) (by decide)
    (by
      show LiquidityPoolFrame.priceLT p 1000 1000000 997000 = false
      unfold LiquidityPoolFrame.priceLT
      rw [Nat.mod_eq_of_lt (by omega), Nat.mod_eq_of_lt (by omega)]
      exact decide_eq_false hlt)
    (by
      show (p * LiquidityPoolFrame.hackyBigSquareRootRoundDown sqrtCeil 1000000 997000)
        % 2 ^ 128 = p * 998498
      rw [hfirst]
      exact Nat.mod_eq_of_lt (by omega))
    (by
      show (LiquidityPoolFrame.hackyBigSquareRootRoundUp sqrtCeil 1000000 1000
        * LiquidityPoolFrame.hackyBigSquareRootRoundUp sqrtCeil 1000000 p) % 2 ^ 128
        = 31623 * sqrtCeil 1000000 p
      rw [hA, hB]
      exact Nat.mod_eq_of_lt (by omega))
    (by omega) (by omega)
  refine ⟨_, h, ?_⟩
  have hT : p ≤ p * 998498 - 31623 * sqrtCeil 1000000 p := by omega
  generalize p * 998498 - 31623 * sqrtCeil 1000000 p = T at hT
  have hdm := Nat.div_add_mod T p
  have hdiv : 1 ≤ T / p := (Nat.one_le_div_iff (by omega)).mpr hT
  have hsub : T - T % p = p * (T / p) := by omega
  rw [hsub]
  have : p * 1 ≤ p * (T / p) := Nat.mul_le_mul_left p hdiv
  exact_mod_cast (by omega : p ≤ p * (T / p))

/-- C1: for a pool with reserves in `[0, 2^63)` and prices `1 ≤ sellPrice < 2^64`,
`buyPrice < 2^64`, with `sqrt` the exact ceiling of the real square root,
`amountOfferedForSaleTimesSellPrice` returns a value that is at most
`max 0 (sellPrice * √(s * D) - √(s * sellPrice * b * buyPrice))`, where `s`, `b` are the sell
and buy reserves and `D = subtractFeeRateFixedPoint s`: it never over-estimates. -/
theorem C1_amountOffered_le_true_value (frame : LiquidityPoolFrame) (sellPrice buyPrice : Nat)
    (hs0 : 0 ≤ frame.getSellBuyAmounts.1) (hs1 : frame.getSellBuyAmounts.1 < 2 ^ 63)
    (hb0 : 0 ≤ frame.getSellBuyAmounts.2) (hb1 : frame.getSellBuyAmounts.2 < 2 ^ 63)
    (hsp : 1 ≤ sellPrice) (hsp64 : sellPrice < 2 ^ 64) (hbp64 : buyPrice < 2 ^ 64) :
    ∃ v : Int, frame.amountOfferedForSaleTimesSellPrice sqrtCeil sellPrice buyPrice = .ok v ∧
      (v : ℝ) ≤ max 0
        ((sellPrice : ℝ) * Real.sqrt (((frame.getSellBuyAmounts.1 : Int) : ℝ)
            * (frame.subtractFeeRateFixedPoint (toUInt64 frame.getSellBuyAmounts.1) : ℝ))
          - Real.sqrt (((frame.getSellBuyAmounts.1 : Int) : ℝ) * (sellPrice : ℝ)
            * ((frame.getSellBuyAmounts.2 : Int) : ℝ) * (buyPrice : ℝ))) := by
  have hsu : ((toUInt64 frame.getSellBuyAmounts.1 : Nat) : Int) = frame.getSellBuyAmounts.1 :=
    toUInt64_of_nonneg hs0 (by omega)
  have hbu : ((toUInt64 frame.getSellBuyAmounts.2 : Nat) : Int) = frame.getSellBuyAmounts.2 :=
    toUInt64_of_nonneg hb0 (by omega)
  have hsr : ((frame.getSellBuyAmounts.1 : Int) : ℝ) = (toUInt64 frame.getSellBuyAmounts.1 : ℝ) := by
    have h := congrArg (Int.cast : Int → ℝ) hsu
    simpa using h.symm
  have hbr : ((frame.getSellBuyAmounts.2 : Int) : ℝ) = (toUInt64 frame.getSellBuyAmounts.2 : ℝ) := by
    have h := congrArg (Int.cast : Int → ℝ) hbu
    simpa using h.symm
  rw [hsr, hbr]
  have hs64 := toUInt64_lt frame.getSellBuyAmounts.1
  have hb64 := toUInt64_lt frame.getSellBuyAmounts.2
  have hD := LiquidityPoolFrame.subtractFeeRateFixedPoint_le frame (toUInt64 frame.getSellBuyAmounts.1)
  rcases LiquidityPoolFrame.amountOffered_shape sqrtCeil frame sellPrice buyPrice hsp with h0 | ⟨total, _, hle, hv⟩
  · exact ⟨0, h0, by simp⟩
  · refine ⟨_, hv, ?_⟩
    have hD64 : frame.getMinPriceRatioFixedPoint.2 < 2 ^ 64 := by
      show frame.subtractFeeRateFixedPoint (toUInt64 frame.getSellBuyAmounts.1) < 2 ^ 64
      omega
    rw [LiquidityPoolFrame.hackyBigSquareRootRoundDown_sqrtCeil hs64 hD64,
      LiquidityPoolFrame.hackyBigSquareRootRoundUp_sqrtCeil hb64 hbp64,
      LiquidityPoolFrame.hackyBigSquareRootRoundUp_sqrtCeil hs64 hsp64] at hle
    have hr1 := isqrt_le_real_sqrt hs64 hD64
    have hA := real_sqrt_le_sqrtCeil hb64 hbp64
    have hB := real_sqrt_le_sqrtCeil hs64 hsp64
    have hAlt := sqrtCeil_lt hb64 hbp64
    have hBlt := sqrtCeil_lt hs64 hsp64
    have hisq : isqrt (toUInt64 frame.getSellBuyAmounts.1 * frame.getMinPriceRatioFixedPoint.2) < 2 ^ 64 := by
      have := LiquidityPoolFrame.hackyBigSquareRootRoundDown_lt sqrtCeil
        (toUInt64 frame.getSellBuyAmounts.1) frame.getMinPriceRatioFixedPoint.2
      rwa [LiquidityPoolFrame.hackyBigSquareRootRoundDown_sqrtCeil hs64 hD64] at this
    rw [Nat.mod_eq_of_lt (mul_lt_two_pow_128 hsp64 hisq),
      Nat.mod_eq_of_lt (mul_lt_two_pow_128 hAlt hBlt)] at hle
    have hD' : frame.getMinPriceRatioFixedPoint.2
        = frame.subtractFeeRateFixedPoint (toUInt64 frame.getSellBuyAmounts.1) := rfl
    rw [hD'] at hle hr1
    generalize frame.subtractFeeRateFixedPoint (toUInt64 frame.getSellBuyAmounts.1) = D at *
    generalize toUInt64 frame.getSellBuyAmounts.1 = s at *
    generalize toUInt64 frame.getSellBuyAmounts.2 = b at *
    have hsub : total - total % sellPrice ≤ total := Nat.sub_le _ _
    have hreal : Real.sqrt ((s : ℝ) * sellPrice * b * buyPrice)
        = Real.sqrt ((b : ℝ) * buyPrice) * Real.sqrt ((s : ℝ) * sellPrice) := by
      rw [← Real.sqrt_mul (by positivity)]
      congr 1; ring
    rw [hreal]
    by_cases htb : sqrtCeil b buyPrice * sqrtCeil s sellPrice ≤ sellPrice * isqrt (s * D)
    · apply le_max_of_le_right
      have h1 : ((total - total % sellPrice : Nat) : ℝ)
          ≤ ((sellPrice * isqrt (s * D) - sqrtCeil b buyPrice * sqrtCeil s sellPrice : Nat) : ℝ) := by
        exact_mod_cast (le_trans hsub hle)
      rw [Nat.cast_sub htb] at h1
      push_cast at h1 ⊢
      have h2 : Real.sqrt ((b : ℝ) * buyPrice) * Real.sqrt ((s : ℝ) * sellPrice)
          ≤ (sqrtCeil b buyPrice : ℝ) * (sqrtCeil s sellPrice : ℝ) :=
        mul_le_mul hA hB (Real.sqrt_nonneg _) (by positivity)
      have h3 : (sellPrice : ℝ) * (isqrt (s * D) : ℝ) ≤ (sellPrice : ℝ) * Real.sqrt ((s : ℝ) * D) :=
        mul_le_mul_of_nonneg_left hr1 (by positivity)
      linarith
    · apply le_max_of_le_left
      have : total - total % sellPrice = 0 := by omega
      rw [this]; simp

/-- C1 at the pool `(1000000, 1000000)` with fee 30 and prices `(2, 1)`. -/
theorem C1_amountOffered_le_true_value_witness :
    ∃ v : Int, LiquidityPoolFrame.amountOfferedForSaleTimesSellPrice sqrtCeil
        ⟨⟨some ⟨7, 1000000, 1000000, 30⟩⟩, ⟨1, 2⟩⟩ 2 1 = .ok v ∧
      (v : ℝ) ≤ max 0
        (((2 : Nat) : ℝ) * Real.sqrt ((((⟨⟨some ⟨7, 1000000, 1000000, 30⟩⟩, ⟨1, 2⟩⟩ :
              LiquidityPoolFrame).getSellBuyAmounts.1 : Int) : ℝ)
            * (LiquidityPoolFrame.subtractFeeRateFixedPoint ⟨⟨some ⟨7, 1000000, 1000000, 30⟩⟩, ⟨1, 2⟩⟩
                (toUInt64 (⟨⟨some ⟨7, 1000000, 1000000, 30⟩⟩, ⟨1, 2⟩⟩ :
                  LiquidityPoolFrame).getSellBuyAmounts.1) : ℝ))
          - Real.sqrt ((((⟨⟨some ⟨7, 1000000, 1000000, 30⟩⟩, ⟨1, 2⟩⟩ :
              LiquidityPoolFrame).getSellBuyAmounts.1 : Int) : ℝ) * ((2 : Nat) : ℝ)
            * (((⟨⟨some ⟨7, 1000000, 1000000, 30⟩⟩, ⟨1, 2⟩⟩ :
              LiquidityPoolFrame).getSellBuyAmounts.2 : Int) : ℝ) * ((1 : Nat) : ℝ))) :=
  C1_amountOffered_le_true_value ⟨⟨some ⟨7, 1000000, 1000000, 30⟩⟩, ⟨1, 2⟩⟩ 2 1
    (by decide) (by decide) (by decide) (by decide) (by decide) (by decide) (by decide)

/-- C2 at two pools. With reserves `(100, 100)` and fee 10000 basis points,
`doTransfer(0, -50, 1, 1)` returns, the constant-product assertion having compared
`100 * (100 + ⌊-50 * 0⌋)` with `100 * 100`, and leaves the reserves at `(100, 50)`: the product
falls from 10000 to 5000. With reserves `(0, 0)` and fee 30 basis points,
`doTransfer(2, 1, 0, 1)` returns, the sell price `0` making `2 * 0 ≤ 0` pass and the assertion
comparing `-2 * (0 + ⌊0.997⌋)` with `0`, and leaves the reserves at `(-2, 1)`: the product
falls from 0 to -2. -/
theorem C2_doTransfer_decreases_product :
    (∃ r, LiquidityPoolFrame.doTransfer sqrtCeil ⟨⟨some ⟨7, 100, 100, 10000⟩⟩, ⟨1, 2⟩⟩
        0 (-50) 1 1 = .ok r ∧
      r.2.mBaseFrame.getReserves = (100, 50) ∧
      r.2.mBaseFrame.getReserves.1 * r.2.mBaseFrame.getReserves.2 < (100 : Int) * 100) ∧
    (∃ r, LiquidityPoolFrame.doTransfer sqrtCeil ⟨⟨some ⟨7, 0, 0, 30⟩⟩, ⟨1, 2⟩⟩
        2 1 0 1 = .ok r ∧
      r.2.mBaseFrame.getReserves = (-2, 1) ∧
      r.2.mBaseFrame.getReserves.1 * r.2.mBaseFrame.getReserves.2 < (0 : Int) * 0) :=
  ⟨⟨_, rfl, by decide, by decide⟩, ⟨_, rfl, by decide, by decide⟩⟩

/-- C3: for every list of offers with positive price denominators, added in the order of the
list to an empty orderbook, and every candidate price `(pn, pd)`, after
`doPriceComputationPreprocessing` the field `cumulativeOfferedForSale` of
`getPriceCompStats(pn, pd)` is the sum of `sellAmount` over the offers with
`minPrice.n * pd ≤ pn * minPrice.d`, the offers priced exactly at `pn / pd` included; the
right-hand side does not depend on the order of the list. -/
theorem C3_cumulativeOfferedForSale_eq_sum (tradingPair : AssetPair) (offers : List IOCOffer)
    (pn pd : Nat) (hd : ∀ o ∈ offers, 0 < o.mMinPrice.d) :
    (((IOCOrderbook.empty tradingPair).addOffers offers).doPriceComputationPreprocessing
        |>.getPriceCompStats pn pd).cumulativeOfferedForSale
      = ((offers.filter
          (fun o => decide (o.mMinPrice.n * (pd : Int) ≤ (pn : Int) * o.mMinPrice.d))).map
            (fun o => o.mSellAmount)).sum := by
  have hadd := addOffers_mOffers (IOCOrderbook.empty tradingPair) offers
  have hperm : (sortOffers ((IOCOrderbook.empty tradingPair).addOffers offers).mOffers).Perm
      offers := by
    rw [hadd]
    refine (sortOffers_perm _).trans ?_
    simp [IOCOrderbook.empty, List.reverse_perm]
  have hpos : ∀ x ∈ sortOffers ((IOCOrderbook.empty tradingPair).addOffers offers).mOffers,
      0 < x.mMinPrice.d := fun x hx => hd x (hperm.mem_iff.mp hx)
  have hsorted := sortOffers_sorted ((IOCOrderbook.empty tradingPair).addOffers offers).mOffers
    (fun x hx => hd x (hperm.mem_iff.mp ((sortOffers_perm _).mem_iff.mpr hx)))
  have h := getPriceCompStats_of_sorted
    ((IOCOrderbook.empty tradingPair).addOffers offers).mTradingPair
    ((IOCOrderbook.empty tradingPair).addOffers offers).mOffers _ pn pd hpos hsorted
  unfold IOCOrderbook.doPriceComputationPreprocessing
  rw [h]
  exact ((hperm.filter _).map _).sum_eq

/-- C3 on the five offers of the test "offers at identical price point", queried at `(1, 1)`:
the four offers at prices `100/200`, `100/100`, `200/200`, `300/300` are counted. -/
theorem C3_cumulativeOfferedForSale_eq_sum_witness :
    (((IOCOrderbook.empty ⟨1, 2⟩).addOffers
          [⟨10000, ⟨100, 100⟩, 9, 1, 0⟩, ⟨10000, ⟨200, 200⟩, 9, 2, 0⟩,
            ⟨10000, ⟨300, 300⟩, 9, 3, 0⟩, ⟨10000, ⟨100, 200⟩, 9, 4, 0⟩,
            ⟨10000, ⟨200, 100⟩, 9, 5, 0⟩]).doPriceComputationPreprocessing
        |>.getPriceCompStats 1 1).cumulativeOfferedForSale = 40000 :=
  (C3_cumulativeOfferedForSale_eq_sum ⟨1, 2⟩
    [⟨10000, ⟨100, 100⟩, 9, 1, 0⟩, ⟨10000, ⟨200, 200⟩, 9, 2, 0⟩,
      ⟨10000, ⟨300, 300⟩, 9, 3, 0⟩, ⟨10000, ⟨100, 200⟩, 9, 4, 0⟩,
      ⟨10000, ⟨200, 100⟩, 9, 5, 0⟩] 1 1 (by decide)).trans (by decide)

/-- C4: for every implementation of `sqrt` and all 64-bit prices,
`amountOfferedForSaleTimesSellPrice` returns `0` when the sell reserve is `0`, when
`subtractFeeRateFixedPoint` of the sell reserve is `0`, and when
`sellPrice * subtractFeeRateFixedPoint sellReserve < buyReserve * buyPrice`, that is when the
candidate price is below the minimum price of `getMinPriceRatioFixedPoint` (the reserves as
the `uint64_t` values the source compares). -/
theorem C4_amountOffered_zero_below_min_price (sqrt : Nat → Nat → Nat)
    (frame : LiquidityPoolFrame) (sellPrice buyPrice : Nat)
    (hsp64 : sellPrice < 2 ^ 64) (hbp64 : buyPrice < 2 ^ 64)
    (h : frame.getSellBuyAmounts.1 = 0 ∨
      frame.subtractFeeRateFixedPoint (toUInt64 frame.getSellBuyAmounts.1) = 0 ∨
      sellPrice * frame.subtractFeeRateFixedPoint (toUInt64 frame.getSellBuyAmounts.1)
        < toUInt64 frame.getSellBuyAmounts.2 * buyPrice) :
    frame.getMinPriceRatioFixedPoint = (toUInt64 frame.getSellBuyAmounts.2,
        frame.subtractFeeRateFixedPoint (toUInt64 frame.getSellBuyAmounts.1)) ∧
      frame.amountOfferedForSaleTimesSellPrice sqrt sellPrice buyPrice = .ok 0 := by
  refine ⟨rfl, ?_⟩
  have hs64 := toUInt64_lt frame.getSellBuyAmounts.1
  have hb64 := toUInt64_lt frame.getSellBuyAmounts.2
  have hD := LiquidityPoolFrame.subtractFeeRateFixedPoint_le frame
    (toUInt64 frame.getSellBuyAmounts.1)
  unfold LiquidityPoolFrame.amountOfferedForSaleTimesSellPrice
  simp only
  split
  · rfl
  split
  · rfl
  rename_i hs hd
  rcases h with h | h | h
  · exact absurd h hs
  · exact absurd h hd
  · have hlt : LiquidityPoolFrame.priceLT sellPrice buyPrice
        frame.getMinPriceRatioFixedPoint.1 frame.getMinPriceRatioFixedPoint.2 = true := by
      unfold LiquidityPoolFrame.priceLT LiquidityPoolFrame.getMinPriceRatioFixedPoint
      simp only [decide_eq_true_eq]
      rw [Nat.mod_eq_of_lt (mul_lt_two_pow_128 hsp64 (by omega)),
        Nat.mod_eq_of_lt (mul_lt_two_pow_128 hb64 hbp64)]
      exact h
    rw [if_pos hlt]

/-- C4 at the pool `(1000000, 1000000)` with fee 30 and prices `(1001, 1000)`:
`1001 * 997000 < 1000000 * 1000`. -/
theorem C4_amountOffered_zero_below_min_price_witness :
    LiquidityPoolFrame.getMinPriceRatioFixedPoint ⟨⟨some ⟨7, 1000000, 1000000, 30⟩⟩, ⟨1, 2⟩⟩
        = (toUInt64 (LiquidityPoolFrame.getSellBuyAmounts
            ⟨⟨some ⟨7, 1000000, 1000000, 30⟩⟩, ⟨1, 2⟩⟩).2,
          LiquidityPoolFrame.subtractFeeRateFixedPoint ⟨⟨some ⟨7, 1000000, 1000000, 30⟩⟩, ⟨1, 2⟩⟩
            (toUInt64 (LiquidityPoolFrame.getSellBuyAmounts
              ⟨⟨some ⟨7, 1000000, 1000000, 30⟩⟩, ⟨1, 2⟩⟩).1)) ∧
      LiquidityPoolFrame.amountOfferedForSaleTimesSellPrice sqrtCeil
        ⟨⟨some ⟨7, 1000000, 1000000, 30⟩⟩, ⟨1, 2⟩⟩ 1001 1000 = .ok 0 :=
  C4_amountOffered_zero_below_min_price sqrtCeil ⟨⟨some ⟨7, 1000000, 1000000, 30⟩⟩, ⟨1, 2⟩⟩
    1001 1000 (by decide) (by decide) (Or.inr (Or.inr (by decide)))

/-- C5: for every implementation of `sqrt`, every pool frame and every prices with
`sellPrice ≥ 1`, `amountOfferedForSaleTimesSellPrice` returns a value that is an exact multiple
of `sellPrice`, whether or not the difference was clamped to `INT128_MAX`. -/
theorem C5_amountOffered_multiple_of_sellPrice (sqrt : Nat → Nat → Nat)
    (frame : LiquidityPoolFrame) (sellPrice buyPrice : Nat) (hsp : 1 ≤ sellPrice) :
    ∃ v : Int, frame.amountOfferedForSaleTimesSellPrice sqrt sellPrice buyPrice = .ok v ∧
      v % (sellPrice : Int) = 0 := by
  rcases LiquidityPoolFrame.amountOffered_shape sqrt frame sellPrice buyPrice hsp
    with h0 | ⟨total, _, _, hv⟩
  · exact ⟨0, h0, by simp⟩
  · refine ⟨_, hv, ?_⟩
    have h : (total - total % sellPrice) % sellPrice = 0 :=
      Nat.sub_mod_eq_zero_of_mod_eq (by rw [Nat.mod_mod])
    exact_mod_cast h

/-- C5 at the pool `(1000000, 1000000)` with fee 30 and prices `(1004, 1000)`. -/
theorem C5_amountOffered_multiple_of_sellPrice_witness :
    ∃ v : Int, LiquidityPoolFrame.amountOfferedForSaleTimesSellPrice sqrtCeil
        ⟨⟨some ⟨7, 1000000, 1000000, 30⟩⟩, ⟨1, 2⟩⟩ 1004 1000 = .ok v ∧
      v % ((1004 : Nat) : Int) = 0 :=
  C5_amountOffered_multiple_of_sellPrice sqrtCeil ⟨⟨some ⟨7, 1000000, 1000000, 30⟩⟩, ⟨1, 2⟩⟩
    1004 1000 (by decide)

/-- C6: for every implementation of `sqrt`, every pool frame, every `int64_t` sell amount and
all 64-bit prices: `amountOfferedForSaleTimesSellPrice` returns a value whenever
`sellPrice ≥ 1`, and whenever it returns a value `v`, `assertValidSellAmount` returns normally
if and only if `sellAmount ≥ 0` and `sellAmount * sellPrice ≤ v` (exact product); otherwise it
throws a `std::runtime_error`, and `doTransfer` throws too. -/
theorem C6_assertValidSellAmount_iff (sqrt : Nat → Nat → Nat) (frame : LiquidityPoolFrame)
    (sellAmount buyAmount : Int) (sellPrice buyPrice : Nat)
    (hsa0 : -2 ^ 63 ≤ sellAmount) (hsa1 : sellAmount < 2 ^ 63) (hsp64 : sellPrice < 2 ^ 64) :
    (1 ≤ sellPrice →
      ∃ v, frame.amountOfferedForSaleTimesSellPrice sqrt sellPrice buyPrice = .ok v) ∧
    ∀ v, frame.amountOfferedForSaleTimesSellPrice sqrt sellPrice buyPrice = .ok v →
      (frame.assertValidSellAmount sqrt sellAmount sellPrice buyPrice = .ok () ↔
        (0 ≤ sellAmount ∧ sellAmount * (sellPrice : Int) ≤ v)) ∧
      (¬ (0 ≤ sellAmount ∧ sellAmount * (sellPrice : Int) ≤ v) →
        (∃ e, frame.assertValidSellAmount sqrt sellAmount sellPrice buyPrice = .error e ∧
          e.isThrow = true) ∧
        (∃ e, frame.doTransfer sqrt sellAmount buyAmount sellPrice buyPrice = .error e ∧
          e.isThrow = true)) := by
  constructor
  · intro hsp
    rcases LiquidityPoolFrame.amountOffered_shape sqrt frame sellPrice buyPrice hsp
      with h0 | ⟨total, _, _, hv⟩
    · exact ⟨_, h0⟩
    · exact ⟨_, hv⟩
  · intro v hv
    have hA := assertValidSellAmount_of_offered sqrt frame sellAmount sellPrice buyPrice v
      hsa0 hsa1 hsp64 hv
    constructor
    · rw [hA]
      constructor
      · intro h
        split at h
        · cases h
        split at h
        · cases h
        omega
      · rintro ⟨h1, h2⟩
        rw [if_neg (by omega), if_neg (by omega)]
    · intro hnot
      have hthrow : ∃ e, frame.assertValidSellAmount sqrt sellAmount sellPrice buyPrice
          = .error e ∧ e.isThrow = true := by
        rw [hA]
        split
        · exact ⟨_, rfl, rfl⟩
        split
        · exact ⟨_, rfl, rfl⟩
        · exfalso; apply hnot; constructor <;> omega
      refine ⟨hthrow, ?_⟩
      obtain ⟨e, he, het⟩ := hthrow
      unfold LiquidityPoolFrame.doTransfer
      split
      · exact ⟨_, rfl, rfl⟩
      · unfold LiquidityPoolFrame.assertValidTrade
        rw [he]
        exact ⟨e, rfl, het⟩

/-- C6 at the pool `(1000000, 1000000)` with fee 30, prices `(2, 1)` and sell amount
`300000`, above the offered `581996 / 2`. -/
theorem C6_assertValidSellAmount_iff_witness :
    (1 ≤ 2 →
      ∃ v, LiquidityPoolFrame.amountOfferedForSaleTimesSellPrice sqrtCeil
        ⟨⟨some ⟨7, 1000000, 1000000, 30⟩⟩, ⟨1, 2⟩⟩ 2 1 = .ok v) ∧
    ∀ v, LiquidityPoolFrame.amountOfferedForSaleTimesSellPrice sqrtCeil
        ⟨⟨some ⟨7, 1000000, 1000000, 30⟩⟩, ⟨1, 2⟩⟩ 2 1 = .ok v →
      (LiquidityPoolFrame.assertValidSellAmount sqrtCeil
          ⟨⟨some ⟨7, 1000000, 1000000, 30⟩⟩, ⟨1, 2⟩⟩ 300000 2 1 = .ok () ↔
        (0 ≤ (300000 : Int) ∧ (300000 : Int) * ((2 : Nat) : Int) ≤ v)) ∧
      (¬ (0 ≤ (300000 : Int) ∧ (300000 : Int) * ((2 : Nat) : Int) ≤ v) →
        (∃ e, LiquidityPoolFrame.assertValidSellAmount sqrtCeil
            ⟨⟨some ⟨7, 1000000, 1000000, 30⟩⟩, ⟨1, 2⟩⟩ 300000 2 1 = .error e ∧
          e.isThrow = true) ∧
        (∃ e, LiquidityPoolFrame.doTransfer sqrtCeil
            ⟨⟨some ⟨7, 1000000, 1000000, 30⟩⟩, ⟨1, 2⟩⟩ 300000 400000 2 1 = .error e ∧
          e.isThrow = true)) :=
  C6_assertValidSellAmount_iff sqrtCeil ⟨⟨some ⟨7, 1000000, 1000000, 30⟩⟩, ⟨1, 2⟩⟩
    300000 400000 2 1 (by decide) (by decide) (by decide)

/-- C8, as the claim states it, fails: on the pool `(1000000, 1000000)` with fee 30,
`doTransfer(200000, 300000, 2, 1)` returns and leaves the buy reserve at
`1000000 + 300000`, not at the `1000000 + ⌊300000 * 0.997⌋ = 1299100` of the constant-product
assertion. -/
theorem C8_counterexample :
    ∃ r, LiquidityPoolFrame.doTransfer sqrtCeil ⟨⟨some ⟨7, 1000000, 1000000, 30⟩⟩, ⟨1, 2⟩⟩
        200000 300000 2 1 = .ok r ∧
      r.2.getSellBuyAmounts = (800000, 1300000) ∧
      r.2.getSellBuyAmounts ≠
        ((LiquidityPoolFrame.getSellBuyAmounts ⟨⟨some ⟨7, 1000000, 1000000, 30⟩⟩, ⟨1, 2⟩⟩).1
            - 200000,
          (LiquidityPoolFrame.getSellBuyAmounts ⟨⟨some ⟨7, 1000000, 1000000, 30⟩⟩, ⟨1, 2⟩⟩).2
            + LiquidityPoolFrame.feeAdjustedBuyAmount
                ⟨⟨some ⟨7, 1000000, 1000000, 30⟩⟩, ⟨1, 2⟩⟩ 300000) :=
  ⟨_, rfl, by decide, by decide⟩

/-- C8, amended: after every `doTransfer` of an `int64_t` sell amount that returns, for every
implementation of `sqrt`, the pair-oriented reserves are the old sell reserve less
`sellAmount` and the old buy reserve plus the whole `buyAmount`; they are the
`(newSell, newBuy)` of the constant-product assertion exactly when the fee deduction leaves
`buyAmount` unchanged. -/
theorem C8_reserves_after_doTransfer (sqrt : Nat → Nat → Nat) (frame : LiquidityPoolFrame)
    (sellAmount buyAmount : Int) (sellPrice buyPrice : Nat)
    (r : SpeedexLiquidityPoolClearingStatus × LiquidityPoolFrame)
    (hsa1 : sellAmount < 2 ^ 63)
    (h : frame.doTransfer sqrt sellAmount buyAmount sellPrice buyPrice = .ok r) :
    r.2.getSellBuyAmounts
        = (frame.getSellBuyAmounts.1 - sellAmount, frame.getSellBuyAmounts.2 + buyAmount) ∧
      (r.2.getSellBuyAmounts
          = (frame.getSellBuyAmounts.1 - sellAmount,
              frame.getSellBuyAmounts.2 + frame.feeAdjustedBuyAmount buyAmount) ↔
        frame.feeAdjustedBuyAmount buyAmount = buyAmount) := by
  have h1 := LiquidityPoolFrame.getSellBuyAmounts_after_doTransfer sqrt frame sellAmount
    buyAmount sellPrice buyPrice r hsa1 h
  refine ⟨h1, ?_⟩
  rw [h1]
  constructor
  · intro h2
    have := congrArg Prod.snd h2
    simp only at this
    omega
  · intro h2
    rw [h2]

/-- C8, amended, at the pool `(1000000, 1000000)` with fee 30 and the call
`doTransfer(200000, 300000, 2, 1)`. -/
theorem C8_reserves_after_doTransfer_witness :
    (⟨⟨some ⟨7, 800000, 1300000, 30⟩⟩, ⟨1, 2⟩⟩ : LiquidityPoolFrame).getSellBuyAmounts
      = ((LiquidityPoolFrame.getSellBuyAmounts ⟨⟨some ⟨7, 1000000, 1000000, 30⟩⟩, ⟨1, 2⟩⟩).1
          - 200000,
        (LiquidityPoolFrame.getSellBuyAmounts ⟨⟨some ⟨7, 1000000, 1000000, 30⟩⟩, ⟨1, 2⟩⟩).2
          + 300000) :=
  (C8_reserves_after_doTransfer sqrtCeil ⟨⟨some ⟨7, 1000000, 1000000, 30⟩⟩, ⟨1, 2⟩⟩
    200000 300000 2 1
    (⟨7, 1, 2, 200000, 300000⟩, ⟨⟨some ⟨7, 800000, 1300000, 30⟩⟩, ⟨1, 2⟩⟩)
    (by decide) (by rfl)).1

/-- C9 at two pools whose reserves are not negative: with reserves `(100, 100)` and fee 10000
basis points `doTransfer(0, -101, 1, 1)` returns and leaves the reserves at `(100, -1)`; with
the empty pool `(0, 0)` and fee 30 basis points `doTransfer(0, -1, 1, 1)` returns and leaves
them at `(0, -1)`. -/
theorem C9_doTransfer_negative_reserve :
    (∃ r, LiquidityPoolFrame.doTransfer sqrtCeil ⟨⟨some ⟨7, 100, 100, 10000⟩⟩, ⟨1, 2⟩⟩
        0 (-101) 1 1 = .ok r ∧ r.2.mBaseFrame.getReserves = (100, -1)) ∧
    (∃ r, LiquidityPoolFrame.doTransfer sqrtCeil ⟨⟨some ⟨7, 0, 0, 30⟩⟩, ⟨1, 2⟩⟩
        0 (-1) 1 1 = .ok r ∧ r.2.mBaseFrame.getReserves = (0, -1)) :=
  ⟨⟨_, rfl, by decide⟩, ⟨_, rfl, by decide⟩⟩

/-- C10: for every create-IOC-offer operation, `checkMalformed` returns false if and only if
`sellAmount ≤ 0` or `minPrice.n ≤ 0` or `minPrice.d ≤ 0`; when it returns false it has set the
result code `CREATE_SPEEDEX_IOC_OFFER_MALFORMED` and changed nothing else; when it returns
true it has changed nothing, so it has set no code; `doCheckValid` is `checkMalformed` for
every ledger version. -/
theorem C10_checkMalformed_iff (frame : CreateSpeedexIOCOfferOpFrame) (ledgerVersion : Nat) :
    (frame.checkMalformed.1 = false ↔
      (frame.mCreateSpeedexIOCOffer.sellAmount ≤ 0 ∨
        frame.mCreateSpeedexIOCOffer.minPrice.n ≤ 0 ∨
        frame.mCreateSpeedexIOCOffer.minPrice.d ≤ 0)) ∧
    (frame.checkMalformed.1 = false →
      frame.checkMalformed.2 = ⟨frame.mCreateSpeedexIOCOffer, frame.mOperationIndex,
        frame.sourceID, frame.seqNum, .CREATE_SPEEDEX_IOC_OFFER_MALFORMED⟩) ∧
    (frame.checkMalformed.1 = true → frame.checkMalformed.2 = frame) ∧
    frame.doCheckValid ledgerVersion = frame.checkMalformed := by
  unfold CreateSpeedexIOCOfferOpFrame.doCheckValid CreateSpeedexIOCOfferOpFrame.checkMalformed
    CreateSpeedexIOCOfferOpFrame.setCode
  by_cases h1 : frame.mCreateSpeedexIOCOffer.sellAmount ≤ 0
  · simp [h1]
  · by_cases h2 : frame.mCreateSpeedexIOCOffer.minPrice.n ≤ 0
      ∨ frame.mCreateSpeedexIOCOffer.minPrice.d ≤ 0
    · simp only [if_neg h1, if_pos h2]
      simp [h2]
    · simp only [if_neg h1, if_neg h2]
      simp only [not_or] at h2
      simp [h1, h2.1, h2.2]

/-! ## Claims C11 to C20 -/

/-- C11: for every create-IOC-offer operation and ledger state, the frame after `doApply` is:
with the code `NO_SPEEDEX_CONFIG` when no speedex config entry exists; else with
`INVALID_TRADING_PAIR` when the pair `(sellAsset, buyAsset)` is not valid in the config; else
with `MALFORMED` when the selling or the buying asset is not commutative; else with
`MALFORMED` when the amount or a component of the price is not positive; else unchanged, and
only then does `doApply` return true. No other code is set and nothing else of the frame
changes. -/
theorem C11_doApply_failure_code_order (xdr : XdrDeclarations)
    (frame : CreateSpeedexIOCOfferOpFrame) (ltx : AbstractLedgerTxn) :
    (frame.doApply xdr ltx).2.1 =
      (if ltx.speedexConfig = none then
        frame.setCode .CREATE_SPEEDEX_IOC_OFFER_NO_SPEEDEX_CONFIG
      else if (loadSpeedexConfigSnapshot ltx).isValidAssetPair
          ⟨frame.mCreateSpeedexIOCOffer.sellAsset, frame.mCreateSpeedexIOCOffer.buyAsset⟩
          = false then
        frame.setCode .CREATE_SPEEDEX_IOC_OFFER_INVALID_TRADING_PAIR
      else if isCommutativeTxEnabledAsset xdr ltx frame.mCreateSpeedexIOCOffer.sellAsset = false
          ∨ isCommutativeTxEnabledAsset xdr ltx frame.mCreateSpeedexIOCOffer.buyAsset = false then
        frame.setCode .CREATE_SPEEDEX_IOC_OFFER_MALFORMED
      else if frame.mCreateSpeedexIOCOffer.sellAmount ≤ 0
          ∨ frame.mCreateSpeedexIOCOffer.minPrice.n ≤ 0
          ∨ frame.mCreateSpeedexIOCOffer.minPrice.d ≤ 0 then
        frame.setCode .CREATE_SPEEDEX_IOC_OFFER_MALFORMED
      else frame) ∧
    ((frame.doApply xdr ltx).1 = true ↔ (frame.doApply xdr ltx).2.1 = frame ∧
      ¬ (ltx.speedexConfig = none) ∧
      ¬ ((loadSpeedexConfigSnapshot ltx).isValidAssetPair
          ⟨frame.mCreateSpeedexIOCOffer.sellAsset, frame.mCreateSpeedexIOCOffer.buyAsset⟩
          = false) ∧
      ¬ (isCommutativeTxEnabledAsset xdr ltx frame.mCreateSpeedexIOCOffer.sellAsset = false
          ∨ isCommutativeTxEnabledAsset xdr ltx frame.mCreateSpeedexIOCOffer.buyAsset = false) ∧
      ¬ (frame.mCreateSpeedexIOCOffer.sellAmount ≤ 0
          ∨ frame.mCreateSpeedexIOCOffer.minPrice.n ≤ 0
          ∨ frame.mCreateSpeedexIOCOffer.minPrice.d ≤ 0)) := by
  rw [CreateSpeedexIOCOfferOpFrame.doApply_eq]
  by_cases h1 : ltx.speedexConfig = none
  · simp [h1]
  · by_cases h2 : (loadSpeedexConfigSnapshot ltx).isValidAssetPair
        ⟨frame.mCreateSpeedexIOCOffer.sellAsset, frame.mCreateSpeedexIOCOffer.buyAsset⟩ = false
    · simp [h1, h2]
    · by_cases h3 : isCommutativeTxEnabledAsset xdr ltx frame.mCreateSpeedexIOCOffer.sellAsset
          = false
          ∨ isCommutativeTxEnabledAsset xdr ltx frame.mCreateSpeedexIOCOffer.buyAsset = false
      · simp only [if_neg h1, if_neg h2, if_pos h3]
        simp [h3]
      · by_cases h4 : frame.mCreateSpeedexIOCOffer.sellAmount ≤ 0
            ∨ frame.mCreateSpeedexIOCOffer.minPrice.n ≤ 0
            ∨ frame.mCreateSpeedexIOCOffer.minPrice.d ≤ 0
        · simp only [if_neg h1, if_neg h2, if_neg h3, if_pos h4]
          simp [h4]
        · simp only [if_neg h1, if_neg h2, if_neg h3, if_neg h4]
          simp [h1, h2, h3, h4]

/-- C12: `doApply` returns true if and only if a speedex config exists, the pair is valid in
it, both assets are commutative, and `sellAmount`, `minPrice.n`, `minPrice.d` are positive;
when it returns true, the ledger transaction after the call is the one before with the offer
`(sellAmount, minPrice, source account, sequence number, operation index)` added once to the
orderbook of the pair selling `sellAsset` for `buyAsset`: this offer is put in front of the
offers of that orderbook, the other orderbooks, the accounts and the config are unchanged,
and the offer has a positive sell amount and a positive price numerator and denominator. -/
theorem C12_doApply_true_iff (xdr : XdrDeclarations)
    (frame : CreateSpeedexIOCOfferOpFrame) (ltx : AbstractLedgerTxn) :
    ((frame.doApply xdr ltx).1 = true ↔
      (ltx.speedexConfig ≠ none ∧
        (loadSpeedexConfigSnapshot ltx).isValidAssetPair
          ⟨frame.mCreateSpeedexIOCOffer.sellAsset, frame.mCreateSpeedexIOCOffer.buyAsset⟩
          = true ∧
        isCommutativeTxEnabledAsset xdr ltx frame.mCreateSpeedexIOCOffer.sellAsset = true ∧
        isCommutativeTxEnabledAsset xdr ltx frame.mCreateSpeedexIOCOffer.buyAsset = true ∧
        0 < frame.mCreateSpeedexIOCOffer.sellAmount ∧
        0 < frame.mCreateSpeedexIOCOffer.minPrice.n ∧
        0 < frame.mCreateSpeedexIOCOffer.minPrice.d)) ∧
    ((frame.doApply xdr ltx).1 = true →
      ((frame.doApply xdr ltx).2.2.speedexIOCOffers
          ⟨frame.mCreateSpeedexIOCOffer.sellAsset, frame.mCreateSpeedexIOCOffer.buyAsset⟩).mOffers
        = ⟨frame.mCreateSpeedexIOCOffer.sellAmount, frame.mCreateSpeedexIOCOffer.minPrice,
            frame.sourceID, frame.seqNum, frame.mOperationIndex⟩
          :: (ltx.speedexIOCOffers
            ⟨frame.mCreateSpeedexIOCOffer.sellAsset,
              frame.mCreateSpeedexIOCOffer.buyAsset⟩).mOffers ∧
      (∀ pair : AssetPair,
        pair ≠ ⟨frame.mCreateSpeedexIOCOffer.sellAsset, frame.mCreateSpeedexIOCOffer.buyAsset⟩ →
        (frame.doApply xdr ltx).2.2.speedexIOCOffers pair = ltx.speedexIOCOffers pair) ∧
      (frame.doApply xdr ltx).2.2.accounts = ltx.accounts ∧
      (frame.doApply xdr ltx).2.2.speedexConfig = ltx.speedexConfig ∧
      0 < frame.mCreateSpeedexIOCOffer.sellAmount ∧
      0 < frame.mCreateSpeedexIOCOffer.minPrice.n ∧
      0 < frame.mCreateSpeedexIOCOffer.minPrice.d) := by
  rw [CreateSpeedexIOCOfferOpFrame.doApply_eq]
  by_cases h1 : ltx.speedexConfig = none
  · simp [h1]
  · by_cases h2 : (loadSpeedexConfigSnapshot ltx).isValidAssetPair
        ⟨frame.mCreateSpeedexIOCOffer.sellAsset, frame.mCreateSpeedexIOCOffer.buyAsset⟩ = false
    · simp [h1, h2]
    · by_cases h3 : isCommutativeTxEnabledAsset xdr ltx frame.mCreateSpeedexIOCOffer.sellAsset
          = false
          ∨ isCommutativeTxEnabledAsset xdr ltx frame.mCreateSpeedexIOCOffer.buyAsset = false
      · simp only [if_neg h1, if_neg h2, if_pos h3]
        rcases h3 with h3 | h3 <;> simp [h3]
      · by_cases h4 : frame.mCreateSpeedexIOCOffer.sellAmount ≤ 0
            ∨ frame.mCreateSpeedexIOCOffer.minPrice.n ≤ 0
            ∨ frame.mCreateSpeedexIOCOffer.minPrice.d ≤ 0
        · simp only [if_neg h1, if_neg h2, if_neg h3, if_pos h4]
          simp only [Bool.false_eq_true, false_iff, false_imp_iff, and_true]
          intro h
          omega
        · simp only [if_neg h1, if_neg h2, if_neg h3, if_neg h4]
          simp only [not_or, Bool.not_eq_false, not_le] at h2 h3 h4
          refine ⟨⟨fun _ => ⟨h1, h2, h3.1, h3.2, h4.1, h4.2.1, h4.2.2⟩, fun _ => by trivial⟩, ?_⟩
          intro _
          refine ⟨?_, ?_, rfl, rfl, h4.1, h4.2.1, h4.2.2⟩
          · simp [AbstractLedgerTxn.addSpeedexIOCOffer, IOCOrderbook.addOffer]
          · intro pair hp
            simp [AbstractLedgerTxn.addSpeedexIOCOffer, hp]

/-- C13: whenever `doApply` returns false, the ledger transaction after the call is the one
before the call: no offer is added to any orderbook, and the result code is one of
`MALFORMED`, `NO_SPEEDEX_CONFIG`, `INVALID_TRADING_PAIR`. -/
theorem C13_doApply_false_ledger_unchanged (xdr : XdrDeclarations)
    (frame : CreateSpeedexIOCOfferOpFrame) (ltx : AbstractLedgerTxn)
    (h : (frame.doApply xdr ltx).1 = false) :
    (frame.doApply xdr ltx).2.2 = ltx ∧
    (∀ pair, (frame.doApply xdr ltx).2.2.speedexIOCOffers pair = ltx.speedexIOCOffers pair) ∧
    ((frame.doApply xdr ltx).2.1.innerResultCode = .CREATE_SPEEDEX_IOC_OFFER_MALFORMED ∨
      (frame.doApply xdr ltx).2.1.innerResultCode
        = .CREATE_SPEEDEX_IOC_OFFER_NO_SPEEDEX_CONFIG ∨
      (frame.doApply xdr ltx).2.1.innerResultCode
        = .CREATE_SPEEDEX_IOC_OFFER_INVALID_TRADING_PAIR) := by
  rw [CreateSpeedexIOCOfferOpFrame.doApply_eq] at h ⊢
  split at h
  · rename_i h1
    rw [if_pos h1]
    exact ⟨rfl, fun _ => rfl, Or.inr (Or.inl rfl)⟩
  rename_i h1
  rw [if_neg h1]
  split at h
  · rename_i h2
    rw [if_pos h2]
    exact ⟨rfl, fun _ => rfl, Or.inr (Or.inr rfl)⟩
  rename_i h2
  rw [if_neg h2]
  split at h
  · rename_i h3
    rw [if_pos h3]
    exact ⟨rfl, fun _ => rfl, Or.inl rfl⟩
  rename_i h3
  rw [if_neg h3]
  split at h
  · rename_i h4
    rw [if_pos h4]
    exact ⟨rfl, fun _ => rfl, Or.inl rfl⟩
  · cases h

/-- C13 on a ledger without speedex config: the operation fails with the code
`NO_SPEEDEX_CONFIG`, the ledger transaction being unchanged. -/
theorem C13_doApply_false_ledger_unchanged_witness :
    (CreateSpeedexIOCOfferOpFrame.doApply
        ⟨fun a => if a = 0 then .ASSET_TYPE_NATIVE else .ASSET_TYPE_CREDIT_ALPHANUM4,
          fun a => a, 16, 1⟩
        ⟨⟨1, 2, 10000, ⟨100, 100⟩⟩, 0, 9, 5, .CREATE_SPEEDEX_IOC_OFFER_SUCCESS⟩
        ⟨fun _ => none, none, fun pair => IOCOrderbook.empty pair⟩).2.1.innerResultCode
      = .CREATE_SPEEDEX_IOC_OFFER_NO_SPEEDEX_CONFIG :=
  ((C13_doApply_false_ledger_unchanged
    ⟨fun a => if a = 0 then .ASSET_TYPE_NATIVE else .ASSET_TYPE_CREDIT_ALPHANUM4,
      fun a => a, 16, 1⟩
    ⟨⟨1, 2, 10000, ⟨100, 100⟩⟩, 0, 9, 5, .CREATE_SPEEDEX_IOC_OFFER_SUCCESS⟩
    ⟨fun _ => none, none, fun pair => IOCOrderbook.empty pair⟩ (by decide)).2.2.resolve_left
      (by decide)).resolve_right (by decide)

/-- C20, as the claim states it, fails: for the pool `(1000000, 1000000)` with fee 30 basis
points, `amountOfferedForSaleTimesSellPrice(1001, 1000)` is not strictly positive. -/
theorem C20_counterexample :
    ¬ ∃ v : Int, LiquidityPoolFrame.amountOfferedForSaleTimesSellPrice sqrtCeil
        ⟨⟨some ⟨7, 1000000, 1000000, 30⟩⟩, ⟨1, 2⟩⟩ 1001 1000 = .ok v ∧ 0 < v := by
  rintro ⟨v, hv, hpos⟩
  have h0 : LiquidityPoolFrame.amountOfferedForSaleTimesSellPrice sqrtCeil
      ⟨⟨some ⟨7, 1000000, 1000000, 30⟩⟩, ⟨1, 2⟩⟩ 1001 1000 = .ok 0 := rfl
  rw [h0] at hv
  cases hv
  exact absurd hpos (by decide)

set_option maxRecDepth 100000 in
/-- C20, amended: for the pool `(1000000, 1000000)` with fee 30 basis points, whose minimum
price is `1000000 / 997000`, `amountOfferedForSaleTimesSellPrice` is `0` at `(1001, 1000)`, as
at `(1002, 1000)` and `(1003, 1000)`, which are below the minimum price
(`1003 * 997000 < 1000000 * 1000`), with every `sqrt`; and it is strictly positive, at least
one sell price, at `(p, 1000)` for every sell price `1004 ≤ p < 2^64`, with every `sqrt` that
returns the exact ceiling of the square root at the three products with which it is called,
`1000000 * 997000`, `1000000 * 1000` and `1000000 * p`, as `sqrtCeil` does, and as the square
root in double precision of the source does for `p ≤ 4503599627`, where the products are
below `2^52`. At `(1004, 1000)` it is `484932`, with the exact square root and with the
square root in double precision. -/
theorem C20_amountOffered_positive_from_min_price (sqrt : Nat → Nat → Nat) (p : Nat)
    (hp : 1004 ≤ p) (hp64 : p < 2 ^ 64)
    (hfirst : sqrt 1000000 997000 = sqrtCeil 1000000 997000)
    (hsecondA : sqrt 1000000 1000 = sqrtCeil 1000000 1000)
    (hsecondB : sqrt 1000000 p = sqrtCeil 1000000 p) :
    LiquidityPoolFrame.getMinPriceRatioFixedPoint ⟨⟨some ⟨7, 1000000, 1000000, 30⟩⟩, ⟨1, 2⟩⟩
        = (1000000, 997000) ∧
      (∀ anySqrt : Nat → Nat → Nat,
        LiquidityPoolFrame.amountOfferedForSaleTimesSellPrice anySqrt
          ⟨⟨some ⟨7, 1000000, 1000000, 30⟩⟩, ⟨1, 2⟩⟩ 1001 1000 = .ok 0 ∧
        LiquidityPoolFrame.amountOfferedForSaleTimesSellPrice anySqrt
          ⟨⟨some ⟨7, 1000000, 1000000, 30⟩⟩, ⟨1, 2⟩⟩ 1002 1000 = .ok 0 ∧
        LiquidityPoolFrame.amountOfferedForSaleTimesSellPrice anySqrt
          ⟨⟨some ⟨7, 1000000, 1000000, 30⟩⟩, ⟨1, 2⟩⟩ 1003 1000 = .ok 0) ∧
      (∃ v : Int, LiquidityPoolFrame.amountOfferedForSaleTimesSellPrice sqrt
          ⟨⟨some ⟨7, 1000000, 1000000, 30⟩⟩, ⟨1, 2⟩⟩ p 1000 = .ok v ∧ 0 < v ∧ (p : Int) ≤ v) ∧
      (∃ v : Int, LiquidityPoolFrame.amountOfferedForSaleTimesSellPrice sqrtCeil
          ⟨⟨some ⟨7, 1000000, 1000000, 30⟩⟩, ⟨1, 2⟩⟩ p 1000 = .ok v ∧ 0 < v ∧ (p : Int) ≤ v) ∧
      (p ≤ 4503599627 →
        ∃ v : Int, LiquidityPoolFrame.amountOfferedForSaleTimesSellPrice sqrtDouble
          ⟨⟨some ⟨7, 1000000, 1000000, 30⟩⟩, ⟨1, 2⟩⟩ p 1000 = .ok v ∧ 0 < v ∧ (p : Int) ≤ v) ∧
      LiquidityPoolFrame.amountOfferedForSaleTimesSellPrice sqrtCeil
        ⟨⟨some ⟨7, 1000000, 1000000, 30⟩⟩, ⟨1, 2⟩⟩ 1004 1000 = .ok 484932 ∧
      LiquidityPoolFrame.amountOfferedForSaleTimesSellPrice sqrtDouble
        ⟨⟨some ⟨7, 1000000, 1000000, 30⟩⟩, ⟨1, 2⟩⟩ 1004 1000 = .ok 484932 ∧
      (0 : Int) < 484932 := by
  obtain ⟨v, hv, hpv⟩ := amountOffered_pool_positive_exact p hp hp64
  have hpos : 0 < v := by omega
  refine ⟨by decide, fun _ => ⟨rfl, rfl, rfl⟩, ⟨v, ?_, hpos, hpv⟩, ⟨v, hv, hpos, hpv⟩,
    fun hsmall => ⟨v, ?_, hpos, hpv⟩, by rfl, by rfl, by decide⟩
  · rw [LiquidityPoolFrame.amountOffered_congr sqrt sqrtCeil
      ⟨⟨some ⟨7, 1000000, 1000000, 30⟩⟩, ⟨1, 2⟩⟩ p 1000 hfirst hsecondA hsecondB]
    exact hv
  · rw [LiquidityPoolFrame.amountOffered_congr sqrtDouble sqrtCeil
      ⟨⟨some ⟨7, 1000000, 1000000, 30⟩⟩, ⟨1, 2⟩⟩ p 1000
      (sqrtDouble_eq_sqrtCeil (by decide))
      (sqrtDouble_eq_sqrtCeil (by decide))
      (sqrtDouble_eq_sqrtCeil (a := 1000000) (b := p) (by omega))]
    exact hv

set_option maxRecDepth 100000 in
/-- C20, amended, with the square root in double precision at the sell price 1005: the
three square roots are exact there and the pool offers a strictly positive amount. -/
theorem C20_amountOffered_positive_from_min_price_witness :
    ∃ v : Int, LiquidityPoolFrame.amountOfferedForSaleTimesSellPrice sqrtDouble
      ⟨⟨some ⟨7, 1000000, 1000000, 30⟩⟩, ⟨1, 2⟩⟩ 1005 1000 = .ok v ∧ 0 < v ∧ (1005 : Int) ≤ v :=
  (C20_amountOffered_positive_from_min_price sqrtDouble 1005 (by decide) (by decide)
    (by rfl) (by rfl) (by rfl)).2.2.1

/-- C14: for every list of offers whose fields are in the ranges of their types (sell amount
in `[0, 2^63)`, price numerator in `[0, 2^31)`, positive price denominator), added in the
order of the list to an empty orderbook, and every candidate price `(pn, pd)`, after
`doPriceComputationPreprocessing` the field `cumulativeOfferedForSaleTimesPrice` of
`getPriceCompStats(pn, pd)` is the 128-bit sum, over the offers with
`minPrice.n * pd ≤ pn * minPrice.d`, of `(sellAmount * minPrice.n * 2 ^ 32) / minPrice.d`:
the sum itself when it is below `2 ^ 128`, which is so whenever the sell amounts of the offers
total less than `2 ^ 63`, and the largest 128-bit value otherwise. -/
theorem C14_cumulativeOfferedForSaleTimesPrice_eq_sum (tradingPair : AssetPair)
    (offers : List IOCOffer) (pn pd : Nat)
    (h : ∀ o ∈ offers, 0 < o.mMinPrice.d ∧ 0 ≤ o.mMinPrice.n ∧ o.mMinPrice.n < 2 ^ 31 ∧
      0 ≤ o.mSellAmount ∧ o.mSellAmount < 2 ^ 63) :
    (((IOCOrderbook.empty tradingPair).addOffers offers).doPriceComputationPreprocessing
        |>.getPriceCompStats pn pd).cumulativeOfferedForSaleTimesPrice
      = min (((offers.filter
          (fun o => decide (o.mMinPrice.n * (pd : Int) ≤ (pn : Int) * o.mMinPrice.d))).map
            (fun o => (o.mSellAmount * o.mMinPrice.n * 2 ^ 32 / o.mMinPrice.d).toNat)).sum)
          (2 ^ 128 - 1) ∧
    ((offers.map (fun o => o.mSellAmount)).sum < 2 ^ 63 →
      (((IOCOrderbook.empty tradingPair).addOffers offers).doPriceComputationPreprocessing
          |>.getPriceCompStats pn pd).cumulativeOfferedForSaleTimesPrice
        = ((offers.filter
            (fun o => decide (o.mMinPrice.n * (pd : Int) ≤ (pn : Int) * o.mMinPrice.d))).map
              (fun o => (o.mSellAmount * o.mMinPrice.n * 2 ^ 32 / o.mMinPrice.d).toNat)).sum)
    := by
  have hw := (getPriceCompStats_of_offers tradingPair offers pn pd (fun o ho => (h o ho).1)).2
  have hmap : ((offers.filter (fun o => priceAtMost o.mMinPrice pn pd)).map
        IOCOffer.weightedContribution)
      = ((offers.filter
          (fun o => decide (o.mMinPrice.n * (pd : Int) ≤ (pn : Int) * o.mMinPrice.d))).map
            (fun o => (o.mSellAmount * o.mMinPrice.n * 2 ^ 32 / o.mMinPrice.d).toNat)) := by
    apply List.map_congr_left
    intro o ho
    have ho' := h o (List.mem_of_mem_filter ho)
    exact (IOCOffer.weightedContribution_eq o ho'.1 ho'.2.1 ho'.2.2.1 ho'.2.2.2.1
      ho'.2.2.2.2).1
  rw [hmap] at hw
  refine ⟨hw, ?_⟩
  intro htotal
  rw [hw]
  have hle := sum_weighted_le
    (fun o => decide (o.mMinPrice.n * (pd : Int) ≤ (pn : Int) * o.mMinPrice.d)) offers h
  have hbound : (2 : Int) ^ 63 * (offers.map (fun o => o.mSellAmount)).sum
      < 2 ^ 63 * 2 ^ 63 := mul_lt_mul_of_pos_left htotal (by positivity)
  have e : (2 : Int) ^ 63 * 2 ^ 63 = 2 ^ 126 := by norm_num
  apply Nat.min_eq_left
  omega

/-- C14 on the five offers of the test "offers at identical price point", queried at
`(1, 1)`: the offer at `100/200` contributes `10000 * 2 ^ 31` and the three offers at
`100/100`, `200/200`, `300/300` contribute `10000 * 2 ^ 32` each. -/
theorem C14_cumulativeOfferedForSaleTimesPrice_eq_sum_witness :
    (((IOCOrderbook.empty ⟨1, 2⟩).addOffers
          [⟨10000, ⟨100, 100⟩, 9, 1, 0⟩, ⟨10000, ⟨200, 200⟩, 9, 2, 0⟩,
            ⟨10000, ⟨300, 300⟩, 9, 3, 0⟩, ⟨10000, ⟨100, 200⟩, 9, 4, 0⟩,
            ⟨10000, ⟨200, 100⟩, 9, 5, 0⟩]).doPriceComputationPreprocessing
        |>.getPriceCompStats 1 1).cumulativeOfferedForSaleTimesPrice
      = 10000 * 2 ^ 31 + 30000 * 2 ^ 32 :=
  ((C14_cumulativeOfferedForSaleTimesPrice_eq_sum ⟨1, 2⟩
    [⟨10000, ⟨100, 100⟩, 9, 1, 0⟩, ⟨10000, ⟨200, 200⟩, 9, 2, 0⟩,
      ⟨10000, ⟨300, 300⟩, 9, 3, 0⟩, ⟨10000, ⟨100, 200⟩, 9, 4, 0⟩,
      ⟨10000, ⟨200, 100⟩, 9, 5, 0⟩] 1 1 (by decide)).2 (by decide)).trans (by decide)

/-- C15: for every list of offers with positive price denominators and every permutation of
it, adding the offers to an empty orderbook in either order and then calling
`doPriceComputationPreprocessing` gives the same two answers (`cumulativeOfferedForSale` and
`cumulativeOfferedForSaleTimesPrice`, "the prefix's stored cumulative values") of
`getPriceCompStats(pn, pd)` at every price; when moreover no two offers are tied in the order
of offers (same price, owner, sequence number and operation index), the whole value returned,
with the price of the last offer counted, is the same. -/
theorem C15_getPriceCompStats_insertion_order (tradingPair : AssetPair)
    (offers permuted : List IOCOffer) (pn pd : Nat)
    (hperm : offers.Perm permuted) (hd : ∀ o ∈ offers, 0 < o.mMinPrice.d) :
    (((IOCOrderbook.empty tradingPair).addOffers offers).doPriceComputationPreprocessing
        |>.getPriceCompStats pn pd).cumulativeOfferedForSale
      = (((IOCOrderbook.empty tradingPair).addOffers permuted).doPriceComputationPreprocessing
        |>.getPriceCompStats pn pd).cumulativeOfferedForSale ∧
    (((IOCOrderbook.empty tradingPair).addOffers offers).doPriceComputationPreprocessing
        |>.getPriceCompStats pn pd).cumulativeOfferedForSaleTimesPrice
      = (((IOCOrderbook.empty tradingPair).addOffers permuted).doPriceComputationPreprocessing
        |>.getPriceCompStats pn pd).cumulativeOfferedForSaleTimesPrice ∧
    ((∀ a ∈ offers, ∀ b ∈ offers, a.le b = true → b.le a = true → a = b) →
      (((IOCOrderbook.empty tradingPair).addOffers offers).doPriceComputationPreprocessing
          |>.getPriceCompStats pn pd)
        = (((IOCOrderbook.empty tradingPair).addOffers
            permuted).doPriceComputationPreprocessing
          |>.getPriceCompStats pn pd)) := by
  have hd' : ∀ o ∈ permuted, 0 < o.mMinPrice.d := fun o ho => hd o (hperm.mem_iff.mpr ho)
  obtain ⟨h1, h2⟩ := getPriceCompStats_of_offers tradingPair offers pn pd hd
  obtain ⟨h3, h4⟩ := getPriceCompStats_of_offers tradingPair permuted pn pd hd'
  rw [h1, h2, h3, h4]
  refine ⟨((hperm.filter _).map _).sum_eq, by rw [((hperm.filter _).map _).sum_eq], ?_⟩
  intro hties
  have hsort : sortOffers ((IOCOrderbook.empty tradingPair).addOffers offers).mOffers
      = sortOffers ((IOCOrderbook.empty tradingPair).addOffers permuted).mOffers := by
    rw [addOffers_mOffers, addOffers_mOffers]
    apply sortOffers_eq_of_perm
    · exact ((List.reverse_perm offers).trans
        (hperm.trans (List.reverse_perm permuted).symm)).append_right _
    · intro o ho
      have : o ∈ offers := by simpa [IOCOrderbook.empty] using ho
      exact hd o this
    · intro a ha b hb
      have ha' : a ∈ offers := by simpa [IOCOrderbook.empty] using ha
      have hb' : b ∈ offers := by simpa [IOCOrderbook.empty] using hb
      exact hties a ha' b hb'
  unfold IOCOrderbook.doPriceComputationPreprocessing IOCOrderbook.getPriceCompStats
  simp only [hsort]

/-- C15 on the five offers of the test "offers at identical price point", added in the order
of the test and in the reverse order, queried at `(1, 1)`. -/
theorem C15_getPriceCompStats_insertion_order_witness :
    (((IOCOrderbook.empty ⟨1, 2⟩).addOffers
          [⟨10000, ⟨100, 100⟩, 9, 1, 0⟩, ⟨10000, ⟨200, 200⟩, 9, 2, 0⟩,
            ⟨10000, ⟨300, 300⟩, 9, 3, 0⟩, ⟨10000, ⟨100, 200⟩, 9, 4, 0⟩,
            ⟨10000, ⟨200, 100⟩, 9, 5, 0⟩]).doPriceComputationPreprocessing
        |>.getPriceCompStats 1 1).cumulativeOfferedForSale
      = (((IOCOrderbook.empty ⟨1, 2⟩).addOffers
          [⟨10000, ⟨200, 100⟩, 9, 5, 0⟩, ⟨10000, ⟨100, 200⟩, 9, 4, 0⟩,
            ⟨10000, ⟨300, 300⟩, 9, 3, 0⟩, ⟨10000, ⟨200, 200⟩, 9, 2, 0⟩,
            ⟨10000, ⟨100, 100⟩, 9, 1, 0⟩]).doPriceComputationPreprocessing
        |>.getPriceCompStats 1 1).cumulativeOfferedForSale ∧
    (((IOCOrderbook.empty ⟨1, 2⟩).addOffers
          [⟨10000, ⟨100, 100⟩, 9, 1, 0⟩, ⟨10000, ⟨200, 200⟩, 9, 2, 0⟩,
            ⟨10000, ⟨300, 300⟩, 9, 3, 0⟩, ⟨10000, ⟨100, 200⟩, 9, 4, 0⟩,
            ⟨10000, ⟨200, 100⟩, 9, 5, 0⟩]).doPriceComputationPreprocessing
        |>.getPriceCompStats 1 1).cumulativeOfferedForSaleTimesPrice
      = (((IOCOrderbook.empty ⟨1, 2⟩).addOffers
          [⟨10000, ⟨200, 100⟩, 9, 5, 0⟩, ⟨10000, ⟨100, 200⟩, 9, 4, 0⟩,
            ⟨10000, ⟨300, 300⟩, 9, 3, 0⟩, ⟨10000, ⟨200, 200⟩, 9, 2, 0⟩,
            ⟨10000, ⟨100, 100⟩, 9, 1, 0⟩]).doPriceComputationPreprocessing
        |>.getPriceCompStats 1 1).cumulativeOfferedForSaleTimesPrice ∧
    (((IOCOrderbook.empty ⟨1, 2⟩).addOffers
          [⟨10000, ⟨100, 100⟩, 9, 1, 0⟩, ⟨10000, ⟨200, 200⟩, 9, 2, 0⟩,
            ⟨10000, ⟨300, 300⟩, 9, 3, 0⟩, ⟨10000, ⟨100, 200⟩, 9, 4, 0⟩,
            ⟨10000, ⟨200, 100⟩, 9, 5, 0⟩]).doPriceComputationPreprocessing
        |>.getPriceCompStats 1 1)
      = (((IOCOrderbook.empty ⟨1, 2⟩).addOffers
          [⟨10000, ⟨200, 100⟩, 9, 5, 0⟩, ⟨10000, ⟨100, 200⟩, 9, 4, 0⟩,
            ⟨10000, ⟨300, 300⟩, 9, 3, 0⟩, ⟨10000, ⟨200, 200⟩, 9, 2, 0⟩,
            ⟨10000, ⟨100, 100⟩, 9, 1, 0⟩]).doPriceComputationPreprocessing
        |>.getPriceCompStats 1 1) :=
  C15_getPriceCompStats_insertion_order ⟨1, 2⟩
    [⟨10000, ⟨100, 100⟩, 9, 1, 0⟩, ⟨10000, ⟨200, 200⟩, 9, 2, 0⟩,
      ⟨10000, ⟨300, 300⟩, 9, 3, 0⟩, ⟨10000, ⟨100, 200⟩, 9, 4, 0⟩,
      ⟨10000, ⟨200, 100⟩, 9, 5, 0⟩]
    [⟨10000, ⟨200, 100⟩, 9, 5, 0⟩, ⟨10000, ⟨100, 200⟩, 9, 4, 0⟩,
      ⟨10000, ⟨300, 300⟩, 9, 3, 0⟩, ⟨10000, ⟨200, 200⟩, 9, 2, 0⟩,
      ⟨10000, ⟨100, 100⟩, 9, 1, 0⟩] 1 1 (List.reverse_perm _).symm (by decide)
    |> fun h => ⟨h.1, h.2.1, h.2.2 (by decide)⟩

set_option maxRecDepth 4000 in
/-- C16: for every list of offers with positive price denominators and non-negative sell
amounts, added to an empty orderbook that is then preprocessed, and all prices, the query
`cumulativeOfferedForSaleTimesPrice(sellPrice, buyPrice, 0)` is the 128-bit product of
`sellPrice` by the sum of `sellAmount` over the offers with
`minPrice.n * buyPrice ≤ sellPrice * minPrice.d`: the product itself when it is below
`2 ^ 128`, which is so whenever the two factors are 64-bit values, and the largest 128-bit
value otherwise; it never wraps. -/
theorem C16_cumulativeOfferedForSaleTimesPrice_no_smoothing (tradingPair : AssetPair)
    (offers : List IOCOffer) (sellPrice buyPrice : Nat)
    (h : ∀ o ∈ offers, 0 < o.mMinPrice.d ∧ 0 ≤ o.mSellAmount) :
    (((((IOCOrderbook.empty tradingPair).addOffers offers).doPriceComputationPreprocessing
        |>.cumulativeOfferedForSaleTimesPrice sellPrice buyPrice 0 : Nat) : Int)
      = min ((sellPrice : Int) * ((offers.filter (fun o =>
            decide (o.mMinPrice.n * (buyPrice : Int) ≤ (sellPrice : Int) * o.mMinPrice.d))).map
              (fun o => o.mSellAmount)).sum) (2 ^ 128 - 1)) ∧
    (sellPrice < 2 ^ 64 →
      ((offers.filter (fun o =>
          decide (o.mMinPrice.n * (buyPrice : Int) ≤ (sellPrice : Int) * o.mMinPrice.d))).map
            (fun o => o.mSellAmount)).sum < 2 ^ 64 →
      ((((IOCOrderbook.empty tradingPair).addOffers offers).doPriceComputationPreprocessing
          |>.cumulativeOfferedForSaleTimesPrice sellPrice buyPrice 0 : Nat) : Int)
        = (sellPrice : Int) * ((offers.filter (fun o =>
            decide (o.mMinPrice.n * (buyPrice : Int) ≤ (sellPrice : Int) * o.mMinPrice.d))).map
              (fun o => o.mSellAmount)).sum ∧
      (sellPrice : Int) * ((offers.filter (fun o =>
            decide (o.mMinPrice.n * (buyPrice : Int) ≤ (sellPrice : Int) * o.mMinPrice.d))).map
              (fun o => o.mSellAmount)).sum < 2 ^ 128) := by
  have hc := (getPriceCompStats_of_offers tradingPair offers sellPrice buyPrice
    (fun o ho => (h o ho).1)).1
  have hnn := sum_sellAmount_nonneg
    (offers.filter (fun o =>
      decide (o.mMinPrice.n * (buyPrice : Int) ≤ (sellPrice : Int) * o.mMinPrice.d)))
    (fun o ho => (h o (List.mem_of_mem_filter ho)).2)
  have hc' : (((IOCOrderbook.empty tradingPair).addOffers offers).doPriceComputationPreprocessing
        |>.getPriceCompStats sellPrice buyPrice).cumulativeOfferedForSale
      = ((offers.filter (fun o =>
          decide (o.mMinPrice.n * (buyPrice : Int) ≤ (sellPrice : Int) * o.mMinPrice.d))).map
            (fun o => o.mSellAmount)).sum := hc
  rw [cumulativeOfferedForSaleTimesPrice_zero, hc']
  generalize ((offers.filter (fun o =>
      decide (o.mMinPrice.n * (buyPrice : Int) ≤ (sellPrice : Int) * o.mMinPrice.d))).map
        (fun o => o.mSellAmount)).sum = total at hnn ⊢
  have hcast : ((sellPrice * total.toNat : Nat) : Int) = (sellPrice : Int) * total := by
    rw [Nat.cast_mul, Int.toNat_of_nonneg hnn]
  have hmin : ((min (sellPrice * total.toNat) (2 ^ 128 - 1) : Nat) : Int)
      = min ((sellPrice : Int) * total) (2 ^ 128 - 1) := by
    rw [← hcast]
    omega
  refine ⟨hmin, ?_⟩
  intro hsp htot
  rw [hmin]
  have hsp' : (sellPrice : Int) < 2 ^ 64 := by exact_mod_cast hsp
  have hprod : (sellPrice : Int) * total ≤ (2 ^ 64 - 1) * (2 ^ 64 - 1) :=
    mul_le_mul (by omega) (by omega) hnn (by omega)
  have e : ((2 : Int) ^ 64 - 1) * (2 ^ 64 - 1) = 2 ^ 128 - 2 ^ 65 + 1 := by norm_num
  constructor
  · apply min_eq_left
    omega
  · omega

/-- C16 on the test "attempt overflow demand query": one offer of `INT64_MAX` at the price
`INT32_MAX / 1`, queried at `(UINT64_MAX, 1)` with the third argument `0`, gives the product
`INT64_MAX * UINT64_MAX`. -/
theorem C16_cumulativeOfferedForSaleTimesPrice_no_smoothing_witness :
    ((((IOCOrderbook.empty ⟨1, 2⟩).addOffers
          [⟨9223372036854775807, ⟨2147483647, 1⟩, 9, 1, 0⟩]).doPriceComputationPreprocessing
        |>.cumulativeOfferedForSaleTimesPrice 18446744073709551615 1 0 : Nat) : Int)
      = 9223372036854775807 * 18446744073709551615 :=
  ((C16_cumulativeOfferedForSaleTimesPrice_no_smoothing ⟨1, 2⟩
    [⟨9223372036854775807, ⟨2147483647, 1⟩, 9, 1, 0⟩] 18446744073709551615 1
    (by decide)).2 (by decide) (by decide)).1.trans (by decide)

set_option maxRecDepth 8000 in
/-- C17, as the claim states it, fails on the orderbook of the test "demand query" (one offer
of 10000 at `300/100`): the query at `(300, 100)` with third argument `0` is `300 * 10000`,
not `min 0 _ = 0`, and the query at `(400, 100)` with third argument `1` is `200 * 10000`,
not `min 1 _ = 1`. -/
theorem C17_counterexample :
    (((IOCOrderbook.empty ⟨1, 2⟩).addOffers
          [⟨10000, ⟨300, 100⟩, 9, 1, 0⟩]).doPriceComputationPreprocessing
        |>.cumulativeOfferedForSaleTimesPrice 300 100 0) = 300 * 10000 ∧
    min 0 (((IOCOrderbook.empty ⟨1, 2⟩).addOffers
          [⟨10000, ⟨300, 100⟩, 9, 1, 0⟩]).doPriceComputationPreprocessing
        |>.getPriceCompStats 300 100).cumulativeOfferedForSaleTimesPrice = 0 ∧
    (((IOCOrderbook.empty ⟨1, 2⟩).addOffers
          [⟨10000, ⟨300, 100⟩, 9, 1, 0⟩]).doPriceComputationPreprocessing
        |>.cumulativeOfferedForSaleTimesPrice 400 100 1) = 200 * 10000 ∧
    min 1 (((IOCOrderbook.empty ⟨1, 2⟩).addOffers
          [⟨10000, ⟨300, 100⟩, 9, 1, 0⟩]).doPriceComputationPreprocessing
        |>.getPriceCompStats 400 100).cumulativeOfferedForSaleTimesPrice = 1 ∧
    ¬ ∀ (book : IOCOrderbook) (pn pd cap : Nat),
      book.cumulativeOfferedForSaleTimesPrice pn pd cap
        = min cap (book.getPriceCompStats pn pd).cumulativeOfferedForSaleTimesPrice := by
  refine ⟨by decide, by decide, by decide, by decide, ?_⟩
  intro hall
  have h := hall (((IOCOrderbook.empty ⟨1, 2⟩).addOffers
    [⟨10000, ⟨300, 100⟩, 9, 1, 0⟩]).doPriceComputationPreprocessing) 300 100 0
  revert h
  decide

set_option maxRecDepth 8000 in
/-- C17, amended: for every orderbook and every price `(pn, pd)`, the three-argument query
with third argument `0` returns `pn` times the cumulative sell amount of
`getPriceCompStats(pn, pd)`, saturated to 128 bits; the third argument is a smoothing
exponent and not a cap: on the orderbook of the test "demand query" the query at
`(400, 100)` returns `400 * 10000`, `200 * 10000`, `400 * 10000` for the third arguments
`0`, `1`, `2`, and the queries at `(300, 100)` and `(299, 100)` with third argument `2`
return `0`. -/
theorem C17_third_argument_smoothing :
    (∀ (book : IOCOrderbook) (pn pd : Nat),
      book.cumulativeOfferedForSaleTimesPrice pn pd 0
        = min (pn * (book.getPriceCompStats pn pd).cumulativeOfferedForSale.toNat)
            (2 ^ 128 - 1)) ∧
    (((IOCOrderbook.empty ⟨1, 2⟩).addOffers
          [⟨10000, ⟨300, 100⟩, 9, 1, 0⟩]).doPriceComputationPreprocessing
        |>.cumulativeOfferedForSaleTimesPrice 400 100 0) = 400 * 10000 ∧
    (((IOCOrderbook.empty ⟨1, 2⟩).addOffers
          [⟨10000, ⟨300, 100⟩, 9, 1, 0⟩]).doPriceComputationPreprocessing
        |>.cumulativeOfferedForSaleTimesPrice 400 100 1) = 200 * 10000 ∧
    (((IOCOrderbook.empty ⟨1, 2⟩).addOffers
          [⟨10000, ⟨300, 100⟩, 9, 1, 0⟩]).doPriceComputationPreprocessing
        |>.cumulativeOfferedForSaleTimesPrice 400 100 2) = 400 * 10000 ∧
    (((IOCOrderbook.empty ⟨1, 2⟩).addOffers
          [⟨10000, ⟨300, 100⟩, 9, 1, 0⟩]).doPriceComputationPreprocessing
        |>.cumulativeOfferedForSaleTimesPrice 300 100 2) = 0 ∧
    (((IOCOrderbook.empty ⟨1, 2⟩).addOffers
          [⟨10000, ⟨300, 100⟩, 9, 1, 0⟩]).doPriceComputationPreprocessing
        |>.cumulativeOfferedForSaleTimesPrice 299 100 2) = 0 :=
  ⟨cumulativeOfferedForSaleTimesPrice_zero, by decide, by decide, by decide, by decide,
    by decide⟩

/-- C18: for every list of offers whose prices are positive (numerator and denominator),
added to an empty orderbook that is then preprocessed, the query `getPriceCompStats(0, pd)`
with `pd > 0` returns `0` for `cumulativeOfferedForSale` and for
`cumulativeOfferedForSaleTimesPrice`; and on the empty orderbook every query returns `0` for
both. -/
theorem C18_getPriceCompStats_price_zero (tradingPair : AssetPair) (offers : List IOCOffer)
    (pd : Nat) (hpd : 0 < pd)
    (h : ∀ o ∈ offers, 0 < o.mMinPrice.n ∧ 0 < o.mMinPrice.d) :
    ((((IOCOrderbook.empty tradingPair).addOffers offers).doPriceComputationPreprocessing
        |>.getPriceCompStats 0 pd).cumulativeOfferedForSale = 0 ∧
      (((IOCOrderbook.empty tradingPair).addOffers offers).doPriceComputationPreprocessing
        |>.getPriceCompStats 0 pd).cumulativeOfferedForSaleTimesPrice = 0) ∧
    (∀ pn pd0 : Nat,
      ((IOCOrderbook.empty tradingPair).doPriceComputationPreprocessing
        |>.getPriceCompStats pn pd0).cumulativeOfferedForSale = 0 ∧
      ((IOCOrderbook.empty tradingPair).doPriceComputationPreprocessing
        |>.getPriceCompStats pn pd0).cumulativeOfferedForSaleTimesPrice = 0) := by
  obtain ⟨h1, h2⟩ := getPriceCompStats_of_offers tradingPair offers 0 pd
    (fun o ho => (h o ho).2)
  have hnil : offers.filter (fun o => priceAtMost o.mMinPrice 0 pd) = [] := by
    rw [List.filter_eq_nil_iff]
    intro o ho
    unfold priceAtMost
    simp only [decide_eq_true_eq, Nat.cast_zero, zero_mul, not_le]
    exact mul_pos (h o ho).1 (by exact_mod_cast hpd)
  rw [hnil] at h1 h2
  refine ⟨⟨by simpa using h1, by simpa using h2⟩, ?_⟩
  intro pn pd0
  exact ⟨rfl, rfl⟩

/-- C18 on the orderbook of the test "one offer" (10000 at `100/100`) queried at `(0, 1)`. -/
theorem C18_getPriceCompStats_price_zero_witness :
    (((IOCOrderbook.empty ⟨1, 2⟩).addOffers
          [⟨10000, ⟨100, 100⟩, 9, 1, 0⟩]).doPriceComputationPreprocessing
        |>.getPriceCompStats 0 1).cumulativeOfferedForSale = 0 ∧
      (((IOCOrderbook.empty ⟨1, 2⟩).addOffers
          [⟨10000, ⟨100, 100⟩, 9, 1, 0⟩]).doPriceComputationPreprocessing
        |>.getPriceCompStats 0 1).cumulativeOfferedForSaleTimesPrice = 0 :=
  (C18_getPriceCompStats_price_zero ⟨1, 2⟩ [⟨10000, ⟨100, 100⟩, 9, 1, 0⟩] 1 (by decide)
    (by decide)).1

/-! ## Claims C21 to C30 -/

/-- C21: on a frame whose pool entry is absent, whatever the trading pair, the amounts, the
prices and the implementation of `sqrt`: `doTransfer` throws "can't modify nonexistent lp"
(the fault is raised before `assertValidTrade` and before any call of `transfer`, and there
is no entry that a `transfer` could change), `getSellBuyAmounts` returns `(0, 0)`, and
`amountOfferedForSaleTimesSellPrice` returns `0`, the price `0` included. -/
theorem C21_absent_pool (sqrt : Nat → Nat → Nat) (tradingPair : AssetPair)
    (sellAmount buyAmount amountA amountB : Int) (sellPrice buyPrice : Nat) :
    LiquidityPoolFrame.doTransfer sqrt ⟨⟨none⟩, tradingPair⟩ sellAmount buyAmount
        sellPrice buyPrice = .error .nonexistentLp ∧
    Fault.what .nonexistentLp = some "can't modify nonexistent lp" ∧
    (⟨none⟩ : LiquidityPoolFrameBase).transfer amountA amountB = ⟨none⟩ ∧
    LiquidityPoolFrame.getSellBuyAmounts ⟨⟨none⟩, tradingPair⟩ = (0, 0) ∧
    LiquidityPoolFrame.amountOfferedForSaleTimesSellPrice sqrt ⟨⟨none⟩, tradingPair⟩
        sellPrice buyPrice = .ok 0 :=
  ⟨rfl, rfl, rfl, rfl, rfl⟩

/-- C22: when `doTransfer(sellAmount, buyAmount, sellPrice, buyPrice)` returns, the clearing
status returned has `pool` the pool ID of the base frame (the same before and after the
transfer), `soldAsset` and `boughtAsset` the selling and the buying asset of the trading
pair, `soldAmount = sellAmount` and `boughtAmount = buyAmount`. -/
theorem C22_doTransfer_status (sqrt : Nat → Nat → Nat) (frame : LiquidityPoolFrame)
    (sellAmount buyAmount : Int) (sellPrice buyPrice : Nat)
    (status : SpeedexLiquidityPoolClearingStatus) (after : LiquidityPoolFrame)
    (h : frame.doTransfer sqrt sellAmount buyAmount sellPrice buyPrice = .ok (status, after)) :
    status = ⟨frame.mBaseFrame.poolID, frame.mTradingPair.selling, frame.mTradingPair.buying,
      sellAmount, buyAmount⟩ ∧
    status.pool = after.mBaseFrame.poolID := by
  obtain ⟨_, _, _, hbase, hstatus⟩ :=
    LiquidityPoolFrame.doTransfer_ok sqrt frame sellAmount buyAmount sellPrice buyPrice _ h
  have hid : after.mBaseFrame.poolID = frame.mBaseFrame.poolID := by
    simp only at hbase
    rw [hbase]
    split <;> exact LiquidityPoolFrameBase.transfer_poolID _ _ _
  simp only at hstatus
  rw [hstatus, hid]
  exact ⟨rfl, rfl⟩

/-- C22 at the pool `(1000000, 1000000)` with identifier 7 and fee 30, seen from the pair
`(1, 2)`, and the call `doTransfer(200000, 300000, 2, 1)`, which returns. -/
theorem C22_doTransfer_status_witness :
    (⟨7, 1, 2, 200000, 300000⟩ : SpeedexLiquidityPoolClearingStatus)
      = ⟨LiquidityPoolFrameBase.poolID ⟨some ⟨7, 1000000, 1000000, 30⟩⟩, 1, 2, 200000, 300000⟩ :=
  (C22_doTransfer_status sqrtCeil ⟨⟨some ⟨7, 1000000, 1000000, 30⟩⟩, ⟨1, 2⟩⟩
    200000 300000 2 1 ⟨7, 1, 2, 200000, 300000⟩ ⟨⟨some ⟨7, 800000, 1300000, 30⟩⟩, ⟨1, 2⟩⟩
    (by rfl)).1

/-- C23: `doAddCommutativityRequirementsUnconditional` adds to the registrations of the
collector exactly the triple (source account, `sellAsset`, `sellAmount`), so nothing for the
buy asset. `doAddCommutativityRequirements` returns true exactly when `checkValidAssetPair`,
`checkTrustLine` for the buy asset and then `checkTrustLine` for the sell asset return true,
and false otherwise; when `checkTrustLine` leaves the registrations as they are, the
registrations after a call that returns true are those before with that one triple added,
and after a call that returns false they are those before. -/
theorem C23_doAddCommutativityRequirements (xdr : XdrDeclarations)
    (checkTrustLine : TransactionCommutativityRequirements → AbstractLedgerTxn → AccountID →
      Asset → Bool × TransactionCommutativityRequirements)
    (frame : CreateSpeedexIOCOfferOpFrame) (ltx : AbstractLedgerTxn)
    (reqs : TransactionCommutativityRequirements)
    (hcheck : ∀ r l a x, (checkTrustLine r l a x).2.mRequiredAssets = r.mRequiredAssets) :
    (frame.doAddCommutativityRequirementsUnconditional reqs).mRequiredAssets
      = (frame.sourceID, frame.mCreateSpeedexIOCOffer.sellAsset,
          frame.mCreateSpeedexIOCOffer.sellAmount) :: reqs.mRequiredAssets ∧
    ((frame.doAddCommutativityRequirements xdr checkTrustLine ltx reqs).1 = true ↔
      (frame.checkValidAssetPair xdr ltx).1 = true ∧
      (checkTrustLine reqs ltx frame.sourceID frame.mCreateSpeedexIOCOffer.buyAsset).1 = true ∧
      (checkTrustLine
        (checkTrustLine reqs ltx frame.sourceID frame.mCreateSpeedexIOCOffer.buyAsset).2
        ltx frame.sourceID frame.mCreateSpeedexIOCOffer.sellAsset).1 = true) ∧
    ((frame.doAddCommutativityRequirements xdr checkTrustLine ltx reqs).1 = true →
      (frame.doAddCommutativityRequirements xdr checkTrustLine ltx reqs).2.2.mRequiredAssets
        = (frame.doAddCommutativityRequirementsUnconditional reqs).mRequiredAssets) ∧
    ((frame.doAddCommutativityRequirements xdr checkTrustLine ltx reqs).1 = false →
      (frame.doAddCommutativityRequirements xdr checkTrustLine ltx reqs).2.2.mRequiredAssets
        = reqs.mRequiredAssets) := by
  have hframe : (frame.checkValidAssetPair xdr ltx).1 = true →
      (frame.checkValidAssetPair xdr ltx).2 = frame := by
    unfold CreateSpeedexIOCOfferOpFrame.checkValidAssetPair
    split_ifs <;> simp
  refine ⟨rfl, ?_, ?_, ?_⟩
  · unfold CreateSpeedexIOCOfferOpFrame.doAddCommutativityRequirements
    by_cases h1 : (frame.checkValidAssetPair xdr ltx).1 = true
    · rw [if_neg (by simp [h1])]
      simp only [hframe h1]
      split_ifs <;> simp_all
    · rw [if_pos (by simpa using h1)]
      simp [h1]
  · unfold CreateSpeedexIOCOfferOpFrame.doAddCommutativityRequirements
    by_cases h1 : (frame.checkValidAssetPair xdr ltx).1 = true
    · rw [if_neg (by simp [h1])]
      simp only [hframe h1]
      split_ifs
      · intro h; cases h
      · intro h; cases h
      · intro _
        simp only [CreateSpeedexIOCOfferOpFrame.doAddCommutativityRequirementsUnconditional,
          TransactionCommutativityRequirements.addAssetRequirement, hcheck]
    · rw [if_pos (by simpa using h1)]
      intro h; cases h
  · unfold CreateSpeedexIOCOfferOpFrame.doAddCommutativityRequirements
    by_cases h1 : (frame.checkValidAssetPair xdr ltx).1 = true
    · rw [if_neg (by simp [h1])]
      simp only [hframe h1]
      split_ifs
      · intro _; simp only [hcheck]
      · intro _; simp only [hcheck]
      · intro h; cases h
    · rw [if_pos (by simpa using h1)]
      intro _; rfl

/-- C23 on an operation selling 10000 of asset 1 for asset 2 from account 9, on a ledger whose
config lists the pair, with all assets native and a `checkTrustLine` that always passes: the
call returns true and the registrations, empty before, are the one triple `(9, 1, 10000)`. -/
theorem C23_doAddCommutativityRequirements_witness :
    (CreateSpeedexIOCOfferOpFrame.doAddCommutativityRequirements
        ⟨fun _ => .ASSET_TYPE_NATIVE, fun a => a, 16, 1⟩ (fun r _ _ _ => (true, r))
        ⟨⟨1, 2, 10000, ⟨100, 100⟩⟩, 0, 9, 5, .CREATE_SPEEDEX_IOC_OFFER_SUCCESS⟩
        ⟨fun _ => none, some [⟨1, 2⟩], fun pair => IOCOrderbook.empty pair⟩
        ⟨[]⟩).2.2.mRequiredAssets = [(9, 1, 10000)] :=
  (C23_doAddCommutativityRequirements
    ⟨fun _ => .ASSET_TYPE_NATIVE, fun a => a, 16, 1⟩ (fun r _ _ _ => (true, r))
    ⟨⟨1, 2, 10000, ⟨100, 100⟩⟩, 0, 9, 5, .CREATE_SPEEDEX_IOC_OFFER_SUCCESS⟩
    ⟨fun _ => none, some [⟨1, 2⟩], fun pair => IOCOrderbook.empty pair⟩
    ⟨[]⟩ (fun _ _ _ _ => rfl)).2.2.1 (by decide)

/-- C24, amended: `isCommutativeTxEnabledAsset(ltx, asset)` returns true exactly when the
asset is the native asset, or its issuer account exists in the ledger and has the flag
`AUTH_ISSUANCE_LIMIT` set. -/
theorem C24_isCommutativeTxEnabledAsset_iff (xdr : XdrDeclarations) (ltx : AbstractLedgerTxn)
    (asset : Asset) :
    isCommutativeTxEnabledAsset xdr ltx asset = true ↔
      xdr.assetType asset = .ASSET_TYPE_NATIVE ∨
      ∃ acct, loadAccount ltx (xdr.getIssuer asset) = some acct ∧
        acct.flags &&& xdr.AUTH_ISSUANCE_LIMIT ≠ 0 := by
  unfold isCommutativeTxEnabledAsset
  by_cases hn : xdr.assetType asset = .ASSET_TYPE_NATIVE
  · simp [hn]
  · rw [if_neg hn]
    cases hacct : loadAccount ltx (xdr.getIssuer asset) with
    | none => simp [hn]
    | some acct => simp [hn, isIssuanceLimitedAccount]

/-- C24 as stated fails on the native asset: on a ledger without any account, so where no
issuer account exists, `isCommutativeTxEnabledAsset` returns true for it. -/
theorem C24_counterexample :
    isCommutativeTxEnabledAsset
        ⟨fun a => if a = 0 then .ASSET_TYPE_NATIVE else .ASSET_TYPE_CREDIT_ALPHANUM4,
          fun a => a, 16, 1⟩
        ⟨fun _ => none, none, fun pair => IOCOrderbook.empty pair⟩ 0 = true ∧
    ∀ issuer : AccountID,
      loadAccount ⟨fun _ => none, none, fun pair => IOCOrderbook.empty pair⟩ issuer = none :=
  ⟨rfl, fun _ => rfl⟩

/-- C25: for a trust-line asset of type pool share `isCommutativeTxEnabledAsset` returns
false, whatever the ledger; a trust-line asset of any other type has a corresponding asset
(`trustLineAssetToAsset`), with the same type, and the answer is the one for that asset. -/
theorem C25_isCommutativeTxEnabledAsset_trustLineAsset (xdr : XdrDeclarations)
    (ltx : AbstractLedgerTxn) (tlAsset : TrustLineAsset) :
    (tlAsset.type xdr = .ASSET_TYPE_POOL_SHARE →
      tlAsset.isCommutativeTxEnabledAsset xdr ltx = false) ∧
    (tlAsset.type xdr ≠ .ASSET_TYPE_POOL_SHARE →
      ∃ asset, tlAsset = .asset asset ∧ trustLineAssetToAsset xdr tlAsset = some asset ∧
        xdr.assetType asset = tlAsset.type xdr ∧
        tlAsset.isCommutativeTxEnabledAsset xdr ltx
          = isCommutativeTxEnabledAsset xdr ltx asset) := by
  cases tlAsset with
  | poolShare id =>
    exact ⟨fun _ => rfl, fun h => absurd rfl h⟩
  | asset a =>
    constructor
    · intro h
      simp only [TrustLineAsset.type] at h
      simp [TrustLineAsset.isCommutativeTxEnabledAsset, trustLineAssetToAsset,
        TrustLineAsset.type, h]
    · intro h
      simp only [TrustLineAsset.type] at h
      refine ⟨a, rfl, ?_, rfl, ?_⟩
      · unfold trustLineAssetToAsset
        simp only [TrustLineAsset.type]
        cases ht : xdr.assetType a <;> simp_all
      · unfold TrustLineAsset.isCommutativeTxEnabledAsset trustLineAssetToAsset
        simp only [TrustLineAsset.type]
        cases ht : xdr.assetType a <;> simp_all

/-- C25 on a pool share and on a credit asset whose issuer has the flag set. -/
theorem C25_isCommutativeTxEnabledAsset_trustLineAsset_witness :
    TrustLineAsset.isCommutativeTxEnabledAsset
        ⟨fun a => if a = 0 then .ASSET_TYPE_NATIVE else .ASSET_TYPE_CREDIT_ALPHANUM4,
          fun a => a, 16, 1⟩
        ⟨fun _ => some ⟨0, 0, 16, none⟩, none, fun pair => IOCOrderbook.empty pair⟩
        (.poolShare 7) = false ∧
    ∃ asset, TrustLineAsset.asset 5 = .asset asset ∧
      TrustLineAsset.isCommutativeTxEnabledAsset
        ⟨fun a => if a = 0 then .ASSET_TYPE_NATIVE else .ASSET_TYPE_CREDIT_ALPHANUM4,
          fun a => a, 16, 1⟩
        ⟨fun _ => some ⟨0, 0, 16, none⟩, none, fun pair => IOCOrderbook.empty pair⟩
        (.asset 5)
      = isCommutativeTxEnabledAsset
        ⟨fun a => if a = 0 then .ASSET_TYPE_NATIVE else .ASSET_TYPE_CREDIT_ALPHANUM4,
          fun a => a, 16, 1⟩
        ⟨fun _ => some ⟨0, 0, 16, none⟩, none, fun pair => IOCOrderbook.empty pair⟩ asset :=
  ⟨(C25_isCommutativeTxEnabledAsset_trustLineAsset _ _ (.poolShare 7)).1 (by decide),
    ((C25_isCommutativeTxEnabledAsset_trustLineAsset
        ⟨fun a => if a = 0 then .ASSET_TYPE_NATIVE else .ASSET_TYPE_CREDIT_ALPHANUM4,
          fun a => a, 16, 1⟩
        ⟨fun _ => some ⟨0, 0, 16, none⟩, none, fun pair => IOCOrderbook.empty pair⟩
        (.asset 5)).2 (by decide)).imp fun _ h => ⟨h.1, h.2.2.2⟩⟩

set_option maxRecDepth 4000 in
/-- C26: for a ledger version of at least 10, `getAvailableBalance(header, entry)` is, in
`int64_t` arithmetic, `balance - getMinBalance(header, account) - sellingLiabilities` for an
account entry for which `getMinBalance` returns (it throws what `getMinBalance` throws
otherwise), and `balance - sellingLiabilities` for a trust-line entry that is authorized to
maintain liabilities, the selling liabilities being `0` for an entry without V1 extension;
these are the exact integers whenever the differences lie in the range of `int64_t`. The call
throws "Invalid authorization" for a trust line that is not authorized to maintain
liabilities and "Unknown LedgerEntry type" for an entry of any other type. -/
theorem C26_getAvailableBalance (xdr : XdrDeclarations) (header : LedgerHeader)
    (hversion : 10 ≤ header.ledgerVersion) :
    (∀ (acc : AccountEntry) (minBalance : Int),
      AccountEntry.getMinBalance header acc = .ok minBalance →
      getAvailableBalance xdr header ⟨.ACCOUNT acc⟩
        = .ok (toInt64 (toInt64 (acc.balance - minBalance)
          - (match acc.ext with
            | none => 0
            | some v1 => v1.liabilities.selling))) ∧
      (-2 ^ 63 ≤ acc.balance - minBalance → acc.balance - minBalance < 2 ^ 63 →
        -2 ^ 63 ≤ acc.balance - minBalance
          - (match acc.ext with
            | none => 0
            | some v1 => v1.liabilities.selling) →
        acc.balance - minBalance
          - (match acc.ext with
            | none => 0
            | some v1 => v1.liabilities.selling) < 2 ^ 63 →
        getAvailableBalance xdr header ⟨.ACCOUNT acc⟩
          = .ok (acc.balance - minBalance
            - (match acc.ext with
              | none => 0
              | some v1 => v1.liabilities.selling)))) ∧
    (∀ (acc : AccountEntry) (e : Fault),
      AccountEntry.getMinBalance header acc = .error e →
      getAvailableBalance xdr header ⟨.ACCOUNT acc⟩ = .error e) ∧
    (∀ tl : TrustLineEntry, isAuthorizedToMaintainLiabilities xdr tl = true →
      getAvailableBalance xdr header ⟨.TRUSTLINE tl⟩
        = .ok (toInt64 (tl.balance
          - (match tl.ext with
            | none => 0
            | some liabilities => liabilities.selling))) ∧
      (-2 ^ 63 ≤ tl.balance
          - (match tl.ext with
            | none => 0
            | some liabilities => liabilities.selling) →
        tl.balance
          - (match tl.ext with
            | none => 0
            | some liabilities => liabilities.selling) < 2 ^ 63 →
        getAvailableBalance xdr header ⟨.TRUSTLINE tl⟩
          = .ok (tl.balance
            - (match tl.ext with
              | none => 0
              | some liabilities => liabilities.selling)))) ∧
    (∀ tl : TrustLineEntry, isAuthorizedToMaintainLiabilities xdr tl = false →
      getAvailableBalance xdr header ⟨.TRUSTLINE tl⟩ = .error .invalidAuthorization ∧
      Fault.what .invalidAuthorization = some "Invalid authorization") ∧
    (∀ type : Nat,
      getAvailableBalance xdr header ⟨.OTHER type⟩ = .error .unknownLedgerEntryType ∧
      Fault.what .unknownLedgerEntryType = some "Unknown LedgerEntry type") := by
  have hv1 : ¬ header.ledgerVersion < 10 := by omega
  have hv2 : header.ledgerVersion ≥ 10 := hversion
  have hacc : ∀ (acc : AccountEntry) (minBalance : Int),
      AccountEntry.getMinBalance header acc = .ok minBalance →
      getAvailableBalance xdr header ⟨.ACCOUNT acc⟩
        = .ok (toInt64 (toInt64 (acc.balance - minBalance)
          - (match acc.ext with
            | none => 0
            | some v1 => v1.liabilities.selling))) := by
    intro acc minBalance hmin
    unfold getAvailableBalance getSellingLiabilities
    simp only [hmin, if_pos hv2, if_neg hv1]
    cases acc.ext <;> rfl
  have htl : ∀ tl : TrustLineEntry, isAuthorizedToMaintainLiabilities xdr tl = true →
      getAvailableBalance xdr header ⟨.TRUSTLINE tl⟩
        = .ok (toInt64 (tl.balance
          - (match tl.ext with
            | none => 0
            | some liabilities => liabilities.selling))) := by
    intro tl hauth
    unfold getAvailableBalance getSellingLiabilities checkAuthorization
    simp only [hauth, if_pos hv2, if_neg hv1]
    cases tl.ext <;> rfl
  refine ⟨?_, ?_, ?_, ?_, ?_⟩
  · intro acc minBalance hmin
    refine ⟨hacc acc minBalance hmin, ?_⟩
    intro h1 h2 h3 h4
    rw [hacc acc minBalance hmin, toInt64_of_range h1 h2, toInt64_of_range h3 h4]
  · intro acc e hmin
    unfold getAvailableBalance
    simp only [hmin]
  · intro tl hauth
    refine ⟨htl tl hauth, ?_⟩
    intro h1 h2
    rw [htl tl hauth, toInt64_of_range h1 h2]
  · intro tl hauth
    refine ⟨?_, rfl⟩
    unfold getAvailableBalance checkAuthorization
    simp [hauth, hv1]
  · intro type
    exact ⟨rfl, rfl⟩

/-- C26 at ledger version 18 with base reserve 5000000, on an account with balance
100000000, three subentries and selling liabilities 7000: the minimum balance is
`5 * 5000000` and the available balance `100000000 - 25000000 - 7000`. -/
theorem C26_getAvailableBalance_witness :
    getAvailableBalance ⟨fun _ => .ASSET_TYPE_NATIVE, fun a => a, 16, 1⟩ ⟨18, 5000000⟩
      ⟨.ACCOUNT ⟨100000000, 3, 0, some ⟨⟨0, 7000⟩, none⟩⟩⟩ = .ok 74993000 :=
  ((C26_getAvailableBalance ⟨fun _ => .ASSET_TYPE_NATIVE, fun a => a, 16, 1⟩ ⟨18, 5000000⟩
    (by decide)).1 ⟨100000000, 3, 0, some ⟨⟨0, 7000⟩, none⟩⟩ 25000000 (by rfl)).2
    (by decide) (by decide) (by decide) (by decide)

/-- C27: for all assets `x` and `y`, `getPoolID(x, y) = getPoolID(y, x)`, for every hash
function and fee constant: the parameters hashed are the same for both calls, they hold the
smaller asset as `assetA` and the larger as `assetB` (so `assetA ≤ assetB`), and
`LIQUIDITY_POOL_FEE_V18` as fee. -/
theorem C27_getPoolID_symmetric (xdrSha256 : LiquidityPoolConstantProductParameters → Nat)
    (LIQUIDITY_POOL_FEE_V18 : Nat) (x y : Asset) :
    getPoolID xdrSha256 LIQUIDITY_POOL_FEE_V18 x y
      = getPoolID xdrSha256 LIQUIDITY_POOL_FEE_V18 y x ∧
    getPoolIDParams LIQUIDITY_POOL_FEE_V18 x y = getPoolIDParams LIQUIDITY_POOL_FEE_V18 y x ∧
    getPoolIDParams LIQUIDITY_POOL_FEE_V18 x y = ⟨min x y, max x y, LIQUIDITY_POOL_FEE_V18⟩ ∧
    (getPoolIDParams LIQUIDITY_POOL_FEE_V18 x y).assetA
      ≤ (getPoolIDParams LIQUIDITY_POOL_FEE_V18 x y).assetB ∧
    getPoolID xdrSha256 LIQUIDITY_POOL_FEE_V18 x y
      = xdrSha256 ⟨min x y, max x y, LIQUIDITY_POOL_FEE_V18⟩ := by
  have hparams : ∀ a b : Asset, getPoolIDParams LIQUIDITY_POOL_FEE_V18 a b
      = ⟨min a b, max a b, LIQUIDITY_POOL_FEE_V18⟩ := by
    intro a b
    unfold getPoolIDParams
    by_cases hab : a < b
    · rw [if_pos hab, Nat.min_eq_left (Nat.le_of_lt hab), Nat.max_eq_right (Nat.le_of_lt hab)]
    · rw [if_neg hab, Nat.min_eq_right (Nat.le_of_not_lt hab),
        Nat.max_eq_left (Nat.le_of_not_lt hab)]
  have hsym : getPoolIDParams LIQUIDITY_POOL_FEE_V18 x y
      = getPoolIDParams LIQUIDITY_POOL_FEE_V18 y x := by
    rw [hparams, hparams, Nat.min_comm, Nat.max_comm]
  refine ⟨?_, hsym, hparams x y, ?_, ?_⟩
  · unfold getPoolID
    rw [hsym]
  · rw [hparams]
    exact Nat.le_trans (Nat.min_le_left x y) (Nat.le_max_left x y)
  · unfold getPoolID
    rw [hparams]

/-- C28: for a `uint64_t` value `x` and a fee `f` of at most 10000 basis points,
`subtractFeeRateFixedPoint(x)` is `x - floor(x * f / 10000)` (the product does not wrap in 128
bits nor the quotient in 64), also as an integer, so without wrapping below `0`; it is at most
`x`, and it is `0` when the fee part `floor(x * f / 10000)` is at least `x`. -/
theorem C28_subtractFeeRateFixedPoint (frame : LiquidityPoolFrame) (x : Nat)
    (hx : x < 2 ^ 64) (hf : frame.getFixedPointFeeRate ≤ 10000) :
    frame.subtractFeeRateFixedPoint x = x - x * frame.getFixedPointFeeRate / 10000 ∧
    (frame.subtractFeeRateFixedPoint x : Int)
      = (x : Int) - ((x * frame.getFixedPointFeeRate / 10000 : Nat) : Int) ∧
    frame.subtractFeeRateFixedPoint x ≤ x ∧
    (x * frame.getFixedPointFeeRate / 10000 ≥ x → frame.subtractFeeRateFixedPoint x = 0) := by
  have hle : x * frame.getFixedPointFeeRate / 10000 ≤ x := by
    apply Nat.div_le_of_le_mul
    rw [Nat.mul_comm 10000 x]
    exact Nat.mul_le_mul_left x hf
  have hprod : x * frame.getFixedPointFeeRate < 2 ^ 128 := by
    have : x * frame.getFixedPointFeeRate ≤ x * 10000 := Nat.mul_le_mul_left x hf
    omega
  have heq : frame.subtractFeeRateFixedPoint x = x - x * frame.getFixedPointFeeRate / 10000 := by
    unfold LiquidityPoolFrame.subtractFeeRateFixedPoint
    simp only
    rw [Nat.mod_eq_of_lt hprod, Nat.mod_eq_of_lt (by omega)]
    split <;> omega
  refine ⟨heq, ?_, ?_, ?_⟩
  · rw [heq]; omega
  · rw [heq]; omega
  · intro h; rw [heq]; omega

/-- C28 at `x = 1000000` with the fee of 30 basis points: `1000000 - 3000 = 997000`. -/
theorem C28_subtractFeeRateFixedPoint_witness :
    LiquidityPoolFrame.subtractFeeRateFixedPoint ⟨⟨some ⟨7, 1000000, 1000000, 30⟩⟩, ⟨1, 2⟩⟩
      1000000 = 997000 :=
  (C28_subtractFeeRateFixedPoint ⟨⟨some ⟨7, 1000000, 1000000, 30⟩⟩, ⟨1, 2⟩⟩ 1000000
    (by decide) (by decide)).1

set_option maxRecDepth 4000 in
/-- C29: for every pool, every implementation of `sqrt` and all prices with `sellPrice ≥ 1`,
`amountOfferedForSaleTimesSellPrice` returns a value in `[0, 2^127 - 1]`, so the unsigned
`total` is never negative as an `__int128`; the value is `0` when
`top = sellPrice * firstTerm` is below `bot = secondTermA * secondTermB`, and past the early
returns it is `m - m % sellPrice` for `m = min (top - bot) (2^127 - 1)`: the clamp comes
before the rounding down to a multiple of `sellPrice`. -/
theorem C29_amountOffered_range (sqrt : Nat → Nat → Nat) (frame : LiquidityPoolFrame)
    (sellPrice buyPrice : Nat) (hsp : 1 ≤ sellPrice) :
    ∃ v : Int, frame.amountOfferedForSaleTimesSellPrice sqrt sellPrice buyPrice = .ok v ∧
      0 ≤ v ∧ v ≤ 2 ^ 127 - 1 ∧
      ((sellPrice * LiquidityPoolFrame.hackyBigSquareRootRoundDown sqrt
            (toUInt64 frame.getSellBuyAmounts.1) frame.getMinPriceRatioFixedPoint.2) % 2 ^ 128
          < (LiquidityPoolFrame.hackyBigSquareRootRoundUp sqrt
              (toUInt64 frame.getSellBuyAmounts.2) buyPrice
            * LiquidityPoolFrame.hackyBigSquareRootRoundUp sqrt
              (toUInt64 frame.getSellBuyAmounts.1) sellPrice) % 2 ^ 128 → v = 0) ∧
      (frame.getSellBuyAmounts.1 ≠ 0 → frame.getMinPriceRatioFixedPoint.2 ≠ 0 →
        LiquidityPoolFrame.priceLT sellPrice buyPrice frame.getMinPriceRatioFixedPoint.1
          frame.getMinPriceRatioFixedPoint.2 = false →
        v = ((min ((sellPrice * LiquidityPoolFrame.hackyBigSquareRootRoundDown sqrt
                (toUInt64 frame.getSellBuyAmounts.1) frame.getMinPriceRatioFixedPoint.2)
                  % 2 ^ 128
              - (LiquidityPoolFrame.hackyBigSquareRootRoundUp sqrt
                  (toUInt64 frame.getSellBuyAmounts.2) buyPrice
                * LiquidityPoolFrame.hackyBigSquareRootRoundUp sqrt
                  (toUInt64 frame.getSellBuyAmounts.1) sellPrice) % 2 ^ 128) (2 ^ 127 - 1)
            - min ((sellPrice * LiquidityPoolFrame.hackyBigSquareRootRoundDown sqrt
                (toUInt64 frame.getSellBuyAmounts.1) frame.getMinPriceRatioFixedPoint.2)
                  % 2 ^ 128
              - (LiquidityPoolFrame.hackyBigSquareRootRoundUp sqrt
                  (toUInt64 frame.getSellBuyAmounts.2) buyPrice
                * LiquidityPoolFrame.hackyBigSquareRootRoundUp sqrt
                  (toUInt64 frame.getSellBuyAmounts.1) sellPrice) % 2 ^ 128) (2 ^ 127 - 1)
              % sellPrice : Nat) : Int)) := by
  unfold LiquidityPoolFrame.amountOfferedForSaleTimesSellPrice
  simp only
  generalize (sellPrice * LiquidityPoolFrame.hackyBigSquareRootRoundDown sqrt
    (toUInt64 frame.getSellBuyAmounts.1) frame.getMinPriceRatioFixedPoint.2) % 2 ^ 128 = T
  generalize (LiquidityPoolFrame.hackyBigSquareRootRoundUp sqrt
      (toUInt64 frame.getSellBuyAmounts.2) buyPrice
    * LiquidityPoolFrame.hackyBigSquareRootRoundUp sqrt
      (toUInt64 frame.getSellBuyAmounts.1) sellPrice) % 2 ^ 128 = B
  have hmax := INT128_MAX_eq
  by_cases h1 : frame.getSellBuyAmounts.1 = 0
  · rw [if_pos h1]
    exact ⟨0, rfl, le_refl _, by norm_num, fun _ => rfl, fun h => absurd h1 h⟩
  rw [if_neg h1]
  by_cases h2 : frame.getMinPriceRatioFixedPoint.2 = 0
  · rw [if_pos h2]
    exact ⟨0, rfl, le_refl _, by norm_num, fun _ => rfl, fun _ h => absurd h2 h⟩
  rw [if_neg h2]
  by_cases h3 : LiquidityPoolFrame.priceLT sellPrice buyPrice
      frame.getMinPriceRatioFixedPoint.1 frame.getMinPriceRatioFixedPoint.2 = true
  · rw [if_pos h3]
    exact ⟨0, rfl, le_refl _, by norm_num, fun _ => rfl,
      fun _ _ h => by rw [h] at h3; cases h3⟩
  rw [if_neg h3]
  by_cases h4 : T < B
  · rw [if_pos h4]
    refine ⟨0, rfl, le_refl _, by norm_num, fun _ => rfl, fun _ _ _ => ?_⟩
    have : T - B = 0 := by omega
    rw [this]
    simp
  rw [if_neg h4, if_neg (by omega)]
  have hm : (if T - B > INT128_MAX then INT128_MAX else T - B) = min (T - B) (2 ^ 127 - 1) := by
    rw [hmax]
    split <;> omega
  rw [hm]
  have hle : min (T - B) (2 ^ 127 - 1) ≤ 2 ^ 127 - 1 := Nat.min_le_right _ _
  have hmod : min (T - B) (2 ^ 127 - 1) % sellPrice ≤ min (T - B) (2 ^ 127 - 1) :=
    Nat.mod_le _ _
  generalize min (T - B) (2 ^ 127 - 1) = m at hle hmod ⊢
  generalize m % sellPrice = r at hmod ⊢
  have hv : toInt128 ((m - r : Nat) : Int) = ((m - r : Nat) : Int) := by
    apply toInt128_of_range <;> omega
  rw [hv]
  exact ⟨_, rfl, by omega, by omega, fun h => absurd h h4, fun _ _ _ => rfl⟩

/-- C29 at the pool `(1000000, 1000000)` with fee 30 and the prices `(2, 1)`, with the exact
ceiling square root. -/
theorem C29_amountOffered_range_witness :
    ∃ v : Int, LiquidityPoolFrame.amountOfferedForSaleTimesSellPrice sqrtCeil
        ⟨⟨some ⟨7, 1000000, 1000000, 30⟩⟩, ⟨1, 2⟩⟩ 2 1 = .ok v ∧ 0 ≤ v ∧ v ≤ 2 ^ 127 - 1 :=
  (C29_amountOffered_range sqrtCeil ⟨⟨some ⟨7, 1000000, 1000000, 30⟩⟩, ⟨1, 2⟩⟩ 2 1
    (by decide)).imp fun _ h => ⟨h.1, h.2.1, h.2.2.1⟩

/-- C30: for an existing pool with reserves `(reserveA, reserveB)` and every trading pair,
`getSellBuyAmounts` returns `(reserveA, reserveB)` when the selling asset is below the buying
asset and `(reserveB, reserveA)` otherwise; `getMinPriceRatioFixedPoint` returns the buy
reserve and `subtractFeeRateFixedPoint` of the sell reserve of that orientation, each
converted to `uint64_t`, which changes no reserve in `[0, 2^63)`; the frames of the pairs
`(x, y)` and `(y, x)` over the pool see each other's reserves swapped exactly when `x ≠ y` or
the two reserves are equal, so for every two distinct assets. -/
theorem C30_orientation (entry : LiquidityPoolEntry) (tradingPair : AssetPair) (x y : Asset) :
    LiquidityPoolFrame.getSellBuyAmounts ⟨⟨some entry⟩, tradingPair⟩
      = (if tradingPair.selling < tradingPair.buying then (entry.reserveA, entry.reserveB)
          else (entry.reserveB, entry.reserveA)) ∧
    LiquidityPoolFrame.getMinPriceRatioFixedPoint ⟨⟨some entry⟩, tradingPair⟩
      = (toUInt64 (LiquidityPoolFrame.getSellBuyAmounts ⟨⟨some entry⟩, tradingPair⟩).2,
          LiquidityPoolFrame.subtractFeeRateFixedPoint ⟨⟨some entry⟩, tradingPair⟩
            (toUInt64 (LiquidityPoolFrame.getSellBuyAmounts ⟨⟨some entry⟩, tradingPair⟩).1)) ∧
    (0 ≤ entry.reserveA → entry.reserveA < 2 ^ 63 → 0 ≤ entry.reserveB →
      entry.reserveB < 2 ^ 63 →
      ((LiquidityPoolFrame.getMinPriceRatioFixedPoint ⟨⟨some entry⟩, tradingPair⟩).1 : Int)
        = (LiquidityPoolFrame.getSellBuyAmounts ⟨⟨some entry⟩, tradingPair⟩).2 ∧
      (LiquidityPoolFrame.getMinPriceRatioFixedPoint ⟨⟨some entry⟩, tradingPair⟩).2
        = LiquidityPoolFrame.subtractFeeRateFixedPoint ⟨⟨some entry⟩, tradingPair⟩
          (LiquidityPoolFrame.getSellBuyAmounts ⟨⟨some entry⟩, tradingPair⟩).1.toNat) ∧
    (LiquidityPoolFrame.getSellBuyAmounts ⟨⟨some entry⟩, ⟨x, y⟩⟩
        = ((LiquidityPoolFrame.getSellBuyAmounts ⟨⟨some entry⟩, ⟨y, x⟩⟩).2,
            (LiquidityPoolFrame.getSellBuyAmounts ⟨⟨some entry⟩, ⟨y, x⟩⟩).1)
      ↔ x ≠ y ∨ entry.reserveA = entry.reserveB) ∧
    (x ≠ y →
      LiquidityPoolFrame.getSellBuyAmounts ⟨⟨some entry⟩, ⟨x, y⟩⟩
        = ((LiquidityPoolFrame.getSellBuyAmounts ⟨⟨some entry⟩, ⟨y, x⟩⟩).2,
            (LiquidityPoolFrame.getSellBuyAmounts ⟨⟨some entry⟩, ⟨y, x⟩⟩).1)) := by
  have hget : ∀ pair : AssetPair, LiquidityPoolFrame.getSellBuyAmounts ⟨⟨some entry⟩, pair⟩
      = (if pair.selling < pair.buying then (entry.reserveA, entry.reserveB)
          else (entry.reserveB, entry.reserveA)) := by
    intro pair
    simp [LiquidityPoolFrame.getSellBuyAmounts, LiquidityPoolFrameBase.toBool,
      LiquidityPoolFrameBase.getReserves]
  have hswap : LiquidityPoolFrame.getSellBuyAmounts ⟨⟨some entry⟩, ⟨x, y⟩⟩
        = ((LiquidityPoolFrame.getSellBuyAmounts ⟨⟨some entry⟩, ⟨y, x⟩⟩).2,
            (LiquidityPoolFrame.getSellBuyAmounts ⟨⟨some entry⟩, ⟨y, x⟩⟩).1)
      ↔ x ≠ y ∨ entry.reserveA = entry.reserveB := by
    rw [hget, hget]
    simp only
    by_cases hxy : x < y
    · rw [if_pos hxy, if_neg (Nat.lt_asymm hxy)]
      exact ⟨fun _ => Or.inl (Nat.ne_of_lt hxy), fun _ => rfl⟩
    · by_cases hyx : y < x
      · rw [if_neg hxy, if_pos hyx]
        exact ⟨fun _ => Or.inl (Nat.ne_of_gt hyx), fun _ => rfl⟩
      · have hxy' : x = y := Nat.le_antisymm (Nat.le_of_not_lt hyx) (Nat.le_of_not_lt hxy)
        rw [if_neg hxy, if_neg hyx]
        constructor
        · intro h
          exact Or.inr (Prod.mk.inj h).2
        · intro h
          rcases h with h | h
          · exact absurd hxy' h
          · rw [h]
  refine ⟨hget tradingPair, rfl, ?_, hswap, fun h => hswap.mpr (Or.inl h)⟩
  intro ha0 ha1 hb0 hb1
  unfold LiquidityPoolFrame.getMinPriceRatioFixedPoint
  simp only
  rw [hget]
  split
  · simp only
    constructor
    · exact toUInt64_of_nonneg hb0 (by omega)
    · congr 1
      have := toUInt64_of_nonneg ha0 (show entry.reserveA < 2 ^ 64 by omega)
      omega
  · simp only
    constructor
    · exact toUInt64_of_nonneg ha0 (by omega)
    · congr 1
      have := toUInt64_of_nonneg hb0 (show entry.reserveB < 2 ^ 64 by omega)
      omega

/-- C30 at the pool with reserves `(1000000, 2000000)` and the assets `1` and `2`: the frame
of `(1, 2)` sees `(1000000, 2000000)`, that of `(2, 1)` sees `(2000000, 1000000)`. -/
theorem C30_orientation_witness :
    LiquidityPoolFrame.getSellBuyAmounts ⟨⟨some ⟨7, 1000000, 2000000, 30⟩⟩, ⟨1, 2⟩⟩
      = ((LiquidityPoolFrame.getSellBuyAmounts
            ⟨⟨some ⟨7, 1000000, 2000000, 30⟩⟩, ⟨2, 1⟩⟩).2,
          (LiquidityPoolFrame.getSellBuyAmounts
            ⟨⟨some ⟨7, 1000000, 2000000, 30⟩⟩, ⟨2, 1⟩⟩).1) :=
  (C30_orientation ⟨7, 1000000, 2000000, 30⟩ ⟨1, 2⟩ 1 2).2.2.2.2 (by decide)

/-! ## Claims C31 to C37 -/

set_option maxRecDepth 4000 in
/-- C31: with the exact `sqrt`, for a sell reserve in `[0, 2^63)` and `sellPrice ≥ 1`,
`amountOfferedForSaleTimesSellPrice(sellPrice, buyPrice)` returns a value of at most
`sellPrice * sellReserve`; hence, for a `uint64_t` sell price, every `int64_t` `sellAmount`
that `assertValidSellAmount` accepts satisfies `0 ≤ sellAmount ≤ sellReserve`, and the
`int64_t` difference `oldSellAmount - sellAmount` of `assertValidTrade` is exact and not
negative. -/
theorem C31_offered_le_sellPrice_mul_reserve (frame : LiquidityPoolFrame)
    (sellPrice buyPrice : Nat)
    (hs0 : 0 ≤ frame.getSellBuyAmounts.1) (hs1 : frame.getSellBuyAmounts.1 < 2 ^ 63)
    (hsp : 1 ≤ sellPrice) :
    (∃ v : Int, frame.amountOfferedForSaleTimesSellPrice sqrtCeil sellPrice buyPrice = .ok v ∧
      v ≤ (sellPrice : Int) * frame.getSellBuyAmounts.1) ∧
    (sellPrice < 2 ^ 64 → ∀ sellAmount : Int, -2 ^ 63 ≤ sellAmount → sellAmount < 2 ^ 63 →
      frame.assertValidSellAmount sqrtCeil sellAmount sellPrice buyPrice = .ok () →
      0 ≤ sellAmount ∧ sellAmount ≤ frame.getSellBuyAmounts.1 ∧
      toInt64 (frame.getSellBuyAmounts.1 - sellAmount) = frame.getSellBuyAmounts.1 - sellAmount ∧
      0 ≤ toInt64 (frame.getSellBuyAmounts.1 - sellAmount)) := by
  obtain ⟨v, hv, hv0, hvle⟩ :=
    LiquidityPoolFrame.amountOffered_le_sellPrice_mul_reserve frame sellPrice buyPrice hs0 hs1 hsp
  refine ⟨⟨v, hv, hvle⟩, ?_⟩
  intro hsp64 sellAmount hsa0 hsa1 hok
  have hnn := LiquidityPoolFrame.assertValidSellAmount_ok_nonneg sqrtCeil frame sellAmount
    sellPrice buyPrice hok
  rw [assertValidSellAmount_of_offered sqrtCeil frame sellAmount sellPrice buyPrice v
    hsa0 hsa1 hsp64 hv] at hok
  have hq : ¬ sellAmount * (sellPrice : Int) > v := by
    intro hgt
    rw [if_pos hgt] at hok
    cases hok
  have hle : sellAmount ≤ frame.getSellBuyAmounts.1 := by
    by_contra hcon
    have h1 : frame.getSellBuyAmounts.1 + 1 ≤ sellAmount := by omega
    have hp : (0 : Int) < (sellPrice : Int) := by exact_mod_cast hsp
    have h2 : (sellPrice : Int) * (frame.getSellBuyAmounts.1 + 1) ≤ (sellPrice : Int) * sellAmount :=
      mul_le_mul_of_nonneg_left h1 (le_of_lt hp)
    have h3 : (sellPrice : Int) * (frame.getSellBuyAmounts.1 + 1)
        = (sellPrice : Int) * frame.getSellBuyAmounts.1 + sellPrice := by ring
    have h4 : sellAmount * (sellPrice : Int) = (sellPrice : Int) * sellAmount := by ring
    omega
  have hex : toInt64 (frame.getSellBuyAmounts.1 - sellAmount)
      = frame.getSellBuyAmounts.1 - sellAmount := toInt64_of_range (by omega) (by omega)
  exact ⟨hnn, hle, hex, by rw [hex]; omega⟩

/-- C31 at the pool `(1000000, 1000000)` with fee 30, the prices `(2, 1)` and the accepted
sell amount 200000. -/
theorem C31_offered_le_sellPrice_mul_reserve_witness :
    (0 : Int) ≤ 200000 ∧ (200000 : Int)
      ≤ (LiquidityPoolFrame.getSellBuyAmounts ⟨⟨some ⟨7, 1000000, 1000000, 30⟩⟩, ⟨1, 2⟩⟩).1 :=
  ((C31_offered_le_sellPrice_mul_reserve ⟨⟨some ⟨7, 1000000, 1000000, 30⟩⟩, ⟨1, 2⟩⟩ 2 1
    (by decide) (by decide) (by decide)).2 (by decide) 200000 (by decide) (by decide)
    (by rfl)).imp id fun h => h.1

/-- C32 fails at the sell price `0`: on the pool `(1000000, 1000000)` with fee 30 and the
prices `(0, 0)`, and on the pool `(1, 0)` with fee 0 and the prices `(0, 1)`, none of the
early returns is taken (`priceLT` compares `0` with `0`, `top = bot = 0`) and the call
evaluates `total % sellPrice` with `sellPrice = 0`. -/
theorem C32_modulo_by_zero_sellPrice :
    LiquidityPoolFrame.amountOfferedForSaleTimesSellPrice sqrtCeil
        ⟨⟨some ⟨7, 1000000, 1000000, 30⟩⟩, ⟨1, 2⟩⟩ 0 0 = .error .divisionByZero ∧
    LiquidityPoolFrame.amountOfferedForSaleTimesSellPrice sqrtCeil
        ⟨⟨some ⟨7, 1, 0, 0⟩⟩, ⟨1, 2⟩⟩ 0 1 = .error .divisionByZero := by
  constructor <;> rfl

/-- C33: when `doTransfer` does not return, the frame after the call is the frame before it,
so the reserves are unchanged: the call ended at `"can't modify nonexistent lp"` on an absent
pool, or in `assertValidTrade` evaluated on the frame before the call, whose faults are
"invalid sell amount!", "negative sell amount?", "constant product invariant not preserved"
and the modulo by a zero sell price; `transfer` is reached only after these. -/
theorem C33_doTransfer_throw_leaves_reserves (sqrt : Nat → Nat → Nat)
    (frame : LiquidityPoolFrame) (sellAmount buyAmount : Int) (sellPrice buyPrice : Nat)
    (e : Fault)
    (h : frame.doTransfer sqrt sellAmount buyAmount sellPrice buyPrice = .error e) :
    frame.frameAfterDoTransfer sqrt sellAmount buyAmount sellPrice buyPrice = frame ∧
    (frame.frameAfterDoTransfer sqrt sellAmount buyAmount sellPrice buyPrice).getSellBuyAmounts
      = frame.getSellBuyAmounts ∧
    ((frame.mBaseFrame.toBool = false ∧ e = .nonexistentLp) ∨
      (frame.mBaseFrame.toBool = true ∧
        frame.assertValidTrade sqrt sellAmount buyAmount sellPrice buyPrice = .error e ∧
        (e = .invalidSellAmount ∨ e = .negativeSellAmount ∨ e = .constantProductNotPreserved
          ∨ e = .divisionByZero))) := by
  have hframe : frame.frameAfterDoTransfer sqrt sellAmount buyAmount sellPrice buyPrice
      = frame ∧
      ((frame.mBaseFrame.toBool = false ∧ e = .nonexistentLp) ∨
        (frame.mBaseFrame.toBool = true ∧
          frame.assertValidTrade sqrt sellAmount buyAmount sellPrice buyPrice = .error e)) := by
    unfold LiquidityPoolFrame.doTransfer at h
    unfold LiquidityPoolFrame.frameAfterDoTransfer
    by_cases hb : frame.mBaseFrame.toBool = true
    · rw [if_neg (by simp [hb])] at h ⊢
      cases hv : frame.assertValidTrade sqrt sellAmount buyAmount sellPrice buyPrice with
      | error e' =>
        rw [hv] at h
        simp only [Except.error.injEq] at h
        subst h
        exact ⟨rfl, Or.inr ⟨hb, rfl⟩⟩
      | ok u => rw [hv] at h; cases h
    · rw [if_pos (by simp [hb])] at h ⊢
      simp only [Except.error.injEq] at h
      exact ⟨rfl, Or.inl ⟨by simpa using hb, h.symm⟩⟩
  refine ⟨hframe.1, by rw [hframe.1], ?_⟩
  rcases hframe.2 with h1 | ⟨hb, hv⟩
  · exact Or.inl h1
  · refine Or.inr ⟨hb, hv, ?_⟩
    unfold LiquidityPoolFrame.assertValidTrade at hv
    cases hs : frame.assertValidSellAmount sqrt sellAmount sellPrice buyPrice with
    | error e' =>
      rw [hs] at hv
      simp only [Except.error.injEq] at hv
      subst hv
      unfold LiquidityPoolFrame.assertValidSellAmount at hs
      cases ho : frame.amountOfferedForSaleTimesSellPrice sqrt sellPrice buyPrice with
      | error e'' =>
        rw [ho] at hs
        simp only [Except.error.injEq] at hs
        subst hs
        unfold LiquidityPoolFrame.amountOfferedForSaleTimesSellPrice at ho
        simp only at ho
        split_ifs at ho
        simp only [Except.error.injEq] at ho
        exact Or.inr (Or.inr (Or.inr ho.symm))
      | ok v =>
        rw [ho] at hs
        simp only at hs
        split_ifs at hs
        · simp only [Except.error.injEq] at hs
          exact Or.inl hs.symm
        · simp only [Except.error.injEq] at hs
          exact Or.inr (Or.inl hs.symm)
    | ok u =>
      rw [hs] at hv
      simp only at hv
      split_ifs at hv
      simp only [Except.error.injEq] at hv
      exact Or.inr (Or.inr (Or.inl hv.symm))

/-- C33 at the pool `(1000000, 1000000)` with fee 30 and the call
`doTransfer(300000, 400000, 2, 1)`, which throws "invalid sell amount!". -/
theorem C33_doTransfer_throw_leaves_reserves_witness :
    LiquidityPoolFrame.frameAfterDoTransfer sqrtCeil
        ⟨⟨some ⟨7, 1000000, 1000000, 30⟩⟩, ⟨1, 2⟩⟩ 300000 400000 2 1
      = ⟨⟨some ⟨7, 1000000, 1000000, 30⟩⟩, ⟨1, 2⟩⟩ :=
  (C33_doTransfer_throw_leaves_reserves sqrtCeil
    ⟨⟨some ⟨7, 1000000, 1000000, 30⟩⟩, ⟨1, 2⟩⟩ 300000 400000 2 1 .invalidSellAmount
    (by rfl)).1

/-- C34: a `doTransfer` of an `int64_t` sell amount that returns has called `transfer` of the
base frame with `(-sellAmount, buyAmount)` when the selling asset is below the buying asset
and with `(buyAmount, -sellAmount)` otherwise (the negation is exact, `sellAmount` being
non-negative); the frame after the call is the one `frameAfterDoTransfer` gives; and
`getSellBuyAmounts` afterwards returns the sell reserve less `sellAmount` and the buy
reserve plus `buyAmount`. -/
theorem C34_doTransfer_deltas (sqrt : Nat → Nat → Nat) (frame : LiquidityPoolFrame)
    (sellAmount buyAmount : Int) (sellPrice buyPrice : Nat)
    (status : SpeedexLiquidityPoolClearingStatus) (after : LiquidityPoolFrame)
    (hsa1 : sellAmount < 2 ^ 63)
    (h : frame.doTransfer sqrt sellAmount buyAmount sellPrice buyPrice = .ok (status, after)) :
    0 ≤ sellAmount ∧
    after.mBaseFrame
      = (if frame.mTradingPair.selling < frame.mTradingPair.buying then
          frame.mBaseFrame.transfer (-sellAmount) buyAmount
        else frame.mBaseFrame.transfer buyAmount (-sellAmount)) ∧
    after.mBaseFrame.getReserves
      = (if frame.mTradingPair.selling < frame.mTradingPair.buying then
          (frame.mBaseFrame.getReserves.1 - sellAmount,
            frame.mBaseFrame.getReserves.2 + buyAmount)
        else (frame.mBaseFrame.getReserves.1 + buyAmount,
            frame.mBaseFrame.getReserves.2 - sellAmount)) ∧
    after.getSellBuyAmounts
      = (frame.getSellBuyAmounts.1 - sellAmount, frame.getSellBuyAmounts.2 + buyAmount) ∧
    frame.frameAfterDoTransfer sqrt sellAmount buyAmount sellPrice buyPrice = after := by
  obtain ⟨hb, hvt, hpair, hbase, _⟩ := LiquidityPoolFrame.doTransfer_ok sqrt frame sellAmount
    buyAmount sellPrice buyPrice _ h
  have hsa0 := LiquidityPoolFrame.assertValidSellAmount_ok_nonneg sqrt frame sellAmount
    sellPrice buyPrice
    (LiquidityPoolFrame.assertValidTrade_ok sqrt frame sellAmount buyAmount sellPrice buyPrice
      hvt)
  have hneg : toInt64 (-sellAmount) = -sellAmount := toInt64_of_range (by omega) (by omega)
  have hafter := LiquidityPoolFrame.getSellBuyAmounts_after_doTransfer sqrt frame sellAmount
    buyAmount sellPrice buyPrice _ hsa1 h
  simp only at hbase hpair hafter
  rw [hneg] at hbase
  refine ⟨hsa0, hbase, ?_, hafter, ?_⟩
  · rw [hbase]
    obtain ⟨base, pair⟩ := frame
    obtain ⟨entry⟩ := base
    cases entry with
    | none => simp [LiquidityPoolFrameBase.toBool] at hb
    | some entry =>
      by_cases hlt : pair.selling < pair.buying
      · simp only [hlt, if_true, LiquidityPoolFrameBase.transfer,
          LiquidityPoolFrameBase.getReserves]
        ext <;> simp
        omega
      · simp only [hlt, if_false, LiquidityPoolFrameBase.transfer,
          LiquidityPoolFrameBase.getReserves]
        ext <;> simp
        omega
  · unfold LiquidityPoolFrame.frameAfterDoTransfer
    rw [if_neg (by simp [hb]), hvt]
    simp only [hneg]
    obtain ⟨abase, apair⟩ := after
    simp only at hbase hpair
    rw [hbase, hpair]
    split <;> rfl

/-- C34 at the pool `(1000000, 1000000)` with fee 30 seen from the pair `(2, 1)`, whose
selling asset is not below the buying one, and the call `doTransfer(200000, 300000, 2, 1)`:
the reserves become `(1300000, 800000)`. -/
theorem C34_doTransfer_deltas_witness :
    LiquidityPoolFrameBase.getReserves ⟨some ⟨7, 1300000, 800000, 30⟩⟩
      = (if (2 : Asset) < 1 then
          ((LiquidityPoolFrameBase.getReserves ⟨some ⟨7, 1000000, 1000000, 30⟩⟩).1 - 200000,
            (LiquidityPoolFrameBase.getReserves ⟨some ⟨7, 1000000, 1000000, 30⟩⟩).2 + 300000)
        else ((LiquidityPoolFrameBase.getReserves ⟨some ⟨7, 1000000, 1000000, 30⟩⟩).1 + 300000,
            (LiquidityPoolFrameBase.getReserves ⟨some ⟨7, 1000000, 1000000, 30⟩⟩).2
              - 200000)) :=
  (C34_doTransfer_deltas sqrtCeil ⟨⟨some ⟨7, 1000000, 1000000, 30⟩⟩, ⟨2, 1⟩⟩
    200000 300000 2 1 ⟨7, 2, 1, 200000, 300000⟩
    ⟨⟨some ⟨7, 1300000, 800000, 30⟩⟩, ⟨2, 1⟩⟩ (by decide) (by rfl)).2.2.1

/-- C35 fails on an issuance-limited account with the logs `(code 1, 5)` and `(code 2, -1)`:
`issueAsset(entry, code 1, -5)` has `a = 5 ≥ 0` and `a + delta = 0` in `[0, INT64_MAX]`, but
it does not return true: after `trimIssuedAssetLog` has erased the log of code 1, the check
`log.issuedAmount < 0` reads, through the reference to the erased position, the amount `-1`
of the log of code 2, and the call throws "somehow issued a negative amount of an asset!". -/
theorem C35_issueAsset_reads_erased_log :
    isIssuanceLimitedAccount ⟨fun _ => .ASSET_TYPE_NATIVE, fun a => a, 16, 1⟩ 16 = true ∧
    loggedAmount [⟨1, 5⟩, ⟨2, -1⟩] 1 = some 5 ∧
    issueAsset ⟨fun _ => .ASSET_TYPE_NATIVE, fun a => a, 16, 1⟩
        ⟨.ACCOUNT ⟨100, 0, 16, some ⟨⟨0, 0⟩, some ⟨0, 0, some ⟨[⟨1, 5⟩, ⟨2, -1⟩]⟩⟩⟩⟩⟩ 1 (-5)
      = .error .issuedNegativeAmount ∧
    Fault.what .issuedNegativeAmount = some "somehow issued a negative amount of an asset!" := by
  refine ⟨by rfl, by rfl, by rfl, by rfl⟩

/-- C36 as stated fails: on an issuance-limited account without extension,
`issueAsset(entry, code 7, -1)` returns false and leaves the entry with the extensions V1, V2
and V3 and a log of amount `0` for the code. -/
theorem C36_counterexample :
    issueAsset ⟨fun _ => .ASSET_TYPE_NATIVE, fun a => a, 16, 1⟩
        ⟨.ACCOUNT ⟨100, 0, 16, none⟩⟩ 7 (-1)
      = .ok (false,
          ⟨.ACCOUNT ⟨100, 0, 16, some ⟨⟨0, 0⟩, some ⟨0, 0, some ⟨[⟨7, 0⟩]⟩⟩⟩⟩⟩) ∧
    (⟨.ACCOUNT ⟨100, 0, 16, some ⟨⟨0, 0⟩, some ⟨0, 0, some ⟨[⟨7, 0⟩]⟩⟩⟩⟩⟩ : LedgerEntry)
      ≠ ⟨.ACCOUNT ⟨100, 0, 16, none⟩⟩ := by
  refine ⟨by rfl, by decide⟩

/-- C36, amended: when `issueAsset(entry, code, delta)` returns false, the entry is an
issuance-limited account; afterwards its balance, number of subentries and flags are those
before, it has the extension V3 (added by the call if it was absent), and its logs are those
before, with one log of amount `0` for the code added, in the order of the codes, if the code
had no log: no log that existed is removed or changed. The entry is exactly as before when
it had the extension V3 and a log for the code. -/
theorem C36_issueAsset_false (xdr : XdrDeclarations) (entry after : LedgerEntry)
    (code : AssetCode) (delta : Int)
    (h : issueAsset xdr entry code delta = .ok (false, after)) :
    ∃ account ae, entry.data = .ACCOUNT account ∧ after.data = .ACCOUNT ae ∧
      isIssuanceLimitedAccount xdr account.flags = true ∧
      ae.balance = account.balance ∧ ae.numSubEntries = account.numSubEntries ∧
      ae.flags = account.flags ∧
      hasAccountEntryExtV3 ae = true ∧
      ae.issuedAmounts
        = (if (loggedAmount account.issuedAmounts code).isSome then account.issuedAmounts
          else sortIssuedAssetLogs (account.issuedAmounts ++ [⟨code, 0⟩])) ∧
      (∀ l, l ∈ ae.issuedAmounts ↔
        l ∈ account.issuedAmounts ∨
          ((loggedAmount account.issuedAmounts code).isSome = false ∧ l = ⟨code, 0⟩)) ∧
      (hasAccountEntryExtV3 account = true →
        (loggedAmount account.issuedAmounts code).isSome = true → after = entry) := by
  obtain ⟨data⟩ := entry
  cases data with
  | TRUSTLINE tl => simp [issueAsset] at h
  | OTHER t => simp [issueAsset] at h
  | ACCOUNT account =>
    by_cases hlim : isIssuanceLimitedAccount xdr account.flags = true
    · obtain ⟨ae, logs, i, la, hlogs, hget, hb, hn, hf, hsame, _, _, heq⟩ :=
        issueAsset_account xdr account code delta hlim
      have hafter : after = ⟨.ACCOUNT ae⟩ := by
        rw [heq] at h
        split_ifs at h <;> simp_all
      refine ⟨account, ae, rfl, by rw [hafter], hlim, hb, hn, hf,
        hasAccountEntryExtV3_of_get ae _ hget, ?_, ?_, ?_⟩
      · rw [issuedAmounts_of_get ae logs hget, hlogs]
      · intro l
        rw [issuedAmounts_of_get ae logs hget, hlogs]
        by_cases hs : (loggedAmount account.issuedAmounts code).isSome = true
        · simp [hs]
        · rw [if_neg hs, mem_sortIssuedAssetLogs, List.mem_append, List.mem_singleton]
          simp [hs]
      · intro h1 h2
        rw [hafter, hsame h1 h2]
    · have hlim' : isIssuanceLimitedAccount xdr account.flags = false := by simpa using hlim
      rw [issueAsset_not_limited xdr account code delta hlim'] at h
      simp at h

/-- C36, amended, on the issuance-limited account with the one log `(code 7, 5)` and the call
`issueAsset(entry, code 7, -6)`, which returns false and leaves the entry as it was. -/
theorem C36_issueAsset_false_witness :
    ∃ account ae,
      (⟨.ACCOUNT ⟨100, 0, 16, some ⟨⟨0, 0⟩, some ⟨0, 0, some ⟨[⟨7, 5⟩]⟩⟩⟩⟩⟩ : LedgerEntry).data
        = .ACCOUNT account ∧
      (⟨.ACCOUNT ⟨100, 0, 16, some ⟨⟨0, 0⟩, some ⟨0, 0, some ⟨[⟨7, 5⟩]⟩⟩⟩⟩⟩ : LedgerEntry).data
        = .ACCOUNT ae ∧
      hasAccountEntryExtV3 ae = true :=
  (C36_issueAsset_false ⟨fun _ => .ASSET_TYPE_NATIVE, fun a => a, 16, 1⟩
    ⟨.ACCOUNT ⟨100, 0, 16, some ⟨⟨0, 0⟩, some ⟨0, 0, some ⟨[⟨7, 5⟩]⟩⟩⟩⟩⟩
    ⟨.ACCOUNT ⟨100, 0, 16, some ⟨⟨0, 0⟩, some ⟨0, 0, some ⟨[⟨7, 5⟩]⟩⟩⟩⟩⟩ 7 (-6)
    (by rfl)).imp fun _ h => h.imp fun _ h2 => ⟨h2.1, h2.2.1, h2.2.2.2.2.2.2.1⟩

/-- C37 as stated fails: at ledger version 9 with base reserve `2^31` and `2^32 - 1`
subentries, the exact value `(2 + (2^32 - 1)) * 2^31 = 2^63 + 2^31` is above `INT64_MAX`, the
`int64_t` product overflows, and the value returned is negative. -/
theorem C37_counterexample :
    getMinBalance ⟨9, 2147483648⟩ 4294967295 0 0 = .ok (-9223372034707292160) ∧
    (2 + 4294967295 + 0 - 0 : Int) * 2147483648 = 9223372039002259456 ∧
    (2 : Int) ^ 63 - 1 < 9223372039002259456 := by
  refine ⟨by rfl, by norm_num, by norm_num⟩

set_option maxRecDepth 4000 in
/-- C37, amended: for a ledger version of at least 9, `getMinBalance(header, numSubentries,
numSponsoring, numSponsored)` throws exactly when the entry count
`2 + numSubentries + numSponsoring - numSponsored` is negative, or the version is below 14
and `numSponsoring` or `numSponsored` is not zero; otherwise it returns the `int64_t` product
of the entry count and `baseReserve`, which is the exact integer, and not negative, whenever
that integer is at most `INT64_MAX`, as it is for all `uint32_t` counts when
`baseReserve < 2^30`. -/
theorem C37_getMinBalance (lh : LedgerHeader) (numSubentries numSponsoring numSponsored : Nat)
    (hversion : 9 ≤ lh.ledgerVersion) :
    ((∃ e, getMinBalance lh numSubentries numSponsoring numSponsored = .error e) ↔
      (2 + (numSubentries : Int) + (numSponsoring : Int) - (numSponsored : Int) < 0 ∨
        (lh.ledgerVersion < 14 ∧ (numSponsoring ≠ 0 ∨ numSponsored ≠ 0)))) ∧
    (¬ (2 + (numSubentries : Int) + (numSponsoring : Int) - (numSponsored : Int) < 0 ∨
        (lh.ledgerVersion < 14 ∧ (numSponsoring ≠ 0 ∨ numSponsored ≠ 0))) →
      getMinBalance lh numSubentries numSponsoring numSponsored
        = .ok (toInt64 ((2 + (numSubentries : Int) + (numSponsoring : Int)
            - (numSponsored : Int)) * (lh.baseReserve : Int))) ∧
      ((2 + (numSubentries : Int) + (numSponsoring : Int) - (numSponsored : Int))
          * (lh.baseReserve : Int) < 2 ^ 63 →
        getMinBalance lh numSubentries numSponsoring numSponsored
          = .ok ((2 + (numSubentries : Int) + (numSponsoring : Int)
              - (numSponsored : Int)) * (lh.baseReserve : Int)) ∧
        0 ≤ (2 + (numSubentries : Int) + (numSponsoring : Int) - (numSponsored : Int))
          * (lh.baseReserve : Int))) ∧
    (numSubentries < 2 ^ 32 → numSponsoring < 2 ^ 32 → lh.baseReserve < 2 ^ 30 →
      (2 + (numSubentries : Int) + (numSponsoring : Int) - (numSponsored : Int))
        * (lh.baseReserve : Int) < 2 ^ 63) := by
  have h8 : ¬ lh.ledgerVersion ≤ 8 := by omega
  refine ⟨?_, ?_, ?_⟩
  · unfold getMinBalance
    by_cases h1 : lh.ledgerVersion < 14 ∧ (numSponsored ≠ 0 ∨ numSponsoring ≠ 0)
    · rw [if_pos h1]
      exact ⟨fun _ => Or.inr ⟨h1.1, h1.2.symm⟩, fun _ => ⟨_, rfl⟩⟩
    · rw [if_neg h1, if_neg h8]
      simp only
      by_cases h2 : 2 + (numSubentries : Int) + (numSponsoring : Int) - (numSponsored : Int) < 0
      · rw [if_pos h2]
        exact ⟨fun _ => Or.inl h2, fun _ => ⟨_, rfl⟩⟩
      · rw [if_neg h2]
        constructor
        · rintro ⟨e, he⟩
          cases he
        · rintro (h | h)
          · exact absurd h h2
          · exact absurd ⟨h.1, h.2.symm⟩ h1
  · intro hno
    have h1 : ¬ (lh.ledgerVersion < 14 ∧ (numSponsored ≠ 0 ∨ numSponsoring ≠ 0)) :=
      fun h => hno (Or.inr ⟨h.1, h.2.symm⟩)
    have h2 : ¬ 2 + (numSubentries : Int) + (numSponsoring : Int) - (numSponsored : Int) < 0 :=
      fun h => hno (Or.inl h)
    have heq : getMinBalance lh numSubentries numSponsoring numSponsored
        = .ok (toInt64 ((2 + (numSubentries : Int) + (numSponsoring : Int)
            - (numSponsored : Int)) * (lh.baseReserve : Int))) := by
      unfold getMinBalance
      rw [if_neg h1, if_neg h8]
      simp only
      rw [if_neg h2]
    refine ⟨heq, ?_⟩
    intro hlt
    have hnn : 0 ≤ (2 + (numSubentries : Int) + (numSponsoring : Int) - (numSponsored : Int))
        * (lh.baseReserve : Int) :=
      mul_nonneg (by omega) (Int.natCast_nonneg _)
    rw [heq, toInt64_of_range (by omega) hlt]
    exact ⟨rfl, hnn⟩
  · intro hs hp hb
    have hb' : (lh.baseReserve : Int) ≤ 2 ^ 30 - 1 := by omega
    have hb0 : (0 : Int) ≤ (lh.baseReserve : Int) := Int.natCast_nonneg _
    by_cases hneg : 2 + (numSubentries : Int) + (numSponsoring : Int) - (numSponsored : Int) < 0
    · have : (2 + (numSubentries : Int) + (numSponsoring : Int) - (numSponsored : Int))
          * (lh.baseReserve : Int) ≤ 0 :=
        mul_nonpos_of_nonpos_of_nonneg (le_of_lt hneg) hb0
      omega
    · have he : 2 + (numSubentries : Int) + (numSponsoring : Int) - (numSponsored : Int)
          ≤ 2 ^ 33 := by omega
      have : (2 + (numSubentries : Int) + (numSponsoring : Int) - (numSponsored : Int))
          * (lh.baseReserve : Int) ≤ 2 ^ 33 * (2 ^ 30 - 1) :=
        mul_le_mul he hb' hb0 (by norm_num)
      omega

/-- C37, amended, at ledger version 18 with base reserve 5000000, three subentries, two
sponsoring and one sponsored entries: `(2 + 3 + 2 - 1) * 5000000 = 30000000`. -/
theorem C37_getMinBalance_witness :
    getMinBalance ⟨18, 5000000⟩ 3 2 1 = .ok 30000000 :=
  (((C37_getMinBalance ⟨18, 5000000⟩ 3 2 1 (by decide)).2.1 (by decide)).2 (by decide)).1

end stellar
